import Mathlib

/-!
Verification of the timetable allocation engine of `timetable-balancer`
(`src/utils/timetableGenerator.ts`, class `TimetableGenerator`).

The engine is embedded shallowly: TypeScript `Map`s become association
lists over `String` keys, the 6×N schedule grids become `List (List Cell)`,
and each allocator method becomes a Lean function over an explicit
`GenState`.  JavaScript strings are modelled through their character lists
(`String.data`), so `split(/[,+]/)`, `trim()`, `toLowerCase()` and
`includes()` are given as executable character-list functions.
-/

set_option maxRecDepth 20000

namespace TimetableBalancer

/-! ## Characters and staff-string parsing -/

/-- Whitespace characters recognised by `String.prototype.trim`
(restricted to the ASCII whitespace that can occur in CSV staff fields). -/
def isSpaceChar (c : Char) : Bool :=
  c = ' ' || c = '\t' || c = '\n' || c = '\r'

/-- The separators of the staff-splitting regex `/[,+]/`. -/
def isSepChar (c : Char) : Bool :=
  c = ',' || c = '+'

/-- `String.prototype.split` on the separator class `[,+]`: splits a
character list at every separator, keeping empty pieces. -/
def splitSep : List Char → List (List Char)
  | [] => [[]]
  | c :: rest =>
    if isSepChar c then [] :: splitSep rest
    else
      match splitSep rest with
      | [] => [[c]]
      | piece :: more => (c :: piece) :: more

/-- `String.prototype.trim` on a character list: drop leading and trailing
whitespace. -/
def trimChars (l : List Char) : List Char :=
  ((l.dropWhile isSpaceChar).reverse.dropWhile isSpaceChar).reverse

/-- `parseStaffMembers` on the character level:
`staffString.split(/[,+]/).map(s => s.trim()).filter(s => s.length > 0)`. -/
def parseStaffList (l : List Char) : List (List Char) :=
  ((splitSep l).map trimChars).filter (fun p => p ≠ [])

/-- `parseStaffMembers(staffString)`: parse staff members from a comma or
`+` separated string (an empty string yields the empty list, as does the
TS guard `if (!staffString) return []`). -/
def parseStaffMembers (s : String) : List String :=
  (parseStaffList s.data).map (fun l => ⟨l⟩)

/-- Concatenation with the separator `', '` between pieces. -/
def joinSepList : List (List Char) → List Char
  | [] => []
  | [p] => p
  | p :: q :: rest => p ++ ',' :: ' ' :: joinSepList (q :: rest)

/-- `Array.prototype.join(', ')` on staff-member names. -/
def joinStaff (l : List String) : String :=
  ⟨joinSepList (l.map String.data)⟩

/-- Number of occurrences of a name in a staff list. -/
def countOcc (t : String) : List String → Nat
  | [] => 0
  | x :: rest => (if x = t then 1 else 0) + countOcc t rest

/-! ## Subject classification (case-insensitive substring tests) -/

/-- `a.includes(b)` on character lists: some suffix of `a` has `b` as a
prefix. -/
def containsSub (a b : List Char) : Bool :=
  match a with
  | [] => b.isEmpty
  | _ :: t => b.isPrefixOf a || containsSub t b

/-- `subject.toLowerCase().includes(pat)` for a string pattern. -/
def lowerIncludes (s : String) (pat : String) : Bool :=
  containsSub (s.data.map Char.toLower) pat.data

/-- `isLabSubject`: the name contains `lab`, `practical` or `workshop`. -/
def isLabSubject (subject : String) : Bool :=
  lowerIncludes subject "lab" || lowerIncludes subject "practical" ||
    lowerIncludes subject "workshop"

/-- `isLabSubject` applied to a possibly-`undefined` subject
(`if (!subject) return false`). -/
def isLabSubjectO : Option String → Bool
  | none => false
  | some s => isLabSubject s

/-- `isLibrarySubject`: the name contains `library`. -/
def isLibrarySubject (subject : String) : Bool :=
  lowerIncludes subject "library"

/-- `isGamesSubject`: the name contains one of the games keywords. -/
def isGamesSubject (subject : String) : Bool :=
  lowerIncludes subject "games" || lowerIncludes subject "sports" ||
    lowerIncludes subject "physical education" || lowerIncludes subject "pt" ||
    lowerIncludes subject "aptitude" || lowerIncludes subject "spd" ||
    lowerIncludes subject "nptel"

/-! ## Data model (`src/types/timetable.ts`) -/

/-- One `TimeSlot` cell of a schedule grid.  Only the mutable assignment
fields are modelled; the constant `day`/`period` labels of the TS record
are determined by the cell's position in the grid. -/
structure Cell where
  subject : Option String
  staff : Option String
  className : Option String
  deriving Repr, DecidableEq

/-- The empty (unassigned) cell. -/
def Cell.empty : Cell := ⟨none, none, none⟩

/-- A schedule grid: 6 days × `totalPeriodsPerDay` cells. -/
abbrev Grid := List (List Cell)

/-- `ScheduleSettings`. -/
structure ScheduleSettings where
  totalPeriodsPerDay : Nat
  lunchPeriod : Nat
  breakPeriods : List Nat
  maxTeacherPeriodsPerWeek : Nat
  deriving Repr, DecidableEq

/-- One `SubjectData` input row.  (`section` is a Lean keyword, so the
field is called `sectionName`; the preference fields of the TS interface
are not read by the allocation engine and are omitted.) -/
structure SubjectData where
  department : String
  year : String
  sectionName : String
  subject : String
  periods : Nat
  staff : String
  deriving Repr, DecidableEq

/-- A `TeacherPreference` row (used only by the priority sort). -/
structure TeacherPreference where
  teacherName : String
  preferredDay : String
  preferredPeriod : Nat
  deriving Repr, DecidableEq

/-- A `SubjectAllocation` ledger entry (the redundant `subjectKey` field
of the TS record is the association-list key). -/
structure SubjectAllocation where
  allocatedPeriods : Nat
  requiredPeriods : Nat
  deriving Repr, DecidableEq

/-- `` `${data.department}-${data.year}-${data.section}` ``. -/
def className (sd : SubjectData) : String :=
  sd.department ++ "-" ++ sd.year ++ "-" ++ sd.sectionName

/-- `` `${data.subject}-${className}` ``. -/
def subjectKey (sd : SubjectData) : String :=
  sd.subject ++ "-" ++ className sd

/-! ## Association-list maps (TS `Map<string, _>`) -/

/-- Lookup (`Map.prototype.get`). -/
def mapGet {α : Type} : List (String × α) → String → Option α
  | [], _ => none
  | e :: t, k => if e.1 = k then some e.2 else mapGet t k

/-- Update the entry at a key if present (models in-place mutation of the
object retrieved from the map, guarded by `if (value) { ... }`; a JS map
holds at most one entry per key, so only the first match is updated). -/
def mapUpdate {α : Type} : List (String × α) → String → (α → α) → List (String × α)
  | [], _, _ => []
  | e :: t, k, f =>
    if e.1 = k then (e.1, f e.2) :: t
    else e :: mapUpdate t k f

/-- `Map.prototype.set`: update if the key is present, else append
(JS maps keep insertion order). -/
def mapSetV {α : Type} (m : List (String × α)) (k : String) (v : α) :
    List (String × α) :=
  if (mapGet m k).isSome then mapUpdate m k (fun _ => v) else m ++ [(k, v)]

/-! ## Grids -/

/-- Update the element of a list at an index (no-op when out of range;
the engine only indexes in range, by the loop bounds). -/
def listUpd {α : Type} : List α → Nat → (α → α) → List α
  | [], _, _ => []
  | a :: t, 0, f => f a :: t
  | a :: t, n + 1, f => a :: listUpd t n f

/-- The cell of a grid at `(d, p)`, as an `Option`. -/
def cellOpt (g : Grid) (d p : Nat) : Option Cell :=
  (g.get? d).bind fun row => row.get? p

/-- Read `grid[day][period]` (total: out-of-range reads give the empty
cell, which is how the in-range TS accesses behave on the engine's
always-rectangular grids). -/
def cellAt (g : Grid) (d p : Nat) : Cell :=
  (cellOpt g d p).getD Cell.empty

/-- Write the three assignment fields of `grid[day][period]`. -/
def setCell (g : Grid) (d p : Nat) (subj staffS cname : String) : Grid :=
  listUpd g d (fun row => listUpd row p (fun _ => ⟨some subj, some staffS, some cname⟩))

/-- A 6 × `totalPeriodsPerDay` grid of empty cells. -/
def emptyGrid (S : ScheduleSettings) : Grid :=
  List.replicate 6 (List.replicate S.totalPeriodsPerDay Cell.empty)

/-- A grid is well-formed when it has 6 day rows of
`totalPeriodsPerDay` cells each. -/
def gridWF (S : ScheduleSettings) (g : Grid) : Prop :=
  g.length = 6 ∧ ∀ row ∈ g, row.length = S.totalPeriodsPerDay

instance (S : ScheduleSettings) (g : Grid) : Decidable (gridWF S g) := by
  unfold gridWF; infer_instance

/-! ## Generator state -/

/-- The mutable state of a `TimetableGenerator` (the unused
`labStaffSchedules` map — written at construction and reset but never read
by any allocator — is omitted). -/
structure GenState where
  classTimetables : List (String × Grid)
  teacherTimetables : List (String × Grid)
  subjectAllocations : List (String × SubjectAllocation)
  teacherWorkload : List (String × Nat)
  deriving Repr, DecidableEq

/-- `this.teacherWorkload.get(staff) || 0`. -/
def getWorkload (st : GenState) (t : String) : Nat :=
  (mapGet st.teacherWorkload t).getD 0

/-- The current `allocatedPeriods` of a ledger entry (`0` when absent). -/
def allocCount (st : GenState) (key : String) : Nat :=
  ((mapGet st.subjectAllocations key).map SubjectAllocation.allocatedPeriods).getD 0

/-- The `requiredPeriods` of a ledger entry (`0` when absent). -/
def reqCount (st : GenState) (key : String) : Nat :=
  ((mapGet st.subjectAllocations key).map SubjectAllocation.requiredPeriods).getD 0

/-- `allocation.allocatedPeriods++` on the entry at `key`. -/
def bumpAlloc (st : GenState) (key : String) : GenState :=
  { st with subjectAllocations :=
      (mapUpdate st.subjectAllocations key
        (fun a => { a with allocatedPeriods := a.allocatedPeriods + 1 })) }

/-- `this.teacherWorkload.set(t, n)`. -/
def setWorkload (st : GenState) (t : String) (n : Nat) : GenState :=
  { st with teacherWorkload := mapSetV st.teacherWorkload t n }

/-- The full class-grid cell of class `c` at `(d, p)` as an `Option`. -/
def classCellAt (st : GenState) (c : String) (d p : Nat) : Option Cell :=
  (mapGet st.classTimetables c).bind fun g => cellOpt g d p

/-- The full teacher-grid cell of teacher `t` at `(d, p)` as an `Option`. -/
def teacherCellAt (st : GenState) (t : String) (d p : Nat) : Option Cell :=
  (mapGet st.teacherTimetables t).bind fun g => cellOpt g d p

/-- The subject of the class-grid cell of class `c` at `(d, p)`,
`none` when the class, day or period does not exist. -/
def classCellSubject (st : GenState) (c : String) (d p : Nat) : Option String :=
  (classCellAt st c d p).bind Cell.subject

/-- The subject of the teacher-grid cell of teacher `t` at `(d, p)`. -/
def teacherCellSubject (st : GenState) (t : String) (d p : Nat) : Option String :=
  (teacherCellAt st t d p).bind Cell.subject

/-! ## `getRemainingPeriods` and the availability oracle -/

/-- `getRemainingPeriods(subjectData)` (truncated subtraction agrees with
the TS number subtraction whenever `allocated ≤ required`, and the only
consumer treats non-positive values as `0`). -/
def getRemainingPeriods (st : GenState) (sd : SubjectData) : Nat :=
  match mapGet st.subjectAllocations (subjectKey sd) with
  | some a => a.requiredPeriods - a.allocatedPeriods
  | none => 0

/-- `isSlotAvailable(day, period, className, staffString)`: the class cell
is empty and every parsed staff member exists, is unbooked at `(d, p)` and
is strictly under `maxTeacherPeriodsPerWeek`. -/
def isSlotAvailable (S : ScheduleSettings) (st : GenState) (d p : Nat)
    (c staffString : String) : Bool :=
  match mapGet st.classTimetables c with
  | none => false
  | some g =>
    if (cellAt g d p).subject.isSome then false
    else
      (parseStaffMembers staffString).all fun t =>
        match mapGet st.teacherTimetables t with
        | none => false
        | some tg =>
          if (cellAt tg d p).subject.isSome then false
          else decide (getWorkload st t < S.maxTeacherPeriodsPerWeek)

/-- `hasDifferentLabOnDay(className, day, currentSubject)`. -/
def hasDifferentLabOnDay (st : GenState) (c : String) (day : Nat)
    (currentSubject : String) : Bool :=
  match mapGet st.classTimetables c with
  | none => false
  | some g =>
    ((g.get? day).getD []).any fun slot =>
      isLabSubjectO slot.subject && slot.subject ≠ some currentSubject

/-- `hasSubjectOnDay(className, day, subject)`. -/
def hasSubjectOnDay (st : GenState) (c : String) (day : Nat)
    (subject : String) : Bool :=
  match mapGet st.classTimetables c with
  | none => false
  | some g => ((g.get? day).getD []).any fun slot => slot.subject = some subject

/-- `isLabSlotAvailable(day, period, className, staff, subject)`: labs are
never placed at lunch; otherwise basic availability plus the
no-different-lab-in-this-cell check. -/
def isLabSlotAvailable (S : ScheduleSettings) (st : GenState) (d p : Nat)
    (c staffS subj : String) : Bool :=
  if p + 1 = S.lunchPeriod then false
  else if ¬ isSlotAvailable S st d p c staffS then false
  else
    match mapGet st.classTimetables c with
    | none => true
    | some g =>
      let existing := (cellAt g d p).subject
      if isLabSubjectO existing && existing ≠ some subj then false else true

/-- `wouldCreateRepetition(day, period, className, subject)`: labs may
repeat; other subjects repeat when they already occur on the same day
(the `period` argument is unused, as in the source). -/
def wouldCreateRepetition (st : GenState) (day _period : Nat) (c subject : String) : Bool :=
  if isLabSubject subject then false
  else hasSubjectOnDay st c day subject

/-- The `// Skip lunch and break periods` test repeated by the library,
games and regular allocators. -/
def skipPeriod (S : ScheduleSettings) (p : Nat) : Bool :=
  p + 1 = S.lunchPeriod || S.breakPeriods.contains (p + 1)

/-! ## Writing a slot into both grids -/

/-- The body of the `staffMembers.forEach` of `assignSlotWithTracking`:
mirror the write into the staff member's teacher grid and increment
their workload. -/
def assignTeacherStep (d p : Nat) (subj c : String) (st : GenState)
    (t : String) : GenState :=
  let st2 := { st with teacherTimetables :=
      (mapUpdate st.teacherTimetables t (fun g => setCell g d p subj t c)) }
  setWorkload st2 t (getWorkload st2 t + 1)

/-- The body of the `staffMembers.forEach` of `assignLabSlotWithTracking`
(no workload update here). -/
def labTeacherStep (d p : Nat) (subj c : String) (st : GenState)
    (t : String) : GenState :=
  { st with teacherTimetables :=
      (mapUpdate st.teacherTimetables t (fun g => setCell g d p subj t c)) }

/-- `assignSlotWithTracking(day, period, subjectData, className)`: write
the class-grid cell (staff shown as the original joined string), mirror
the write into every parsed staff member's teacher grid, and increment
each member's workload. -/
def assignSlotWithTracking (st : GenState) (d p : Nat) (sd : SubjectData)
    (c : String) : GenState :=
  let staffM := parseStaffMembers sd.staff
  let st1 := { st with classTimetables :=
      (mapUpdate st.classTimetables c (fun g => setCell g d p sd.subject sd.staff c)) }
  staffM.foldl (assignTeacherStep d p sd.subject c) st1

/-- `assignLabSlotWithTracking(slot, subjectData, className)`: like
`assignSlotWithTracking` but the class-grid cell shows all staff members
joined with `', '`, and workloads are not touched here (the lab allocator
adds the whole block to each member afterwards). -/
def assignLabSlotWithTracking (st : GenState) (d p : Nat) (sd : SubjectData)
    (c : String) : GenState :=
  let staffM := parseStaffMembers sd.staff
  let st1 := { st with classTimetables :=
      (mapUpdate st.classTimetables c
        (fun g => setCell g d p sd.subject (joinStaff staffM) c)) }
  staffM.foldl (labTeacherStep d p sd.subject c) st1

/-- The repeated commit pattern
`assignSlotWithTracking(...); allocation.allocatedPeriods++;`. -/
def commitSlot (st : GenState) (d p : Nat) (sd : SubjectData) (c key : String) :
    GenState :=
  bumpAlloc (assignSlotWithTracking st d p sd c) key

/-! ## Library allocator (`allocateLibraryPeriods`) -/

/-- The body of each `(period, day)` probe of the library and games
allocators: commit when the ledger entry is still short
(the `allocation.allocatedPeriods < allocation.requiredPeriods` loop
condition, read from the live entry) and the slot is available. -/
def tryCommit (S : ScheduleSettings) (sd : SubjectData) (c key : String)
    (st : GenState) (d p : Nat) : GenState :=
  if allocCount st key < reqCount st key ∧ isSlotAvailable S st d p c sd.staff then
    commitSlot st d p sd c key
  else st

/-- `Math.floor(this.scheduleSettings.totalPeriodsPerDay * 0.7)`. -/
def libStart (S : ScheduleSettings) : Nat := 7 * S.totalPeriodsPerDay / 10

/-- The fallback sweep shared verbatim by the library and games
allocators: `for day { for period { skip lunch/breaks; try slot } }`. -/
def anySlotSweep (S : ScheduleSettings) (sd : SubjectData) (c key : String)
    (st : GenState) : GenState :=
  (List.range 6).foldl
    (fun st d =>
      (List.range S.totalPeriodsPerDay).foldl
        (fun st p => if skipPeriod S p then st else tryCommit S sd c key st d p)
        st)
    st

/-- `allocateLibraryPeriods(subjectData, className)`: first probe the
later ~30% of the day's periods (periods outer, days inner), then fall
back to any teaching slot. -/
def allocateLibraryPeriods (S : ScheduleSettings) (sd : SubjectData)
    (c : String) (st : GenState) : GenState :=
  if getRemainingPeriods st sd = 0 then st
  else
    match mapGet st.subjectAllocations (subjectKey sd) with
    | none => st
    | some _ =>
      let key := subjectKey sd
      let st1 :=
        (List.range' (libStart S) (S.totalPeriodsPerDay - libStart S)).foldl
          (fun st p =>
            if skipPeriod S p then st
            else (List.range 6).foldl (fun st d => tryCommit S sd c key st d p) st)
          st
      anySlotSweep S sd c key st1

/-! ## Games allocator (`allocateGamesPeriods`) -/

/-- `Math.floor(this.scheduleSettings.totalPeriodsPerDay * 0.6)`. -/
def gamesStart (S : ScheduleSettings) : Nat := 6 * S.totalPeriodsPerDay / 10

/-- `allocateGamesPeriods(subjectData, className)`: probe the afternoon
periods from `⌊0.6·N⌋` up (periods outer, days inner), then fall back to
any teaching slot. -/
def allocateGamesPeriods (S : ScheduleSettings) (sd : SubjectData)
    (c : String) (st : GenState) : GenState :=
  if getRemainingPeriods st sd = 0 then st
  else
    match mapGet st.subjectAllocations (subjectKey sd) with
    | none => st
    | some _ =>
      let key := subjectKey sd
      let st1 :=
        (List.range' (gamesStart S) (S.totalPeriodsPerDay - gamesStart S)).foldl
          (fun st p =>
            if skipPeriod S p then st
            else (List.range 6).foldl (fun st d => tryCommit S sd c key st d p) st)
          st
      anySlotSweep S sd c key st1

/-! ## Regular allocator (`allocateRegularPeriods`) -/

/-- One `(day, period)` probe of a regular-allocation pass.  `strict`
selects the first pass (which additionally requires
`!wouldCreateRepetition`); the `Bool` component is the `allocated` flag
that stops the pass after its first successful commit. -/
def regProbe (S : ScheduleSettings) (sd : SubjectData) (c key : String)
    (strict : Bool) (acc : GenState × Bool) (d p : Nat) : GenState × Bool :=
  match acc with
  | (st, true) => (st, true)
  | (st, false) =>
    if skipPeriod S p then (st, false)
    else if isSlotAvailable S st d p c sd.staff &&
        (!strict || !wouldCreateRepetition st d p c sd.subject) then
      (commitSlot st d p sd c key, true)
    else (st, false)

/-- One full pass of the regular allocator over all days and periods. -/
def regPass (S : ScheduleSettings) (sd : SubjectData) (c key : String)
    (strict : Bool) (st : GenState) : GenState × Bool :=
  (List.range 6).foldl
    (fun acc d =>
      (List.range S.totalPeriodsPerDay).foldl
        (fun acc p => regProbe S sd c key strict acc d p) acc)
    (st, false)

/-- The `for (let i = 0; i < remainingPeriods; i++)` loop of
`allocateRegularPeriods`: per iteration, a strict (anti-repetition) pass,
then if nothing was placed a relaxed pass, and a `break` when neither
pass placed a period. -/
def regLoop (S : ScheduleSettings) (sd : SubjectData) (c key : String) :
    Nat → GenState → GenState
  | 0, st => st
  | k + 1, st =>
    match regPass S sd c key true st with
    | (st1, true) => regLoop S sd c key k st1
    | (st1, false) =>
      match regPass S sd c key false st1 with
      | (st2, true) => regLoop S sd c key k st2
      | (st2, false) => st2

/-- `allocateRegularPeriods(subjectData, className)`. -/
def allocateRegularPeriods (S : ScheduleSettings) (sd : SubjectData)
    (c : String) (st : GenState) : GenState :=
  let rem := getRemainingPeriods st sd
  if rem = 0 then st
  else
    match mapGet st.subjectAllocations (subjectKey sd) with
    | none => st
    | some _ => regLoop S sd c (subjectKey sd) rem st

/-! ## Lab allocator (`allocateAllLabPeriodsConsecutively`) -/

/-- The period scan of the lab allocator on one day: walk the day's
periods accumulating `currentSequence`, reset it at the lunch period or
at an unavailable slot, and return the first `k` accumulated slots as
soon as the sequence is long enough (`consecutiveSlots`); `[]` when the
day has no long-enough run. -/
def labScanGo (S : ScheduleSettings) (st : GenState) (day : Nat)
    (c staffS subj : String) (k : Nat) : List Nat → List Nat → List Nat
  | [], _cur => []
  | p :: rest, cur =>
    if p + 1 = S.lunchPeriod then
      if k ≤ cur.length then cur.take k
      else labScanGo S st day c staffS subj k rest []
    else if isLabSlotAvailable S st day p c staffS subj then
      let cur2 := cur ++ [p]
      if k ≤ cur2.length then cur2.take k
      else labScanGo S st day c staffS subj k rest cur2
    else
      if k ≤ cur.length then cur.take k
      else labScanGo S st day c staffS subj k rest []

/-- The `consecutiveSlots` found for one day. -/
def labScan (S : ScheduleSettings) (st : GenState) (day : Nat)
    (c staffS subj : String) (k : Nat) : List Nat :=
  labScanGo S st day c staffS subj k (List.range S.totalPeriodsPerDay) []

/-- Commit a found lab run: assign each slot
(`assignLabSlotWithTracking` + ledger increment), then add the whole
block size to every staff member's workload. -/
def labCommit (_S : ScheduleSettings) (sd : SubjectData) (c key : String)
    (st : GenState) (day : Nat) (slots : List Nat) (k : Nat) : GenState :=
  let st1 := (slots.take k).foldl
    (fun st p => bumpAlloc (assignLabSlotWithTracking st day p sd c) key) st
  (parseStaffMembers sd.staff).foldl
    (fun st t => setWorkload st t (getWorkload st t + k)) st1

/-- The day loop of `allocateAllLabPeriodsConsecutively`: skip days that
already carry a different lab for this class, commit on the first day
whose scan yields a long-enough run, and leave the state unchanged when
no day does (the shortfall is then simply left recorded in the ledger). -/
def labTryDays (S : ScheduleSettings) (sd : SubjectData) (c : String)
    (k : Nat) (st : GenState) : List Nat → GenState
  | [] => st
  | day :: rest =>
    if hasDifferentLabOnDay st c day sd.subject then
      labTryDays S sd c k st rest
    else
      let slots := labScan S st day c sd.staff sd.subject k
      if k ≤ slots.length then labCommit S sd c (subjectKey sd) st day slots k
      else labTryDays S sd c k st rest

/-- `allocateAllLabPeriodsConsecutively(subjectData, className,
remainingPeriods)`. -/
def allocateAllLabPeriodsConsecutively (S : ScheduleSettings)
    (sd : SubjectData) (c : String) (k : Nat) (st : GenState) : GenState :=
  labTryDays S sd c k st (List.range 6)

/-- `allocateConsecutivePeriods(subjectData, className)`: all labs must
have consecutive periods on the same day. -/
def allocateConsecutivePeriods (S : ScheduleSettings) (sd : SubjectData)
    (c : String) (st : GenState) : GenState :=
  let rem := getRemainingPeriods st sd
  if rem = 0 then st
  else allocateAllLabPeriodsConsecutively S sd c rem st

/-! ## Priority sort (`getSortedSubjectsByPriority`) -/

/-- Lexicographic character-code comparison modelling
`String.prototype.localeCompare` on the engine's ASCII subject names. -/
def strCompare (a b : String) : Int :=
  let rec go : List Char → List Char → Int
    | [], [] => 0
    | [], _ :: _ => -1
    | _ :: _, [] => 1
    | x :: xs, y :: ys =>
      if x.toNat < y.toNat then -1
      else if y.toNat < x.toNat then 1
      else go xs ys
  go a.data b.data

/-- The comparator of `getSortedSubjectsByPriority`: labs first, then
more periods, then teacher-preference presence, then lower workload of
the raw staff string, then subject name. -/
def compareSubjects (prefs : List TeacherPreference) (st : GenState)
    (a b : SubjectData) : Int :=
  let aIsLab := isLabSubject a.subject
  let bIsLab := isLabSubject b.subject
  if aIsLab && !bIsLab then -1
  else if !aIsLab && bIsLab then 1
  else if a.periods ≠ b.periods then (b.periods : Int) - (a.periods : Int)
  else
    let aHasPref := prefs.any fun pref => containsSub a.staff.data pref.teacherName.data
    let bHasPref := prefs.any fun pref => containsSub b.staff.data pref.teacherName.data
    if aHasPref && !bHasPref then -1
    else if !aHasPref && bHasPref then 1
    else
      let aW := getWorkload st a.staff
      let bW := getWorkload st b.staff
      if aW ≠ bW then (aW : Int) - (bW : Int)
      else strCompare a.subject b.subject

/-- Stable insertion into a list sorted by a JS-style comparator
(`cmp x y < 0` puts `x` before `y`; ties keep the existing order). -/
def ordInsert {α : Type} (cmp : α → α → Int) (x : α) : List α → List α
  | [] => [x]
  | y :: t => if cmp x y < 0 then x :: y :: t else y :: ordInsert cmp x t

/-- A stable comparator sort (JS `Array.prototype.sort` is stable). -/
def sortByCmp {α : Type} (cmp : α → α → Int) (l : List α) : List α :=
  l.foldl (fun acc x => ordInsert cmp x acc) []

/-- `getSortedSubjectsByPriority()`. -/
def getSortedSubjectsByPriority (prefs : List TeacherPreference)
    (st : GenState) (rows : List SubjectData) : List SubjectData :=
  sortByCmp (compareSubjects prefs st) rows

/-! ## Dispatcher (`allocateSubjects`) and state construction -/

/-- The category dispatch of `allocateSubjects` for one subject row. -/
def dispatchAllocate (S : ScheduleSettings) (st : GenState)
    (sd : SubjectData) : GenState :=
  let c := className sd
  if isLabSubject sd.subject then allocateConsecutivePeriods S sd c st
  else if isLibrarySubject sd.subject then allocateLibraryPeriods S sd c st
  else if isGamesSubject sd.subject then allocateGamesPeriods S sd c st
  else allocateRegularPeriods S sd c st

/-- `allocateSubjects()`: sort the rows by priority and run the matching
allocator for each. -/
def allocateSubjects (S : ScheduleSettings) (prefs : List TeacherPreference)
    (rows : List SubjectData) (st : GenState) : GenState :=
  (getSortedSubjectsByPriority prefs st rows).foldl (dispatchAllocate S) st

/-- First-occurrence deduplication (`[...new Set(xs)]`). -/
def dedup : List String → List String
  | [] => []
  | x :: t => x :: (dedup t).filter (fun y => y ≠ x)

/-- The state built by the constructor / `initializeAllocations` followed
by `resetAllocations`: zeroed ledger and workloads, one empty 6×N grid
per unique class and per unique parsed staff member. -/
def initState (S : ScheduleSettings) (rows : List SubjectData) : GenState :=
  { classTimetables :=
      (dedup (rows.map className)).map (fun c => (c, emptyGrid S))
    teacherTimetables :=
      (dedup (rows.foldl (fun acc sd => acc ++ parseStaffMembers sd.staff) [])).map
        (fun t => (t, emptyGrid S))
    subjectAllocations :=
      rows.foldl
        (fun m sd => mapSetV m (subjectKey sd) ⟨0, sd.periods⟩) []
    teacherWorkload :=
      rows.foldl
        (fun m sd => (parseStaffMembers sd.staff).foldl (fun m t => mapSetV m t 0) m)
        [] }

/-! ## Reporting (`getAllocationSummary`) -/

/-- The `periodsRequired` total of `getAllocationSummary`. -/
def periodsRequired (st : GenState) : Nat :=
  st.subjectAllocations.foldl (fun n e => n + e.2.requiredPeriods) 0

/-- The `periodsAllocated` total of `getAllocationSummary`. -/
def periodsAllocated (st : GenState) : Nat :=
  st.subjectAllocations.foldl (fun n e => n + e.2.allocatedPeriods) 0

/-- Every ledger entry satisfies `allocatedPeriods ≤ requiredPeriods`. -/
def ledgerOk (st : GenState) : Bool :=
  st.subjectAllocations.all fun e => e.2.allocatedPeriods ≤ e.2.requiredPeriods

/-! ## Invariant predicates used by the verified properties -/

/-- All grids of a state are 6 × `totalPeriodsPerDay` (true of every
state the engine builds and maintains). -/
def gridsWF (S : ScheduleSettings) (st : GenState) : Prop :=
  (∀ e ∈ st.classTimetables, gridWF S e.2) ∧
    (∀ e ∈ st.teacherTimetables, gridWF S e.2)

instance (S : ScheduleSettings) (st : GenState) : Decidable (gridsWF S st) := by
  unfold gridsWF; infer_instance

/-- A class-grid cell is mirrored: every staff member parsed from the
cell's staff string has the same subject and class name in their own
teacher grid at the same day and period. -/
def cellMirrored (st : GenState) (c : String) (d p : Nat) (cell : Cell) : Bool :=
  match cell.subject with
  | none => true
  | some s =>
    (parseStaffMembers (cell.staff.getD "")).all fun t =>
      match mapGet st.teacherTimetables t with
      | none => false
      | some tg =>
        decide ((cellAt tg d p).subject = some s) &&
          decide ((cellAt tg d p).className = some c)

/-- The mirrored-write invariant over every cell of every class grid. -/
def mirrorOk (st : GenState) : Bool :=
  st.classTimetables.all fun e =>
    e.2.enum.all fun dr =>
      dr.2.enum.all fun pc => cellMirrored st e.1 dr.1 pc.1 pc.2

/-- Every recorded teacher workload is at most `n`. -/
def workBound (st : GenState) (n : Nat) : Prop :=
  ∀ e ∈ st.teacherWorkload, e.2 ≤ n

instance (st : GenState) (n : Nat) : Decidable (workBound st n) := by
  unfold workBound; infer_instance

/-- Every ledger entry requires at most `B` periods. -/
def reqBound (st : GenState) (B : Nat) : Prop :=
  ∀ e ∈ st.subjectAllocations, e.2.requiredPeriods ≤ B

instance (st : GenState) (B : Nat) : Decidable (reqBound st B) := by
  unfold reqBound; infer_instance

/-- The all-or-nothing contract of the lab allocator on one call with
`k = getRemainingPeriods st sd > 0`: either the state is returned
untouched (the ledger keeps its shortfall), or there are a day `d` and a
start period `s` such that the `k` required periods all sit on day `d`
at the consecutive periods `s, s+1, …, s+k-1`, none of them the lunch
period, every other cell of the class grid is untouched, and the ledger
entry is filled to exactly its requirement. -/
def labOutcome (S : ScheduleSettings) (sd : SubjectData) (c : String)
    (st st' : GenState) : Prop :=
  let k := getRemainingPeriods st sd
  st' = st ∨
    ∃ d s, d < 6 ∧
      (∀ i < k, classCellSubject st' c d (s + i) = some sd.subject) ∧
      (∀ i < k, s + i + 1 ≠ S.lunchPeriod) ∧
      (∀ d' p', d' ≠ d ∨ p' < s ∨ s + k ≤ p' →
        classCellAt st' c d' p' = classCellAt st c d' p') ∧
      allocCount st' (subjectKey sd) = reqCount st (subjectKey sd)

/-- A period index usable inside a lab run found by the scan: not the
lunch period, lab-available, and within the day. -/
def goodLabSlot (S : ScheduleSettings) (st : GenState) (day : Nat)
    (c staffS subj : String) (q : Nat) : Prop :=
  q + 1 ≠ S.lunchPeriod ∧ isLabSlotAvailable S st day q c staffS subj = true ∧
    q < S.totalPeriodsPerDay

/-- State transition `st → st'` leaves every cell at a period satisfying
`P` unassigned if it was unassigned (in both grid families): the engine
never writes at such periods. -/
def PresEmptyAt (P : Nat → Prop) (st st' : GenState) : Prop :=
  (∀ c d p, P p → classCellSubject st c d p = none →
      classCellSubject st' c d p = none) ∧
  (∀ t d p, P p → teacherCellSubject st t d p = none →
      teacherCellSubject st' t d p = none)

/-- State transition `st → st'` preserves every occupied grid cell: a
class-grid or teacher-grid cell holding a subject is never overwritten. -/
def PresCells (st st' : GenState) : Prop :=
  (∀ c d p v, classCellAt st c d p = some v → v.subject.isSome = true →
      classCellAt st' c d p = some v) ∧
  (∀ t d p v, teacherCellAt st t d p = some v → v.subject.isSome = true →
      teacherCellAt st' t d p = some v)

/-- Proposition-level view of `mirrorOk`: every cell stored in any entry of
the class-timetable map is mirrored into its staff members' teacher
grids. -/
def MirrorInv (st : GenState) : Prop :=
  ∀ e ∈ st.classTimetables, ∀ d p cell, cellOpt e.2 d p = some cell →
    cellMirrored st e.1 d p cell = true

/-- The joint invariant carried through the allocators: well-formed
6 × `totalPeriodsPerDay` grids and the mirrored-write property. -/
def MirrorWF (S : ScheduleSettings) (st : GenState) : Prop :=
  gridsWF S st ∧ MirrorInv st

/-! ## Lemmas: association-list maps -/

theorem mapGet_mapUpdate {α : Type} (m : List (String × α)) (k : String)
    (f : α → α) (k' : String) :
    mapGet (mapUpdate m k f) k' =
      if k' = k then (mapGet m k).map f else mapGet m k' := by
  induction m with
  | nil => simp [mapGet, mapUpdate]
  | cons e t ih =>
    by_cases h1 : e.1 = k
    · subst h1
      by_cases h2 : k' = e.1
      · subst h2; simp [mapGet, mapUpdate]
      · have h2' : ¬ e.1 = k' := fun h => h2 h.symm
        simp [mapGet, mapUpdate, h2, h2']
    · by_cases h2 : e.1 = k'
      · subst h2
        have h4 : ¬ (e.1 = k) := h1
        simp [mapGet, mapUpdate, h1, h4]
      · simp [mapGet, mapUpdate, h1, h2, ih]

theorem mapGet_append {α : Type} (m₁ m₂ : List (String × α)) (k : String) :
    mapGet (m₁ ++ m₂) k =
      match mapGet m₁ k with
      | some v => some v
      | none => mapGet m₂ k := by
  induction m₁ with
  | nil => simp [mapGet]
  | cons e t ih =>
    by_cases h : e.1 = k <;> simp [mapGet, h, ih]

theorem mapGet_mapSetV {α : Type} (m : List (String × α)) (k : String)
    (v : α) (k' : String) :
    mapGet (mapSetV m k v) k' = if k' = k then some v else mapGet m k' := by
  unfold mapSetV
  by_cases hs : (mapGet m k).isSome
  · rw [if_pos hs, mapGet_mapUpdate]
    rcases hv : mapGet m k with _ | w
    · rw [hv] at hs; simp at hs
    · by_cases h : k' = k <;> simp [h, hv]
  · rw [if_neg hs, mapGet_append]
    have hnone : mapGet m k = none := by
      rcases h : mapGet m k with _ | w
      · rfl
      · rw [h] at hs; simp at hs
    by_cases h : k' = k
    · simp [h, hnone, mapGet]
    · have h' : ¬ k = k' := fun hh => h hh.symm
      rcases h2 : mapGet m k' with _ | w <;> simp [h2, mapGet, h, h']

theorem mem_mapUpdate {α : Type} {m : List (String × α)} {k : String}
    {f : α → α} :
    ∀ e' ∈ mapUpdate m k f, e' ∈ m ∨
      ∃ v, mapGet m k = some v ∧ e' = (k, f v) := by
  induction m with
  | nil => simp [mapUpdate]
  | cons e t ih =>
    intro e' he'
    by_cases h : e.1 = k
    · rw [mapUpdate, if_pos h] at he'
      rcases List.mem_cons.mp he' with h1 | h1
      · exact Or.inr ⟨e.2, by simp [mapGet, h], by rw [h1, h]⟩
      · exact Or.inl (List.mem_cons_of_mem _ h1)
    · rw [mapUpdate, if_neg h] at he'
      rcases List.mem_cons.mp he' with h1 | h1
      · exact Or.inl (h1 ▸ List.mem_cons_self _ _)
      · rcases ih e' h1 with h2 | ⟨v, hv, he⟩
        · exact Or.inl (List.mem_cons_of_mem _ h2)
        · exact Or.inr ⟨v, by simp [mapGet, h, hv], he⟩

theorem mem_mapSetV {α : Type} {m : List (String × α)} {k : String} {v : α} :
    ∀ e' ∈ mapSetV m k v, e' ∈ m ∨ e' = (k, v) := by
  intro e' he'
  unfold mapSetV at he'
  by_cases hs : (mapGet m k).isSome
  · rw [if_pos hs] at he'
    rcases mem_mapUpdate e' he' with h | ⟨w, _, he⟩
    · exact Or.inl h
    · exact Or.inr he
  · rw [if_neg hs] at he'
    rcases List.mem_append.mp he' with h | h
    · exact Or.inl h
    · simp at h; exact Or.inr h

theorem mapUpdate_mapUpdate {α : Type} (m : List (String × α)) (k : String)
    (f g : α → α) :
    mapUpdate (mapUpdate m k f) k g = mapUpdate m k (fun v => g (f v)) := by
  induction m with
  | nil => simp [mapUpdate]
  | cons e t ih =>
    by_cases h : e.1 = k <;> simp [mapUpdate, h, ih]

/-! ## Lemmas: list updates and grid cells -/

theorem get?_listUpd {α : Type} (l : List α) (i : Nat) (f : α → α) (j : Nat) :
    (listUpd l i f).get? j = if j = i then (l.get? i).map f else l.get? j := by
  induction l generalizing i j with
  | nil => simp [listUpd]
  | cons a t ih =>
    cases i with
    | zero =>
      cases j with
      | zero => simp [listUpd]
      | succ j => simp [listUpd]
    | succ i =>
      cases j with
      | zero => simp [listUpd]
      | succ j => simpa [listUpd, Nat.succ_inj] using ih i j

theorem length_listUpd {α : Type} (l : List α) (i : Nat) (f : α → α) :
    (listUpd l i f).length = l.length := by
  induction l generalizing i with
  | nil => simp [listUpd]
  | cons a t ih =>
    cases i with
    | zero => simp [listUpd]
    | succ i => simp [listUpd, ih]

theorem cellOpt_setCell (g : Grid) (d p : Nat) (subj staffS cname : String)
    (d' p' : Nat) :
    cellOpt (setCell g d p subj staffS cname) d' p' =
      if d' = d ∧ p' = p
      then (cellOpt g d p).map (fun _ => ⟨some subj, some staffS, some cname⟩)
      else cellOpt g d' p' := by
  by_cases hd : d' = d
  · subst hd
    simp only [cellOpt, setCell]
    rw [get?_listUpd, if_pos rfl]
    rcases hrow : g.get? d' with _ | row
    · simp
    · simp only [Option.map_some', Option.some_bind]
      rw [get?_listUpd]
      by_cases hp : p' = p
      · subst hp; simp
      · simp [hp]
  · simp only [cellOpt, setCell]
    rw [get?_listUpd, if_neg hd]
    simp [hd]

theorem gridWF_setCell (S : ScheduleSettings) (g : Grid) (d p : Nat)
    (subj staffS cname : String) (h : gridWF S g) :
    gridWF S (setCell g d p subj staffS cname) := by
  obtain ⟨h6, hrows⟩ := h
  constructor
  · rw [setCell, length_listUpd]; exact h6
  · intro row hrow
    rcases List.mem_iff_get?.mp hrow with ⟨j, hj⟩
    rw [setCell, get?_listUpd] at hj
    by_cases hd : j = d
    · rw [if_pos hd] at hj
      rcases hg : g.get? d with _ | row0
      · rw [hg] at hj; simp at hj
      · rw [hg] at hj
        simp only [Option.map_some', Option.some_inj] at hj
        rw [← hj, length_listUpd]
        exact hrows row0 (List.get?_mem hg)
    · rw [if_neg hd] at hj
      exact hrows row (List.get?_mem hj)

/-! ## Lemmas: effects of the primitive state operations -/

theorem bumpAlloc_classTT (st : GenState) (key : String) :
    (bumpAlloc st key).classTimetables = st.classTimetables := rfl

theorem bumpAlloc_teacherTT (st : GenState) (key : String) :
    (bumpAlloc st key).teacherTimetables = st.teacherTimetables := rfl

theorem bumpAlloc_workload (st : GenState) (key : String) :
    (bumpAlloc st key).teacherWorkload = st.teacherWorkload := rfl

theorem mapGet_bumpAlloc (st : GenState) (key key' : String) :
    mapGet (bumpAlloc st key).subjectAllocations key' =
      if key' = key
      then (mapGet st.subjectAllocations key).map
        (fun a => ⟨a.allocatedPeriods + 1, a.requiredPeriods⟩)
      else mapGet st.subjectAllocations key' := by
  unfold bumpAlloc
  exact mapGet_mapUpdate _ _ _ _

theorem setWorkload_classTT (st : GenState) (t : String) (n : Nat) :
    (setWorkload st t n).classTimetables = st.classTimetables := rfl

theorem setWorkload_teacherTT (st : GenState) (t : String) (n : Nat) :
    (setWorkload st t n).teacherTimetables = st.teacherTimetables := rfl

theorem setWorkload_allocs (st : GenState) (t : String) (n : Nat) :
    (setWorkload st t n).subjectAllocations = st.subjectAllocations := rfl

theorem getWorkload_setWorkload (st : GenState) (t : String) (n : Nat)
    (t' : String) :
    getWorkload (setWorkload st t n) t' =
      if t' = t then n else getWorkload st t' := by
  unfold getWorkload setWorkload
  rw [mapGet_mapSetV]
  by_cases h : t' = t <;> simp [h]

theorem assignTeacherStep_classTT (d p : Nat) (subj c : String)
    (st : GenState) (t : String) :
    (assignTeacherStep d p subj c st t).classTimetables = st.classTimetables := rfl

theorem assignTeacherStep_allocs (d p : Nat) (subj c : String)
    (st : GenState) (t : String) :
    (assignTeacherStep d p subj c st t).subjectAllocations =
      st.subjectAllocations := rfl

theorem teacherCellAt_assignTeacherStep (d p : Nat) (subj c : String)
    (st : GenState) (t t' : String) (d' p' : Nat) :
    teacherCellAt (assignTeacherStep d p subj c st t) t' d' p' =
      if t' = t ∧ d' = d ∧ p' = p
      then (teacherCellAt st t' d' p').map (fun _ => ⟨some subj, some t', some c⟩)
      else teacherCellAt st t' d' p' := by
  unfold assignTeacherStep teacherCellAt setWorkload
  simp only
  rw [mapGet_mapUpdate]
  by_cases ht : t' = t
  · subst ht
    rw [if_pos rfl]
    rcases hg : mapGet st.teacherTimetables t' with _ | g
    · simp only [hg, Option.map_none', Option.none_bind]
      by_cases hpos : d' = d ∧ p' = p <;> simp [hpos]
    · simp only [hg, Option.map_some', Option.some_bind]
      rw [cellOpt_setCell]
      by_cases hpos : d' = d ∧ p' = p <;> simp [hpos]
  · have : ¬ (t' = t ∧ d' = d ∧ p' = p) := fun h => ht h.1
    simp [ht, this]

theorem getWorkload_assignTeacherStep (d p : Nat) (subj c : String)
    (st : GenState) (t t' : String) :
    getWorkload (assignTeacherStep d p subj c st t) t' =
      if t' = t then getWorkload st t + 1 else getWorkload st t' := by
  unfold assignTeacherStep
  simp only
  rw [getWorkload_setWorkload]
  rfl

theorem labTeacherStep_classTT (d p : Nat) (subj c : String)
    (st : GenState) (t : String) :
    (labTeacherStep d p subj c st t).classTimetables = st.classTimetables := rfl

theorem labTeacherStep_allocs (d p : Nat) (subj c : String)
    (st : GenState) (t : String) :
    (labTeacherStep d p subj c st t).subjectAllocations =
      st.subjectAllocations := rfl

theorem labTeacherStep_workload (d p : Nat) (subj c : String)
    (st : GenState) (t : String) :
    (labTeacherStep d p subj c st t).teacherWorkload = st.teacherWorkload := rfl

theorem teacherCellAt_labTeacherStep (d p : Nat) (subj c : String)
    (st : GenState) (t t' : String) (d' p' : Nat) :
    teacherCellAt (labTeacherStep d p subj c st t) t' d' p' =
      if t' = t ∧ d' = d ∧ p' = p
      then (teacherCellAt st t' d' p').map (fun _ => ⟨some subj, some t', some c⟩)
      else teacherCellAt st t' d' p' := by
  unfold labTeacherStep teacherCellAt
  simp only
  rw [mapGet_mapUpdate]
  by_cases ht : t' = t
  · subst ht
    rw [if_pos rfl]
    rcases hg : mapGet st.teacherTimetables t' with _ | g
    · simp only [hg, Option.map_none', Option.none_bind]
      by_cases hpos : d' = d ∧ p' = p <;> simp [hpos]
    · simp only [hg, Option.map_some', Option.some_bind]
      rw [cellOpt_setCell]
      by_cases hpos : d' = d ∧ p' = p <;> simp [hpos]
  · have : ¬ (t' = t ∧ d' = d ∧ p' = p) := fun h => ht h.1
    simp [ht, this]

/-! ## Lemmas: effects of the teacher-mirroring folds -/

theorem foldTeacher_classTT (d p : Nat) (subj c : String) :
    ∀ (l : List String) (st : GenState),
      (l.foldl (assignTeacherStep d p subj c) st).classTimetables =
        st.classTimetables := by
  intro l
  induction l with
  | nil => intro st; rfl
  | cons x xs ih =>
    intro st
    rw [List.foldl_cons, ih, assignTeacherStep_classTT]

theorem foldTeacher_allocs (d p : Nat) (subj c : String) :
    ∀ (l : List String) (st : GenState),
      (l.foldl (assignTeacherStep d p subj c) st).subjectAllocations =
        st.subjectAllocations := by
  intro l
  induction l with
  | nil => intro st; rfl
  | cons x xs ih =>
    intro st
    rw [List.foldl_cons, ih, assignTeacherStep_allocs]

theorem teacherCellAt_foldTeacher (d p : Nat) (subj c : String) :
    ∀ (l : List String) (st : GenState) (t' : String) (d' p' : Nat),
      teacherCellAt (l.foldl (assignTeacherStep d p subj c) st) t' d' p' =
        if t' ∈ l ∧ d' = d ∧ p' = p
        then (teacherCellAt st t' d' p').map (fun _ => ⟨some subj, some t', some c⟩)
        else teacherCellAt st t' d' p' := by
  intro l
  induction l with
  | nil => intro st t' d' p'; simp
  | cons x xs ih =>
    intro st t' d' p'
    rw [List.foldl_cons, ih, teacherCellAt_assignTeacherStep]
    by_cases hx : t' = x
    · subst hx
      by_cases hpos : d' = d ∧ p' = p
      · obtain ⟨rfl, rfl⟩ := hpos
        by_cases hxs : t' ∈ xs <;>
          rcases h2 : teacherCellAt st t' d' p' with _ | v <;>
            simp [hxs, h2]
      · simp [hpos]
    · by_cases hxs : t' ∈ xs
      · simp [hx, hxs]
      · have : ¬ t' ∈ x :: xs := by simp [hx, hxs]
        simp [hx, hxs, this]

theorem getWorkload_foldTeacher (d p : Nat) (subj c : String) :
    ∀ (l : List String) (st : GenState) (t' : String),
      getWorkload (l.foldl (assignTeacherStep d p subj c) st) t' =
        getWorkload st t' + countOcc t' l := by
  intro l
  induction l with
  | nil => intro st t'; simp [countOcc]
  | cons x xs ih =>
    intro st t'
    rw [List.foldl_cons, ih, getWorkload_assignTeacherStep]
    by_cases hx : t' = x
    · subst hx
      simp [countOcc, Nat.add_comm, Nat.add_assoc, Nat.add_left_comm]
    · have hx' : ¬ x = t' := fun h => hx h.symm
      simp [countOcc, hx, hx']

theorem foldLabTeacher_classTT (d p : Nat) (subj c : String) :
    ∀ (l : List String) (st : GenState),
      (l.foldl (labTeacherStep d p subj c) st).classTimetables =
        st.classTimetables := by
  intro l
  induction l with
  | nil => intro st; rfl
  | cons x xs ih =>
    intro st
    rw [List.foldl_cons, ih, labTeacherStep_classTT]

theorem foldLabTeacher_allocs (d p : Nat) (subj c : String) :
    ∀ (l : List String) (st : GenState),
      (l.foldl (labTeacherStep d p subj c) st).subjectAllocations =
        st.subjectAllocations := by
  intro l
  induction l with
  | nil => intro st; rfl
  | cons x xs ih =>
    intro st
    rw [List.foldl_cons, ih, labTeacherStep_allocs]

theorem foldLabTeacher_workload (d p : Nat) (subj c : String) :
    ∀ (l : List String) (st : GenState),
      (l.foldl (labTeacherStep d p subj c) st).teacherWorkload =
        st.teacherWorkload := by
  intro l
  induction l with
  | nil => intro st; rfl
  | cons x xs ih =>
    intro st
    rw [List.foldl_cons, ih, labTeacherStep_workload]

theorem teacherCellAt_foldLabTeacher (d p : Nat) (subj c : String) :
    ∀ (l : List String) (st : GenState) (t' : String) (d' p' : Nat),
      teacherCellAt (l.foldl (labTeacherStep d p subj c) st) t' d' p' =
        if t' ∈ l ∧ d' = d ∧ p' = p
        then (teacherCellAt st t' d' p').map (fun _ => ⟨some subj, some t', some c⟩)
        else teacherCellAt st t' d' p' := by
  intro l
  induction l with
  | nil => intro st t' d' p'; simp
  | cons x xs ih =>
    intro st t' d' p'
    rw [List.foldl_cons, ih, teacherCellAt_labTeacherStep]
    by_cases hx : t' = x
    · subst hx
      by_cases hpos : d' = d ∧ p' = p
      · obtain ⟨rfl, rfl⟩ := hpos
        by_cases hxs : t' ∈ xs <;>
          rcases h2 : teacherCellAt st t' d' p' with _ | v <;>
            simp [hxs, h2]
      · simp [hpos]
    · by_cases hxs : t' ∈ xs
      · simp [hx, hxs]
      · have : ¬ t' ∈ x :: xs := by simp [hx, hxs]
        simp [hx, hxs, this]

/-! ## Lemmas: reading cells through state records -/

theorem classCellAt_of_classTT {st : GenState} {m : List (String × Grid)}
    (h : st.classTimetables = m) (c : String) (d p : Nat) :
    classCellAt st c d p = (mapGet m c).bind (fun g => cellOpt g d p) := by
  unfold classCellAt; rw [h]

theorem teacherCellAt_of_teacherTT {st st' : GenState}
    (h : st'.teacherTimetables = st.teacherTimetables) (t : String) (d p : Nat) :
    teacherCellAt st' t d p = teacherCellAt st t d p := by
  unfold teacherCellAt; rw [h]

theorem classCellAt_of_eq {st st' : GenState}
    (h : st'.classTimetables = st.classTimetables) (c : String) (d p : Nat) :
    classCellAt st' c d p = classCellAt st c d p := by
  unfold classCellAt; rw [h]

theorem getWorkload_of_eq {st st' : GenState}
    (h : st'.teacherWorkload = st.teacherWorkload) (t : String) :
    getWorkload st' t = getWorkload st t := by
  unfold getWorkload; rw [h]

/-! ## Lemmas: effects of `assignSlotWithTracking` -/

theorem assign_allocs (st : GenState) (d p : Nat) (sd : SubjectData) (c : String) :
    (assignSlotWithTracking st d p sd c).subjectAllocations =
      st.subjectAllocations := by
  simp only [assignSlotWithTracking]
  rw [foldTeacher_allocs]

theorem classCellAt_assign (st : GenState) (d p : Nat) (sd : SubjectData)
    (c c' : String) (d' p' : Nat) :
    classCellAt (assignSlotWithTracking st d p sd c) c' d' p' =
      if c' = c ∧ d' = d ∧ p' = p
      then (classCellAt st c' d' p').map
        (fun _ => ⟨some sd.subject, some sd.staff, some c⟩)
      else classCellAt st c' d' p' := by
  simp only [assignSlotWithTracking]
  rw [classCellAt_of_classTT (foldTeacher_classTT _ _ _ _ _ _)]
  show ((mapGet (mapUpdate st.classTimetables c _) c').bind _) = _
  rw [mapGet_mapUpdate]
  by_cases hc : c' = c
  · subst hc
    rw [if_pos rfl]
    rcases hg : mapGet st.classTimetables c' with _ | g
    · rw [classCellAt_of_classTT (rfl : st.classTimetables = _)]
      simp only [hg, Option.map_none', Option.none_bind]
      by_cases hpos : d' = d ∧ p' = p <;> simp [hpos]
    · rw [classCellAt_of_classTT (rfl : st.classTimetables = _)]
      simp only [hg, Option.map_some', Option.some_bind]
      rw [cellOpt_setCell]
      by_cases hpos : d' = d ∧ p' = p <;> simp [hpos]
  · have hcon : ¬ (c' = c ∧ d' = d ∧ p' = p) := fun h => hc h.1
    rw [if_neg hc, if_neg hcon]
    rw [classCellAt_of_classTT (rfl : st.classTimetables = _)]

theorem teacherCellAt_assign (st : GenState) (d p : Nat) (sd : SubjectData)
    (c t' : String) (d' p' : Nat) :
    teacherCellAt (assignSlotWithTracking st d p sd c) t' d' p' =
      if t' ∈ parseStaffMembers sd.staff ∧ d' = d ∧ p' = p
      then (teacherCellAt st t' d' p').map
        (fun _ => ⟨some sd.subject, some t', some c⟩)
      else teacherCellAt st t' d' p' := by
  simp only [assignSlotWithTracking]
  rw [teacherCellAt_foldTeacher]
  have hbase : ({ st with classTimetables :=
      (mapUpdate st.classTimetables c
        (fun g => setCell g d p sd.subject sd.staff c)) } : GenState).teacherTimetables
      = st.teacherTimetables := rfl
  rw [teacherCellAt_of_teacherTT hbase]

theorem getWorkload_assign (st : GenState) (d p : Nat) (sd : SubjectData)
    (c t' : String) :
    getWorkload (assignSlotWithTracking st d p sd c) t' =
      getWorkload st t' + countOcc t' (parseStaffMembers sd.staff) := by
  simp only [assignSlotWithTracking]
  rw [getWorkload_foldTeacher]
  rfl

/-! ## Lemmas: effects of `assignLabSlotWithTracking` -/

theorem assignLab_allocs (st : GenState) (d p : Nat) (sd : SubjectData)
    (c : String) :
    (assignLabSlotWithTracking st d p sd c).subjectAllocations =
      st.subjectAllocations := by
  simp only [assignLabSlotWithTracking]
  rw [foldLabTeacher_allocs]

theorem assignLab_workload (st : GenState) (d p : Nat) (sd : SubjectData)
    (c : String) :
    (assignLabSlotWithTracking st d p sd c).teacherWorkload =
      st.teacherWorkload := by
  simp only [assignLabSlotWithTracking]
  rw [foldLabTeacher_workload]

theorem classCellAt_assignLab (st : GenState) (d p : Nat) (sd : SubjectData)
    (c c' : String) (d' p' : Nat) :
    classCellAt (assignLabSlotWithTracking st d p sd c) c' d' p' =
      if c' = c ∧ d' = d ∧ p' = p
      then (classCellAt st c' d' p').map
        (fun _ => ⟨some sd.subject, some (joinStaff (parseStaffMembers sd.staff)), some c⟩)
      else classCellAt st c' d' p' := by
  simp only [assignLabSlotWithTracking]
  rw [classCellAt_of_classTT (foldLabTeacher_classTT _ _ _ _ _ _)]
  show ((mapGet (mapUpdate st.classTimetables c _) c').bind _) = _
  rw [mapGet_mapUpdate]
  by_cases hc : c' = c
  · subst hc
    rw [if_pos rfl]
    rcases hg : mapGet st.classTimetables c' with _ | g
    · rw [classCellAt_of_classTT (rfl : st.classTimetables = _)]
      simp only [hg, Option.map_none', Option.none_bind]
      by_cases hpos : d' = d ∧ p' = p <;> simp [hpos]
    · rw [classCellAt_of_classTT (rfl : st.classTimetables = _)]
      simp only [hg, Option.map_some', Option.some_bind]
      rw [cellOpt_setCell]
      by_cases hpos : d' = d ∧ p' = p <;> simp [hpos]
  · have hcon : ¬ (c' = c ∧ d' = d ∧ p' = p) := fun h => hc h.1
    rw [if_neg hc, if_neg hcon]
    rw [classCellAt_of_classTT (rfl : st.classTimetables = _)]

theorem teacherCellAt_assignLab (st : GenState) (d p : Nat) (sd : SubjectData)
    (c t' : String) (d' p' : Nat) :
    teacherCellAt (assignLabSlotWithTracking st d p sd c) t' d' p' =
      if t' ∈ parseStaffMembers sd.staff ∧ d' = d ∧ p' = p
      then (teacherCellAt st t' d' p').map
        (fun _ => ⟨some sd.subject, some t', some c⟩)
      else teacherCellAt st t' d' p' := by
  simp only [assignLabSlotWithTracking]
  rw [teacherCellAt_foldLabTeacher]
  have hbase : ({ st with classTimetables :=
      (mapUpdate st.classTimetables c
        (fun g => setCell g d p sd.subject (joinStaff (parseStaffMembers sd.staff)) c)) } :
        GenState).teacherTimetables
      = st.teacherTimetables := rfl
  rw [teacherCellAt_of_teacherTT hbase]

/-! ## Lemmas: consequences of slot availability -/

theorem avail_class {S : ScheduleSettings} {st : GenState} {d p : Nat}
    {c staffS : String} (h : isSlotAvailable S st d p c staffS = true) :
    ∃ g, mapGet st.classTimetables c = some g ∧ (cellAt g d p).subject = none := by
  unfold isSlotAvailable at h
  rcases hg : mapGet st.classTimetables c with _ | g
  · rw [hg] at h; simp at h
  · rw [hg] at h
    simp only at h
    refine ⟨g, rfl, ?_⟩
    by_cases hs : (cellAt g d p).subject.isSome
    · rw [if_pos hs] at h; simp at h
    · rcases h2 : (cellAt g d p).subject with _ | v
      · rfl
      · rw [h2] at hs; simp at hs

theorem avail_staff {S : ScheduleSettings} {st : GenState} {d p : Nat}
    {c staffS : String} (h : isSlotAvailable S st d p c staffS = true) :
    ∀ t ∈ parseStaffMembers staffS, ∃ tg,
      mapGet st.teacherTimetables t = some tg ∧ (cellAt tg d p).subject = none ∧
        getWorkload st t < S.maxTeacherPeriodsPerWeek := by
  unfold isSlotAvailable at h
  rcases hg : mapGet st.classTimetables c with _ | g
  · rw [hg] at h; simp at h
  · rw [hg] at h
    simp only at h
    by_cases hs : (cellAt g d p).subject.isSome
    · rw [if_pos hs] at h; simp at h
    · rw [if_neg hs] at h
      intro t ht
      have := (List.all_eq_true.mp h) t ht
      rcases htg : mapGet st.teacherTimetables t with _ | tg
      · rw [htg] at this; simp at this
      · rw [htg] at this
        simp only at this
        refine ⟨tg, rfl, ?_, ?_⟩
        · by_cases hts : (cellAt tg d p).subject.isSome
          · rw [if_pos hts] at this; simp at this
          · rcases h2 : (cellAt tg d p).subject with _ | v
            · rfl
            · rw [h2] at hts; simp at hts
        · by_cases hts : (cellAt tg d p).subject.isSome
          · rw [if_pos hts] at this; simp at this
          · rw [if_neg hts] at this
            exact of_decide_eq_true this

theorem cellAt_subject_none {g : Grid} {d p : Nat}
    (h : (cellAt g d p).subject = none) :
    ∀ v, cellOpt g d p = some v → v.subject = none := by
  intro v hv
  unfold cellAt at h
  rw [hv] at h
  exact h

/-! ## Generic fold-preservation lemmas -/

theorem foldl_pres {α β : Type} (π : β → GenState) (Q : GenState → Prop)
    (f : β → α → β) (hf : ∀ b a, Q (π b) → Q (π (f b a))) :
    ∀ (l : List α) (b : β), Q (π b) → Q (π (List.foldl f b l)) := by
  intro l
  induction l with
  | nil => intro b hb; exact hb
  | cons x xs ih => intro b hb; exact ih (f b x) (hf b x hb)

theorem foldl_rel {α β : Type} (π : β → GenState)
    (R : GenState → GenState → Prop)
    (hrefl : ∀ s, R s s)
    (htrans : ∀ a b c, R a b → R b c → R a c)
    (f : β → α → β) (hstep : ∀ b a, R (π b) (π (f b a))) :
    ∀ (l : List α) (b : β), R (π b) (π (List.foldl f b l)) := by
  intro l
  induction l with
  | nil => intro b; exact hrefl _
  | cons x xs ih =>
    intro b
    exact htrans _ _ _ (hstep b x) (ih (f b x))

/-! ## Lemmas: `PresCells` (no occupied cell is ever overwritten) -/

theorem presCells_refl (st : GenState) : PresCells st st :=
  ⟨fun _ _ _ _ h _ => h, fun _ _ _ _ h _ => h⟩

theorem presCells_trans {st1 st2 st3 : GenState}
    (h1 : PresCells st1 st2) (h2 : PresCells st2 st3) : PresCells st1 st3 :=
  ⟨fun c d p v hv hs => h2.1 c d p v (h1.1 c d p v hv hs) hs,
   fun t d p v hv hs => h2.2 t d p v (h1.2 t d p v hv hs) hs⟩

theorem presCells_of_eq {st st' : GenState}
    (hc : st'.classTimetables = st.classTimetables)
    (ht : st'.teacherTimetables = st.teacherTimetables) : PresCells st st' :=
  ⟨fun c d p v hv _ => by rw [classCellAt_of_eq hc]; exact hv,
   fun t d p v hv _ => by rw [teacherCellAt_of_teacherTT ht]; exact hv⟩

theorem presCells_assign {S : ScheduleSettings} {st : GenState} {d p : Nat}
    {sd : SubjectData} {c : String}
    (h : isSlotAvailable S st d p c sd.staff = true) :
    PresCells st (assignSlotWithTracking st d p sd c) := by
  constructor
  · intro c₀ d₀ p₀ v hv hs
    rw [classCellAt_assign]
    by_cases hcond : c₀ = c ∧ d₀ = d ∧ p₀ = p
    · obtain ⟨rfl, rfl, rfl⟩ := hcond
      obtain ⟨g, hg, hnone⟩ := avail_class h
      rw [classCellAt_of_classTT rfl, hg] at hv
      simp only [Option.some_bind] at hv
      have := cellAt_subject_none hnone v hv
      rw [this] at hs
      simp at hs
    · rw [if_neg hcond]; exact hv
  · intro t₀ d₀ p₀ v hv hs
    rw [teacherCellAt_assign]
    by_cases hcond : t₀ ∈ parseStaffMembers sd.staff ∧ d₀ = d ∧ p₀ = p
    · obtain ⟨hmem, rfl, rfl⟩ := hcond
      obtain ⟨tg, htg, hnone, _⟩ := avail_staff h t₀ hmem
      unfold teacherCellAt at hv
      rw [htg] at hv
      simp only [Option.some_bind] at hv
      have := cellAt_subject_none hnone v hv
      rw [this] at hs
      simp at hs
    · rw [if_neg hcond]; exact hv

theorem presCells_commitSlot {S : ScheduleSettings} {st : GenState} {d p : Nat}
    {sd : SubjectData} {c : String} (key : String)
    (h : isSlotAvailable S st d p c sd.staff = true) :
    PresCells st (commitSlot st d p sd c key) := by
  refine presCells_trans (presCells_assign h) (presCells_of_eq ?_ ?_)
  · rw [commitSlot]; rfl
  · rw [commitSlot]; rfl

theorem presCells_tryCommit (S : ScheduleSettings) (sd : SubjectData)
    (c key : String) (st : GenState) (d p : Nat) :
    PresCells st (tryCommit S sd c key st d p) := by
  unfold tryCommit
  split
  · next h => exact presCells_commitSlot key h.2
  · exact presCells_refl st

theorem presCells_anySlotSweep (S : ScheduleSettings) (sd : SubjectData)
    (c key : String) (st : GenState) :
    PresCells st (anySlotSweep S sd c key st) := by
  unfold anySlotSweep
  refine foldl_rel id PresCells presCells_refl
    (fun _ _ _ => presCells_trans) _ (fun st d => ?_) _ _
  refine foldl_rel id PresCells presCells_refl
    (fun _ _ _ => presCells_trans) _ (fun st p => ?_) _ _
  dsimp only [id]
  split
  · exact presCells_refl _
  · exact presCells_tryCommit S sd c key st d p

theorem presCells_phase (S : ScheduleSettings) (sd : SubjectData)
    (c key : String) (st : GenState) (a b : Nat) :
    PresCells st ((List.range' a b).foldl
      (fun st p =>
        if skipPeriod S p then st
        else (List.range 6).foldl (fun st d => tryCommit S sd c key st d p) st)
      st) := by
  refine foldl_rel id PresCells presCells_refl
    (fun _ _ _ => presCells_trans) _ (fun st p => ?_) _ _
  dsimp only [id]
  split
  · exact presCells_refl _
  · exact foldl_rel id PresCells presCells_refl
      (fun _ _ _ => presCells_trans) _ (fun st d => presCells_tryCommit S sd c key st d p) _ _

theorem presCells_allocateLibraryPeriods (S : ScheduleSettings)
    (sd : SubjectData) (c : String) (st : GenState) :
    PresCells st (allocateLibraryPeriods S sd c st) := by
  unfold allocateLibraryPeriods
  split
  · exact presCells_refl st
  · split
    · exact presCells_refl st
    · exact presCells_trans (presCells_phase S sd c (subjectKey sd) st _ _)
        (presCells_anySlotSweep S sd c (subjectKey sd) _)

theorem presCells_allocateGamesPeriods (S : ScheduleSettings)
    (sd : SubjectData) (c : String) (st : GenState) :
    PresCells st (allocateGamesPeriods S sd c st) := by
  unfold allocateGamesPeriods
  split
  · exact presCells_refl st
  · split
    · exact presCells_refl st
    · exact presCells_trans (presCells_phase S sd c (subjectKey sd) st _ _)
        (presCells_anySlotSweep S sd c (subjectKey sd) _)

theorem presCells_regProbe (S : ScheduleSettings) (sd : SubjectData)
    (c key : String) (strict : Bool) (acc : GenState × Bool) (d p : Nat) :
    PresCells acc.1 (regProbe S sd c key strict acc d p).1 := by
  rcases acc with ⟨st, b⟩
  cases b
  · simp only [regProbe]
    split
    · exact presCells_refl _
    · split
      · next h =>
        have havail := (Bool.and_eq_true _ _).mp h |>.1
        exact presCells_commitSlot key havail
      · exact presCells_refl _
  · simp only [regProbe]
    exact presCells_refl _

theorem presCells_regPass (S : ScheduleSettings) (sd : SubjectData)
    (c key : String) (strict : Bool) (st : GenState) :
    PresCells st (regPass S sd c key strict st).1 := by
  unfold regPass
  have := foldl_rel (Prod.fst : GenState × Bool → GenState) PresCells
    presCells_refl (fun _ _ _ => presCells_trans)
    (fun acc d =>
      (List.range S.totalPeriodsPerDay).foldl
        (fun acc p => regProbe S sd c key strict acc d p) acc)
    (fun acc d => foldl_rel (Prod.fst : GenState × Bool → GenState) PresCells
      presCells_refl (fun _ _ _ => presCells_trans)
      (fun acc p => regProbe S sd c key strict acc d p)
      (fun acc p => presCells_regProbe S sd c key strict acc d p) _ acc)
    (List.range 6) (st, false)
  exact this

theorem presCells_regLoop (S : ScheduleSettings) (sd : SubjectData)
    (c key : String) :
    ∀ (k : Nat) (st : GenState), PresCells st (regLoop S sd c key k st) := by
  intro k
  induction k with
  | zero => intro st; exact presCells_refl st
  | succ k ih =>
    intro st
    unfold regLoop
    rcases h1 : regPass S sd c key true st with ⟨st1, b1⟩
    have hp1 : PresCells st st1 := by
      have := presCells_regPass S sd c key true st
      rw [h1] at this; exact this
    cases b1
    · simp only
      rcases h2 : regPass S sd c key false st1 with ⟨st2, b2⟩
      have hp2 : PresCells st1 st2 := by
        have := presCells_regPass S sd c key false st1
        rw [h2] at this; exact this
      cases b2
      · simp only
        exact presCells_trans hp1 hp2
      · simp only
        exact presCells_trans hp1 (presCells_trans hp2 (ih st2))
    · simp only
      exact presCells_trans hp1 (ih st1)

theorem presCells_allocateRegularPeriods (S : ScheduleSettings)
    (sd : SubjectData) (c : String) (st : GenState) :
    PresCells st (allocateRegularPeriods S sd c st) := by
  simp only [allocateRegularPeriods]
  split
  · exact presCells_refl st
  · split
    · exact presCells_refl st
    · exact presCells_regLoop S sd c (subjectKey sd) _ st

/-! ## Lemmas: the lab period scan -/

theorem range'_snoc (s n : Nat) :
    List.range' s (n + 1) = List.range' s n ++ [s + n] := by
  induction n generalizing s with
  | zero => simp [List.range']
  | succ n ih =>
    have h1 : List.range' s (n + 2) = s :: List.range' (s + 1) (n + 1) := rfl
    have h2 : List.range' s (n + 1) = s :: List.range' (s + 1) n := rfl
    rw [h1, h2, ih (s + 1)]
    simp [Nat.add_assoc, Nat.add_comm 1 n]

theorem take_range' : ∀ (k a n : Nat),
    (List.range' a n).take k = List.range' a (min k n) := by
  intro k
  induction k with
  | zero => intro a n; simp
  | succ k ih =>
    intro a n
    cases n with
    | zero => simp
    | succ n =>
      have h1 : List.range' a (n + 1) = a :: List.range' (a + 1) n := rfl
      have h2 : List.take (k + 1) (a :: List.range' (a + 1) n) =
          a :: List.take k (List.range' (a + 1) n) := rfl
      rw [h1, h2, ih (a + 1) n]
      have : min (k + 1) (n + 1) = min k n + 1 := by omega
      rw [this]
      rfl

theorem labScanGo_sound (S : ScheduleSettings) (st : GenState) (day : Nat)
    (c staffS subj : String) (k : Nat) :
    ∀ (m pstart : Nat) (cur : List Nat) (a : Nat),
      cur = List.range' a cur.length →
      a + cur.length = pstart →
      (∀ q ∈ cur, goodLabSlot S st day c staffS subj q) →
      pstart + m ≤ S.totalPeriodsPerDay →
      labScanGo S st day c staffS subj k (List.range' pstart m) cur = [] ∨
        ∃ s, labScanGo S st day c staffS subj k (List.range' pstart m) cur =
            List.range' s k ∧
          ∀ q ∈ List.range' s k, goodLabSlot S st day c staffS subj q := by
  intro m
  induction m with
  | zero =>
    intro pstart cur a _ _ _ _
    left
    rfl
  | succ m ih =>
    intro pstart cur a hcur hend hgood hbound
    have hsplit : List.range' pstart (m + 1) = pstart :: List.range' (pstart + 1) m := rfl
    rw [hsplit]
    by_cases hlunch : pstart + 1 = S.lunchPeriod
    · rw [labScanGo, if_pos hlunch]
      by_cases hlen : k ≤ cur.length
      · right
        refine ⟨a, ?_, ?_⟩
        · rw [if_pos hlen, hcur, take_range', Nat.min_eq_left hlen]
        · intro q hq
          apply hgood
          rw [hcur]
          have : List.range' a k ⊆ List.range' a cur.length := by
            intro x hx
            rw [List.mem_range'_1] at hx ⊢
            omega
          exact this hq
      · rw [if_neg hlen]
        exact ih (pstart + 1) [] (pstart + 1) rfl rfl (by simp) (by omega)
    · rw [labScanGo, if_neg hlunch]
      by_cases havail : isLabSlotAvailable S st day pstart c staffS subj = true
      · rw [if_pos havail]
        have hgood2 : ∀ q ∈ cur ++ [pstart], goodLabSlot S st day c staffS subj q := by
          intro q hq
          rcases List.mem_append.mp hq with h | h
          · exact hgood q h
          · simp at h
            subst h
            exact ⟨hlunch, havail, by omega⟩
        have hcur2 : cur ++ [pstart] = List.range' a (cur.length + 1) := by
          rw [range'_snoc, ← hcur, hend]
        by_cases hlen : k ≤ (cur ++ [pstart]).length
        · right
          refine ⟨a, ?_, ?_⟩
          · simp only [List.length_append, List.length_cons, List.length_nil] at hlen ⊢
            rw [if_pos hlen, hcur2, take_range', Nat.min_eq_left hlen]
          · intro q hq
            apply hgood2
            rw [hcur2]
            have : List.range' a k ⊆ List.range' a (cur.length + 1) := by
              intro x hx
              rw [List.mem_range'_1] at hx ⊢
              simp only [List.length_append, List.length_cons, List.length_nil] at hlen
              omega
            exact this hq
        · rw [if_neg hlen]
          refine ih (pstart + 1) (cur ++ [pstart]) a ?_ ?_ hgood2 (by omega)
          · rw [hcur2]; simp
          · simp only [List.length_append, List.length_cons, List.length_nil]
            omega
      · rw [if_neg havail]
        by_cases hlen : k ≤ cur.length
        · right
          refine ⟨a, ?_, ?_⟩
          · rw [if_pos hlen, hcur, take_range', Nat.min_eq_left hlen]
          · intro q hq
            apply hgood
            rw [hcur]
            have : List.range' a k ⊆ List.range' a cur.length := by
              intro x hx
              rw [List.mem_range'_1] at hx ⊢
              omega
            exact this hq
        · rw [if_neg hlen]
          exact ih (pstart + 1) [] (pstart + 1) rfl rfl (by simp) (by omega)

theorem labScan_sound (S : ScheduleSettings) (st : GenState) (day : Nat)
    (c staffS subj : String) (k : Nat) :
    labScan S st day c staffS subj k = [] ∨
      ∃ s, labScan S st day c staffS subj k = List.range' s k ∧
        ∀ q ∈ List.range' s k, goodLabSlot S st day c staffS subj q := by
  unfold labScan
  rw [List.range_eq_range']
  exact labScanGo_sound S st day c staffS subj k
    S.totalPeriodsPerDay 0 [] 0 rfl rfl (by simp) (by omega)

/-! ## Lemmas: effects of the lab commit batch -/

theorem classCellAt_labBatch (sd : SubjectData) (c key : String) (day : Nat) :
    ∀ (l : List Nat) (st : GenState) (c₀ : String) (d₀ p₀ : Nat),
      classCellAt
          (l.foldl (fun st p => bumpAlloc (assignLabSlotWithTracking st day p sd c) key) st)
          c₀ d₀ p₀ =
        if c₀ = c ∧ d₀ = day ∧ p₀ ∈ l
        then (classCellAt st c₀ d₀ p₀).map
          (fun _ => ⟨some sd.subject, some (joinStaff (parseStaffMembers sd.staff)), some c⟩)
        else classCellAt st c₀ d₀ p₀ := by
  intro l
  induction l with
  | nil => intro st c₀ d₀ p₀; simp
  | cons x xs ih =>
    intro st c₀ d₀ p₀
    rw [List.foldl_cons, ih]
    have hstep : ∀ (c₁ : String) (d₁ p₁ : Nat),
        classCellAt (bumpAlloc (assignLabSlotWithTracking st day x sd c) key) c₁ d₁ p₁ =
          if c₁ = c ∧ d₁ = day ∧ p₁ = x
          then (classCellAt st c₁ d₁ p₁).map
            (fun _ => ⟨some sd.subject, some (joinStaff (parseStaffMembers sd.staff)), some c⟩)
          else classCellAt st c₁ d₁ p₁ := by
      intro c₁ d₁ p₁
      rw [classCellAt_of_eq (bumpAlloc_classTT _ _), classCellAt_assignLab]
    rw [hstep]
    by_cases hc : c₀ = c
    · subst hc
      by_cases hd : d₀ = day
      · subst hd
        by_cases hx : p₀ = x
        · subst hx
          by_cases hxs : p₀ ∈ xs <;>
            rcases h2 : classCellAt st c₀ d₀ p₀ with _ | v <;>
              simp [hxs, h2]
        · by_cases hxs : p₀ ∈ xs <;> simp [hx, hxs]
      · simp [hd]
    · simp [hc]

theorem teacherCellAt_labBatch (sd : SubjectData) (c key : String) (day : Nat) :
    ∀ (l : List Nat) (st : GenState) (t₀ : String) (d₀ p₀ : Nat),
      teacherCellAt
          (l.foldl (fun st p => bumpAlloc (assignLabSlotWithTracking st day p sd c) key) st)
          t₀ d₀ p₀ =
        if t₀ ∈ parseStaffMembers sd.staff ∧ d₀ = day ∧ p₀ ∈ l
        then (teacherCellAt st t₀ d₀ p₀).map
          (fun _ => ⟨some sd.subject, some t₀, some c⟩)
        else teacherCellAt st t₀ d₀ p₀ := by
  intro l
  induction l with
  | nil => intro st t₀ d₀ p₀; simp
  | cons x xs ih =>
    intro st t₀ d₀ p₀
    rw [List.foldl_cons, ih]
    have hstep : ∀ (t₁ : String) (d₁ p₁ : Nat),
        teacherCellAt (bumpAlloc (assignLabSlotWithTracking st day x sd c) key) t₁ d₁ p₁ =
          if t₁ ∈ parseStaffMembers sd.staff ∧ d₁ = day ∧ p₁ = x
          then (teacherCellAt st t₁ d₁ p₁).map
            (fun _ => ⟨some sd.subject, some t₁, some c⟩)
          else teacherCellAt st t₁ d₁ p₁ := by
      intro t₁ d₁ p₁
      rw [teacherCellAt_of_teacherTT (bumpAlloc_teacherTT _ _), teacherCellAt_assignLab]
    rw [hstep]
    by_cases ht : t₀ ∈ parseStaffMembers sd.staff
    · by_cases hd : d₀ = day
      · subst hd
        by_cases hx : p₀ = x
        · subst hx
          by_cases hxs : p₀ ∈ xs <;>
            rcases h2 : teacherCellAt st t₀ d₀ p₀ with _ | v <;>
              simp [ht, hxs, h2]
        · by_cases hxs : p₀ ∈ xs <;> simp [ht, hx, hxs]
      · simp [hd]
    · simp [ht]

theorem labBatch_workload (sd : SubjectData) (c key : String) (day : Nat) :
    ∀ (l : List Nat) (st : GenState),
      (l.foldl (fun st p => bumpAlloc (assignLabSlotWithTracking st day p sd c) key) st).teacherWorkload
        = st.teacherWorkload := by
  intro l
  induction l with
  | nil => intro st; rfl
  | cons x xs ih =>
    intro st
    rw [List.foldl_cons, ih, bumpAlloc_workload, assignLab_workload]

theorem labBatch_ledger (sd : SubjectData) (c key : String) (day : Nat) :
    ∀ (l : List Nat) (st : GenState) (key' : String),
      mapGet
        (l.foldl (fun st p => bumpAlloc (assignLabSlotWithTracking st day p sd c) key) st).subjectAllocations
        key' =
        if key' = key
        then (mapGet st.subjectAllocations key).map
          (fun a => ⟨a.allocatedPeriods + l.length, a.requiredPeriods⟩)
        else mapGet st.subjectAllocations key' := by
  intro l
  induction l with
  | nil =>
    intro st key'
    by_cases h : key' = key
    · subst h
      rcases h2 : mapGet st.subjectAllocations key' with _ | a <;> simp [h2]
    · simp [h]
  | cons x xs ih =>
    intro st key'
    rw [List.foldl_cons, ih]
    have hstep : ∀ (k' : String),
        mapGet (bumpAlloc (assignLabSlotWithTracking st day x sd c) key).subjectAllocations k' =
          if k' = key
          then (mapGet st.subjectAllocations key).map
            (fun a => ⟨a.allocatedPeriods + 1, a.requiredPeriods⟩)
          else mapGet st.subjectAllocations k' := by
      intro k'
      rw [mapGet_bumpAlloc]
      by_cases h : k' = key <;> simp [h, assignLab_allocs]
    by_cases h : key' = key
    · subst h
      rw [if_pos rfl, if_pos rfl, hstep, if_pos rfl]
      rcases h2 : mapGet st.subjectAllocations key' with _ | a
      · simp
      · simp only [Option.map_some']
        have : a.allocatedPeriods + 1 + xs.length = a.allocatedPeriods + (xs.length + 1) := by
          omega
        simp [this]
    · rw [if_neg h, if_neg h, hstep, if_neg h]

/-! ## Lemmas: the trailing workload fold of `labCommit` -/

theorem labWork_classTT (k : Nat) :
    ∀ (l : List String) (st : GenState),
      (l.foldl (fun st t => setWorkload st t (getWorkload st t + k)) st).classTimetables
        = st.classTimetables := by
  intro l
  induction l with
  | nil => intro st; rfl
  | cons x xs ih => intro st; rw [List.foldl_cons, ih]; rfl

theorem labWork_teacherTT (k : Nat) :
    ∀ (l : List String) (st : GenState),
      (l.foldl (fun st t => setWorkload st t (getWorkload st t + k)) st).teacherTimetables
        = st.teacherTimetables := by
  intro l
  induction l with
  | nil => intro st; rfl
  | cons x xs ih => intro st; rw [List.foldl_cons, ih]; rfl

theorem labWork_allocs (k : Nat) :
    ∀ (l : List String) (st : GenState),
      (l.foldl (fun st t => setWorkload st t (getWorkload st t + k)) st).subjectAllocations
        = st.subjectAllocations := by
  intro l
  induction l with
  | nil => intro st; rfl
  | cons x xs ih => intro st; rw [List.foldl_cons, ih]; rfl

theorem getWorkload_labWork (k : Nat) :
    ∀ (l : List String) (st : GenState) (t' : String),
      getWorkload (l.foldl (fun st t => setWorkload st t (getWorkload st t + k)) st) t' =
        getWorkload st t' + k * countOcc t' l := by
  intro l
  induction l with
  | nil => intro st t'; simp [countOcc]
  | cons x xs ih =>
    intro st t'
    rw [List.foldl_cons, ih, getWorkload_setWorkload]
    by_cases hx : t' = x
    · subst hx
      simp only [countOcc, eq_self_iff_true, if_true]
      ring
    · have hx' : ¬ x = t' := fun h => hx h.symm
      simp [countOcc, hx, hx']

/-! ## Lemmas: `labCommit`, `labTryDays` and the lab allocator -/

theorem labAvail_basic {S : ScheduleSettings} {st : GenState} {d p : Nat}
    {c staffS subj : String}
    (h : isLabSlotAvailable S st d p c staffS subj = true) :
    isSlotAvailable S st d p c staffS = true := by
  unfold isLabSlotAvailable at h
  by_cases h1 : p + 1 = S.lunchPeriod
  · rw [if_pos h1] at h; simp at h
  · rw [if_neg h1] at h
    by_cases h2 : isSlotAvailable S st d p c staffS = true
    · exact h2
    · rw [if_pos] at h
      · simp at h
      · simpa using h2

theorem classCellAt_labCommit (S : ScheduleSettings) (sd : SubjectData)
    (c key : String) (st : GenState) (day : Nat) (slots : List Nat) (k : Nat)
    (c₀ : String) (d₀ p₀ : Nat) :
    classCellAt (labCommit S sd c key st day slots k) c₀ d₀ p₀ =
      if c₀ = c ∧ d₀ = day ∧ p₀ ∈ slots.take k
      then (classCellAt st c₀ d₀ p₀).map
        (fun _ => ⟨some sd.subject, some (joinStaff (parseStaffMembers sd.staff)), some c⟩)
      else classCellAt st c₀ d₀ p₀ := by
  simp only [labCommit]
  rw [classCellAt_of_eq (labWork_classTT _ _ _), classCellAt_labBatch]

theorem teacherCellAt_labCommit (S : ScheduleSettings) (sd : SubjectData)
    (c key : String) (st : GenState) (day : Nat) (slots : List Nat) (k : Nat)
    (t₀ : String) (d₀ p₀ : Nat) :
    teacherCellAt (labCommit S sd c key st day slots k) t₀ d₀ p₀ =
      if t₀ ∈ parseStaffMembers sd.staff ∧ d₀ = day ∧ p₀ ∈ slots.take k
      then (teacherCellAt st t₀ d₀ p₀).map
        (fun _ => ⟨some sd.subject, some t₀, some c⟩)
      else teacherCellAt st t₀ d₀ p₀ := by
  simp only [labCommit]
  rw [teacherCellAt_of_teacherTT (labWork_teacherTT _ _ _), teacherCellAt_labBatch]

theorem labCommit_ledger (S : ScheduleSettings) (sd : SubjectData)
    (c key : String) (st : GenState) (day : Nat) (slots : List Nat) (k : Nat)
    (key' : String) :
    mapGet (labCommit S sd c key st day slots k).subjectAllocations key' =
      if key' = key
      then (mapGet st.subjectAllocations key).map
        (fun a => ⟨a.allocatedPeriods + (slots.take k).length, a.requiredPeriods⟩)
      else mapGet st.subjectAllocations key' := by
  simp only [labCommit]
  have h := labWork_allocs k (parseStaffMembers sd.staff)
  rw [h, labBatch_ledger]

theorem getWorkload_labCommit (S : ScheduleSettings) (sd : SubjectData)
    (c key : String) (st : GenState) (day : Nat) (slots : List Nat) (k : Nat)
    (t' : String) :
    getWorkload (labCommit S sd c key st day slots k) t' =
      getWorkload st t' + k * countOcc t' (parseStaffMembers sd.staff) := by
  simp only [labCommit]
  rw [getWorkload_labWork]
  have h : ∀ (st1 st2 : GenState), st1.teacherWorkload = st2.teacherWorkload →
      getWorkload st1 t' = getWorkload st2 t' := by
    intro st1 st2 h; unfold getWorkload; rw [h]
  rw [h _ st (labBatch_workload sd c key day (slots.take k) st)]

theorem presCells_labCommit {S : ScheduleSettings} {sd : SubjectData}
    {c key : String} {st : GenState} {day : Nat} {slots : List Nat} {k : Nat}
    (h : ∀ q ∈ slots.take k,
      isLabSlotAvailable S st day q c sd.staff sd.subject = true) :
    PresCells st (labCommit S sd c key st day slots k) := by
  constructor
  · intro c₀ d₀ p₀ v hv hs
    rw [classCellAt_labCommit]
    by_cases hcond : c₀ = c ∧ d₀ = day ∧ p₀ ∈ slots.take k
    · obtain ⟨rfl, rfl, hmem⟩ := hcond
      obtain ⟨g, hg, hnone⟩ := avail_class (labAvail_basic (h p₀ hmem))
      rw [classCellAt_of_classTT rfl, hg] at hv
      simp only [Option.some_bind] at hv
      have := cellAt_subject_none hnone v hv
      rw [this] at hs
      simp at hs
    · rw [if_neg hcond]; exact hv
  · intro t₀ d₀ p₀ v hv hs
    rw [teacherCellAt_labCommit]
    by_cases hcond : t₀ ∈ parseStaffMembers sd.staff ∧ d₀ = day ∧ p₀ ∈ slots.take k
    · obtain ⟨hmemT, rfl, hmem⟩ := hcond
      obtain ⟨tg, htg, hnone, _⟩ := avail_staff (labAvail_basic (h p₀ hmem)) t₀ hmemT
      unfold teacherCellAt at hv
      rw [htg] at hv
      simp only [Option.some_bind] at hv
      have := cellAt_subject_none hnone v hv
      rw [this] at hs
      simp at hs
    · rw [if_neg hcond]; exact hv

theorem labTryDays_outcome (S : ScheduleSettings) (sd : SubjectData)
    (c : String) (k : Nat) (hk : 0 < k) :
    ∀ (days : List Nat) (st : GenState),
      labTryDays S sd c k st days = st ∨
        ∃ day ∈ days, ∃ s,
          labTryDays S sd c k st days =
            labCommit S sd c (subjectKey sd) st day (List.range' s k) k ∧
          ∀ q ∈ List.range' s k, goodLabSlot S st day c sd.staff sd.subject q := by
  intro days
  induction days with
  | nil => intro st; left; rfl
  | cons day rest ih =>
    intro st
    rw [labTryDays]
    by_cases hdiff : hasDifferentLabOnDay st c day sd.subject = true
    · rw [if_pos hdiff]
      rcases ih st with h | ⟨d0, hd0, s, heq, hgood⟩
      · exact Or.inl h
      · exact Or.inr ⟨d0, List.mem_cons_of_mem _ hd0, s, heq, hgood⟩
    · rw [if_neg hdiff]
      simp only
      rcases labScan_sound S st day c sd.staff sd.subject k with hempty | ⟨s, hrange, hgood⟩
      · rw [hempty]
        have : ¬ k ≤ ([] : List Nat).length := by simp; omega
        rw [if_neg this]
        rcases ih st with h | ⟨d0, hd0, s, heq, hgood⟩
        · exact Or.inl h
        · exact Or.inr ⟨d0, List.mem_cons_of_mem _ hd0, s, heq, hgood⟩
      · rw [hrange]
        have hlen : k ≤ (List.range' s k).length := by simp
        rw [if_pos hlen]
        exact Or.inr ⟨day, List.mem_cons_self _ _, s, rfl, hgood⟩

theorem presCells_labTryDays (S : ScheduleSettings) (sd : SubjectData)
    (c : String) (k : Nat) :
    ∀ (days : List Nat) (st : GenState),
      PresCells st (labTryDays S sd c k st days) := by
  intro days
  induction days with
  | nil => intro st; exact presCells_refl st
  | cons day rest ih =>
    intro st
    rw [labTryDays]
    by_cases hdiff : hasDifferentLabOnDay st c day sd.subject = true
    · rw [if_pos hdiff]; exact ih st
    · rw [if_neg hdiff]
      simp only
      rcases labScan_sound S st day c sd.staff sd.subject k with hempty | ⟨s, hrange, hgood⟩
      · rw [hempty]
        by_cases hlen : k ≤ ([] : List Nat).length
        · rw [if_pos hlen]
          refine presCells_labCommit ?_
          intro q hq
          simp at hq
        · rw [if_neg hlen]; exact ih st
      · rw [hrange]
        by_cases hlen : k ≤ (List.range' s k).length
        · rw [if_pos hlen]
          refine presCells_labCommit ?_
          intro q hq
          have hq2 : q ∈ List.range' s k := List.take_subset _ _ hq
          exact (hgood q hq2).2.1
        · rw [if_neg hlen]; exact ih st

theorem presCells_allocateConsecutivePeriods (S : ScheduleSettings)
    (sd : SubjectData) (c : String) (st : GenState) :
    PresCells st (allocateConsecutivePeriods S sd c st) := by
  simp only [allocateConsecutivePeriods]
  split
  · exact presCells_refl st
  · exact presCells_labTryDays S sd c _ _ st

theorem presCells_dispatch (S : ScheduleSettings) (st : GenState)
    (sd : SubjectData) : PresCells st (dispatchAllocate S st sd) := by
  unfold dispatchAllocate
  split
  · exact presCells_allocateConsecutivePeriods S sd _ st
  · split
    · exact presCells_allocateLibraryPeriods S sd _ st
    · split
      · exact presCells_allocateGamesPeriods S sd _ st
      · exact presCells_allocateRegularPeriods S sd _ st

theorem presCells_allocateSubjects (S : ScheduleSettings)
    (prefs : List TeacherPreference) (rows : List SubjectData) (st : GenState) :
    PresCells st (allocateSubjects S prefs rows st) := by
  unfold allocateSubjects
  exact foldl_rel id PresCells presCells_refl (fun _ _ _ => presCells_trans) _
    (fun st sd => presCells_dispatch S st sd) _ st

theorem cellOpt_isSome_of_WF {S : ScheduleSettings} {g : Grid} (h : gridWF S g)
    {d p : Nat} (hd : d < 6) (hp : p < S.totalPeriodsPerDay) :
    ∃ v, cellOpt g d p = some v := by
  obtain ⟨h6, hrows⟩ := h
  rcases hrow : g.get? d with _ | row
  · rw [List.get?_eq_none] at hrow; omega
  · have hmem : row ∈ g := List.get?_mem hrow
    have hplen : p < row.length := by rw [hrows row hmem]; exact hp
    rcases hcell : row.get? p with _ | v
    · rw [List.get?_eq_none] at hcell; omega
    · exact ⟨v, by unfold cellOpt; rw [hrow]; simpa using hcell⟩

/-! ## Claim theorems -/

/-- **C1** — No double-booking: in the generated timetables every
class-grid and teacher-grid cell holds at most one subject (cells are
`Option`-valued), and no allocator of `allocateSubjects` ever writes into
a class-grid or teacher-grid cell that already holds a subject: every
occupied cell survives a full allocation pass unchanged, so a class never
gets two subjects and a teacher never gets two simultaneous assignments
at one `(day, period)`. -/
theorem allocateSubjects_no_double_booking
    (S : ScheduleSettings) (prefs : List TeacherPreference)
    (rows : List SubjectData) (st : GenState) :
    (∀ c d p v, classCellAt st c d p = some v → v.subject.isSome = true →
        classCellAt (allocateSubjects S prefs rows st) c d p = some v) ∧
    (∀ t d p v, teacherCellAt st t d p = some v → v.subject.isSome = true →
        teacherCellAt (allocateSubjects S prefs rows st) t d p = some v) :=
  presCells_allocateSubjects S prefs rows st

/-- Witness for C1 at a concrete state: a cell occupied by `Math` is
untouched by a full allocation pass for an unrelated subject row. -/
theorem allocateSubjects_no_double_booking_witness :
    classCellAt
      (allocateSubjects ⟨2, 2, [], 5⟩ []
        [⟨"CS", "1", "A", "Physics", 1, "T"⟩]
        ⟨[("X", [[⟨some "Math", some "T", some "X"⟩]])], [], [], []⟩)
      "X" 0 0 = some ⟨some "Math", some "T", some "X"⟩ :=
  (allocateSubjects_no_double_booking ⟨2, 2, [], 5⟩ []
    [⟨"CS", "1", "A", "Physics", 1, "T"⟩]
    ⟨[("X", [[⟨some "Math", some "T", some "X"⟩]])], [], [], []⟩).1
    "X" 0 0 ⟨some "Math", some "T", some "X"⟩ (by decide) (by decide)

/-- **C2** — Lab all-or-nothing contiguity: one call of the lab allocator
(`allocateConsecutivePeriods`, hence `allocateAllLabPeriodsConsecutively`)
with a positive remaining requirement either leaves the state untouched
(so the ledger keeps recording the shortfall), or places all
`getRemainingPeriods` periods on one single day as a run of consecutive
period indices none of which is the lunch period, touching no other cell
of the class grid, and fills the ledger entry to exactly its
requirement — lab periods are never split across days. -/
theorem allocateConsecutivePeriods_all_or_nothing
    (S : ScheduleSettings) (sd : SubjectData) (c : String) (st : GenState)
    (g : Grid)
    (hg : mapGet st.classTimetables c = some g) (hwf : gridWF S g)
    (hrem : 0 < getRemainingPeriods st sd) :
    labOutcome S sd c st (allocateConsecutivePeriods S sd c st) := by
  have hrem0 : getRemainingPeriods st sd ≠ 0 := by omega
  simp only [allocateConsecutivePeriods, labOutcome, hrem0, if_false,
    ite_false]
  set k := getRemainingPeriods st sd with hk
  rcases labTryDays_outcome S sd c k hrem (List.range 6) st with h | ⟨day, hday, s, heq, hgood⟩
  · rw [show allocateAllLabPeriodsConsecutively S sd c k st =
        labTryDays S sd c k st (List.range 6) from rfl, h]
    exact Or.inl rfl
  · right
    have hday6 : day < 6 := List.mem_range.mp hday
    have htake : (List.range' s k).take k = List.range' s k := by
      rw [take_range']; simp
    refine ⟨day, s, hday6, ?_, ?_, ?_, ?_⟩
    · intro i hi
      have hmem : s + i ∈ List.range' s k := by
        rw [List.mem_range'_1]; omega
      have hgoodi := hgood (s + i) hmem
      unfold classCellSubject
      rw [show allocateAllLabPeriodsConsecutively S sd c k st =
          labTryDays S sd c k st (List.range 6) from rfl, heq,
        classCellAt_labCommit]
      rw [htake]
      rw [if_pos ⟨rfl, rfl, hmem⟩]
      obtain ⟨v, hv⟩ := cellOpt_isSome_of_WF hwf hday6 hgoodi.2.2
      rw [classCellAt_of_classTT rfl, hg]
      simp [hv]
    · intro i hi
      have hmem : s + i ∈ List.range' s k := by
        rw [List.mem_range'_1]; omega
      exact (hgood (s + i) hmem).1
    · intro d' p' hcond
      rw [show allocateAllLabPeriodsConsecutively S sd c k st =
          labTryDays S sd c k st (List.range 6) from rfl, heq,
        classCellAt_labCommit, htake]
      have : ¬ (c = c ∧ d' = day ∧ p' ∈ List.range' s k) := by
        intro ⟨_, hd, hp⟩
        rw [List.mem_range'_1] at hp
        rcases hcond with h | h | h
        · exact h hd
        · omega
        · omega
      rw [if_neg this]
    · rw [show allocateAllLabPeriodsConsecutively S sd c k st =
          labTryDays S sd c k st (List.range 6) from rfl, heq]
      unfold allocCount reqCount
      rw [labCommit_ledger, if_pos rfl, htake]
      unfold getRemainingPeriods at hk
      rcases ha : mapGet st.subjectAllocations (subjectKey sd) with _ | a
      · rw [ha] at hk
        simp only at hk
        omega
      · rw [ha] at hk
        simp only at hk
        simp only [ha, Option.map_some', Option.getD_some]
        have hlen : (List.range' s k).length = k := by simp
        rw [hlen]
        omega

/-- Witness for C2 at a concrete input: a 2-period lab on an empty
3-period/day grid. -/
theorem allocateConsecutivePeriods_all_or_nothing_witness :
    labOutcome ⟨3, 3, [], 5⟩ ⟨"CS", "1", "A", "Phy Lab", 2, "A"⟩ "CS-1-A"
      (initState ⟨3, 3, [], 5⟩ [⟨"CS", "1", "A", "Phy Lab", 2, "A"⟩])
      (allocateConsecutivePeriods ⟨3, 3, [], 5⟩ ⟨"CS", "1", "A", "Phy Lab", 2, "A"⟩
        "CS-1-A" (initState ⟨3, 3, [], 5⟩ [⟨"CS", "1", "A", "Phy Lab", 2, "A"⟩])) :=
  allocateConsecutivePeriods_all_or_nothing _ _ _ _
    (emptyGrid ⟨3, 3, [], 5⟩) (by decide) (by decide) (by decide)

/-! ## Lemmas: `PresEmptyAt` (no write at lunch / break periods) -/

theorem presEmpty_refl (P : Nat → Prop) (st : GenState) : PresEmptyAt P st st :=
  ⟨fun _ _ _ _ h => h, fun _ _ _ _ h => h⟩

theorem presEmpty_trans {P : Nat → Prop} {st1 st2 st3 : GenState}
    (h1 : PresEmptyAt P st1 st2) (h2 : PresEmptyAt P st2 st3) :
    PresEmptyAt P st1 st3 :=
  ⟨fun c d p hP h => h2.1 c d p hP (h1.1 c d p hP h),
   fun t d p hP h => h2.2 t d p hP (h1.2 t d p hP h)⟩

theorem presEmpty_of_eq {P : Nat → Prop} {st st' : GenState}
    (hc : st'.classTimetables = st.classTimetables)
    (ht : st'.teacherTimetables = st.teacherTimetables) : PresEmptyAt P st st' :=
  ⟨fun c d p _ h => by
      unfold classCellSubject
      rw [classCellAt_of_eq hc]
      exact h,
   fun t d p _ h => by
      unfold teacherCellSubject
      rw [teacherCellAt_of_teacherTT ht]
      exact h⟩

theorem presEmpty_commitSlot {P : Nat → Prop} {st : GenState} {d p : Nat}
    {sd : SubjectData} {c key : String} (hP : ¬ P p) :
    PresEmptyAt P st (commitSlot st d p sd c key) := by
  unfold commitSlot
  constructor
  · intro c₀ d₀ p₀ hP0 h
    unfold classCellSubject at h ⊢
    rw [classCellAt_of_eq (bumpAlloc_classTT _ _), classCellAt_assign]
    have : ¬ (c₀ = c ∧ d₀ = d ∧ p₀ = p) := by
      intro ⟨_, _, hp0⟩; exact hP (hp0 ▸ hP0)
    rw [if_neg this]
    exact h
  · intro t₀ d₀ p₀ hP0 h
    unfold teacherCellSubject at h ⊢
    rw [teacherCellAt_of_teacherTT (bumpAlloc_teacherTT _ _), teacherCellAt_assign]
    have : ¬ (t₀ ∈ parseStaffMembers sd.staff ∧ d₀ = d ∧ p₀ = p) := by
      intro ⟨_, _, hp0⟩; exact hP (hp0 ▸ hP0)
    rw [if_neg this]
    exact h

theorem presEmpty_tryCommit {P : Nat → Prop} (S : ScheduleSettings)
    (sd : SubjectData) (c key : String) (st : GenState) (d p : Nat)
    (hP : ¬ P p) : PresEmptyAt P st (tryCommit S sd c key st d p) := by
  unfold tryCommit
  split
  · exact presEmpty_commitSlot hP
  · exact presEmpty_refl P st

theorem presEmpty_anySlotSweep {P : Nat → Prop} (S : ScheduleSettings)
    (sd : SubjectData) (c key : String) (st : GenState)
    (hPs : ∀ q, P q → skipPeriod S q = true) :
    PresEmptyAt P st (anySlotSweep S sd c key st) := by
  unfold anySlotSweep
  refine foldl_rel id (PresEmptyAt P) (presEmpty_refl P)
    (fun _ _ _ => presEmpty_trans) _ (fun st d => ?_) _ _
  refine foldl_rel id (PresEmptyAt P) (presEmpty_refl P)
    (fun _ _ _ => presEmpty_trans) _ (fun st p => ?_) _ _
  dsimp only [id]
  by_cases hskip : skipPeriod S p = true
  · rw [if_pos hskip]; exact presEmpty_refl P _
  · rw [if_neg hskip]
    exact presEmpty_tryCommit S sd c key st _ p (fun hq => hskip (hPs p hq))

theorem presEmpty_phase {P : Nat → Prop} (S : ScheduleSettings)
    (sd : SubjectData) (c key : String) (st : GenState) (a b : Nat)
    (hPs : ∀ q, P q → skipPeriod S q = true) :
    PresEmptyAt P st ((List.range' a b).foldl
      (fun st p =>
        if skipPeriod S p then st
        else (List.range 6).foldl (fun st d => tryCommit S sd c key st d p) st)
      st) := by
  refine foldl_rel id (PresEmptyAt P) (presEmpty_refl P)
    (fun _ _ _ => presEmpty_trans) _ (fun st p => ?_) _ _
  dsimp only [id]
  by_cases hskip : skipPeriod S p = true
  · rw [if_pos hskip]; exact presEmpty_refl P _
  · rw [if_neg hskip]
    exact foldl_rel id (PresEmptyAt P) (presEmpty_refl P)
      (fun _ _ _ => presEmpty_trans) _
      (fun st d => presEmpty_tryCommit S sd c key st d p
        (fun hq => hskip (hPs p hq))) _ _

theorem presEmpty_allocateLibraryPeriods {P : Nat → Prop}
    (S : ScheduleSettings) (sd : SubjectData) (c : String) (st : GenState)
    (hPs : ∀ q, P q → skipPeriod S q = true) :
    PresEmptyAt P st (allocateLibraryPeriods S sd c st) := by
  unfold allocateLibraryPeriods
  split
  · exact presEmpty_refl P st
  · split
    · exact presEmpty_refl P st
    · exact presEmpty_trans (presEmpty_phase S sd c (subjectKey sd) st _ _ hPs)
        (presEmpty_anySlotSweep S sd c (subjectKey sd) _ hPs)

theorem presEmpty_allocateGamesPeriods {P : Nat → Prop}
    (S : ScheduleSettings) (sd : SubjectData) (c : String) (st : GenState)
    (hPs : ∀ q, P q → skipPeriod S q = true) :
    PresEmptyAt P st (allocateGamesPeriods S sd c st) := by
  unfold allocateGamesPeriods
  split
  · exact presEmpty_refl P st
  · split
    · exact presEmpty_refl P st
    · exact presEmpty_trans (presEmpty_phase S sd c (subjectKey sd) st _ _ hPs)
        (presEmpty_anySlotSweep S sd c (subjectKey sd) _ hPs)

theorem presEmpty_regProbe {P : Nat → Prop} (S : ScheduleSettings)
    (sd : SubjectData) (c key : String) (strict : Bool)
    (acc : GenState × Bool) (d p : Nat)
    (hPs : ∀ q, P q → skipPeriod S q = true) :
    PresEmptyAt P acc.1 (regProbe S sd c key strict acc d p).1 := by
  rcases acc with ⟨st, b⟩
  cases b
  · simp only [regProbe]
    by_cases hskip : skipPeriod S p = true
    · rw [if_pos hskip]; exact presEmpty_refl P _
    · rw [if_neg hskip]
      split
      · exact presEmpty_commitSlot (fun hq => hskip (hPs p hq))
      · exact presEmpty_refl P _
  · simp only [regProbe]
    exact presEmpty_refl P _

theorem presEmpty_regPass {P : Nat → Prop} (S : ScheduleSettings)
    (sd : SubjectData) (c key : String) (strict : Bool) (st : GenState)
    (hPs : ∀ q, P q → skipPeriod S q = true) :
    PresEmptyAt P st (regPass S sd c key strict st).1 := by
  unfold regPass
  exact foldl_rel (Prod.fst : GenState × Bool → GenState) (PresEmptyAt P)
    (presEmpty_refl P) (fun _ _ _ => presEmpty_trans)
    (fun acc d =>
      (List.range S.totalPeriodsPerDay).foldl
        (fun acc p => regProbe S sd c key strict acc d p) acc)
    (fun acc d => foldl_rel (Prod.fst : GenState × Bool → GenState)
      (PresEmptyAt P) (presEmpty_refl P) (fun _ _ _ => presEmpty_trans)
      (fun acc p => regProbe S sd c key strict acc d p)
      (fun acc p => presEmpty_regProbe S sd c key strict acc d p hPs) _ acc)
    (List.range 6) (st, false)

theorem presEmpty_regLoop {P : Nat → Prop} (S : ScheduleSettings)
    (sd : SubjectData) (c key : String)
    (hPs : ∀ q, P q → skipPeriod S q = true) :
    ∀ (k : Nat) (st : GenState), PresEmptyAt P st (regLoop S sd c key k st) := by
  intro k
  induction k with
  | zero => intro st; exact presEmpty_refl P st
  | succ k ih =>
    intro st
    unfold regLoop
    rcases h1 : regPass S sd c key true st with ⟨st1, b1⟩
    have hp1 : PresEmptyAt P st st1 := by
      have := presEmpty_regPass S sd c key true st hPs
      rw [h1] at this; exact this
    cases b1
    · simp only
      rcases h2 : regPass S sd c key false st1 with ⟨st2, b2⟩
      have hp2 : PresEmptyAt P st1 st2 := by
        have := presEmpty_regPass S sd c key false st1 hPs
        rw [h2] at this; exact this
      cases b2
      · simp only
        exact presEmpty_trans hp1 hp2
      · simp only
        exact presEmpty_trans hp1 (presEmpty_trans hp2 (ih st2))
    · simp only
      exact presEmpty_trans hp1 (ih st1)

theorem presEmpty_allocateRegularPeriods {P : Nat → Prop}
    (S : ScheduleSettings) (sd : SubjectData) (c : String) (st : GenState)
    (hPs : ∀ q, P q → skipPeriod S q = true) :
    PresEmptyAt P st (allocateRegularPeriods S sd c st) := by
  simp only [allocateRegularPeriods]
  split
  · exact presEmpty_refl P st
  · split
    · exact presEmpty_refl P st
    · exact presEmpty_regLoop S sd c (subjectKey sd) hPs _ st

theorem presEmpty_labCommit {P : Nat → Prop} {S : ScheduleSettings}
    {sd : SubjectData} {c key : String} {st : GenState} {day : Nat}
    {slots : List Nat} {k : Nat}
    (h : ∀ q ∈ slots.take k, ¬ P q) :
    PresEmptyAt P st (labCommit S sd c key st day slots k) := by
  constructor
  · intro c₀ d₀ p₀ hP0 hnone
    unfold classCellSubject at hnone ⊢
    rw [classCellAt_labCommit]
    have : ¬ (c₀ = c ∧ d₀ = day ∧ p₀ ∈ slots.take k) := by
      intro ⟨_, _, hp0⟩; exact h p₀ hp0 hP0
    rw [if_neg this]
    exact hnone
  · intro t₀ d₀ p₀ hP0 hnone
    unfold teacherCellSubject at hnone ⊢
    rw [teacherCellAt_labCommit]
    have : ¬ (t₀ ∈ parseStaffMembers sd.staff ∧ d₀ = day ∧ p₀ ∈ slots.take k) := by
      intro ⟨_, _, hp0⟩; exact h p₀ hp0 hP0
    rw [if_neg this]
    exact hnone

theorem presEmptyLunch_labTryDays (S : ScheduleSettings) (sd : SubjectData)
    (c : String) (k : Nat) :
    ∀ (days : List Nat) (st : GenState),
      PresEmptyAt (fun q => q + 1 = S.lunchPeriod) st
        (labTryDays S sd c k st days) := by
  intro days
  induction days with
  | nil => intro st; exact presEmpty_refl _ st
  | cons day rest ih =>
    intro st
    rw [labTryDays]
    by_cases hdiff : hasDifferentLabOnDay st c day sd.subject = true
    · rw [if_pos hdiff]; exact ih st
    · rw [if_neg hdiff]
      simp only
      rcases labScan_sound S st day c sd.staff sd.subject k with hempty | ⟨s, hrange, hgood⟩
      · rw [hempty]
        by_cases hlen : k ≤ ([] : List Nat).length
        · rw [if_pos hlen]
          refine presEmpty_labCommit ?_
          intro q hq; simp at hq
        · rw [if_neg hlen]; exact ih st
      · rw [hrange]
        by_cases hlen : k ≤ (List.range' s k).length
        · rw [if_pos hlen]
          refine presEmpty_labCommit ?_
          intro q hq
          exact (hgood q (List.take_subset _ _ hq)).1
        · rw [if_neg hlen]; exact ih st

theorem presEmptyLunch_dispatch (S : ScheduleSettings) (st : GenState)
    (sd : SubjectData) :
    PresEmptyAt (fun q => q + 1 = S.lunchPeriod) st (dispatchAllocate S st sd) := by
  have hPs : ∀ q, q + 1 = S.lunchPeriod → skipPeriod S q = true := by
    intro q hq
    unfold skipPeriod
    simp [hq]
  unfold dispatchAllocate
  split
  · simp only [allocateConsecutivePeriods]
    split
    · exact presEmpty_refl _ st
    · exact presEmptyLunch_labTryDays S sd _ _ _ st
  · split
    · exact presEmpty_allocateLibraryPeriods S sd _ st hPs
    · split
      · exact presEmpty_allocateGamesPeriods S sd _ st hPs
      · exact presEmpty_allocateRegularPeriods S sd _ st hPs

theorem presEmptyLunch_allocateSubjects (S : ScheduleSettings)
    (prefs : List TeacherPreference) (rows : List SubjectData) (st : GenState) :
    PresEmptyAt (fun q => q + 1 = S.lunchPeriod) st
      (allocateSubjects S prefs rows st) := by
  unfold allocateSubjects
  exact foldl_rel id _ (presEmpty_refl _) (fun _ _ _ => presEmpty_trans) _
    (fun st sd => presEmptyLunch_dispatch S st sd) _ st

/-- **C7** (counterexample to the claim as stated): the lab consecutive
allocator does not merely span break periods — it assigns the lab subject
into them.  With 3 periods/day, lunch = 3 and break period 2, a 2-period
lab is placed at periods 1–2, so the class cell at the designated break
period 2 holds the lab subject. -/
theorem lab_assigns_into_break_period_cx :
    classCellSubject
        (allocateSubjects ⟨3, 3, [2], 40⟩ [] [⟨"CS", "1", "A", "C Lab", 2, "A"⟩]
          (initState ⟨3, 3, [2], 40⟩ [⟨"CS", "1", "A", "C Lab", 2, "A"⟩]))
        "CS-1-A" 0 1 = some "C Lab" ∧
      (⟨3, 3, [2], 40⟩ : ScheduleSettings).breakPeriods.contains (1 + 1) = true := by
  constructor
  · decide
  · decide

/-- **C7** (amended) — No allocator ever assigns a subject to the lunch
period of any day (lunch cells that are empty stay empty through a full
allocation pass, in class grids and teacher grids alike; in particular
the lab run search treats lunch as a hard boundary).  The library, games
and regular allocators additionally never assign into designated break
periods.  The lab allocator, however, may place the lab subject into
break periods (its consecutive runs include them), which is the one
departure from the original claim. -/
theorem no_assignment_at_lunch_and_breaks :
    (∀ (S : ScheduleSettings) (prefs : List TeacherPreference)
        (rows : List SubjectData) (st : GenState),
      PresEmptyAt (fun q => q + 1 = S.lunchPeriod) st
        (allocateSubjects S prefs rows st)) ∧
    (∀ (S : ScheduleSettings) (sd : SubjectData) (c : String) (st : GenState),
      PresEmptyAt (fun q => S.breakPeriods.contains (q + 1) = true) st
          (allocateLibraryPeriods S sd c st) ∧
        PresEmptyAt (fun q => S.breakPeriods.contains (q + 1) = true) st
          (allocateGamesPeriods S sd c st) ∧
        PresEmptyAt (fun q => S.breakPeriods.contains (q + 1) = true) st
          (allocateRegularPeriods S sd c st)) := by
  constructor
  · exact presEmptyLunch_allocateSubjects
  · intro S sd c st
    have hPs : ∀ q, S.breakPeriods.contains (q + 1) = true → skipPeriod S q = true := by
      intro q hq
      unfold skipPeriod
      rw [hq, Bool.or_true]
    exact ⟨presEmpty_allocateLibraryPeriods S sd c st hPs,
      presEmpty_allocateGamesPeriods S sd c st hPs,
      presEmpty_allocateRegularPeriods S sd c st hPs⟩

/-- Witness for the amended C7: a 6-period regular subject on a
3-period/day grid with lunch at period 2 fills the teaching periods but
leaves every lunch cell empty. -/
theorem no_assignment_at_lunch_and_breaks_witness :
    classCellSubject
      (allocateSubjects ⟨3, 2, [], 40⟩ [] [⟨"CS", "1", "A", "Math", 6, "T"⟩]
        (initState ⟨3, 2, [], 40⟩ [⟨"CS", "1", "A", "Math", 6, "T"⟩]))
      "CS-1-A" 0 1 = none :=
  (no_assignment_at_lunch_and_breaks.1 ⟨3, 2, [], 40⟩ []
    [⟨"CS", "1", "A", "Math", 6, "T"⟩]
    (initState ⟨3, 2, [], 40⟩ [⟨"CS", "1", "A", "Math", 6, "T"⟩])).1
    "CS-1-A" 0 1 rfl (by decide)

/-! ## Lemmas: the library allocator is scoped to its own class -/

theorem assign_classTT (st : GenState) (d p : Nat) (sd : SubjectData)
    (c : String) :
    (assignSlotWithTracking st d p sd c).classTimetables =
      mapUpdate st.classTimetables c (fun g => setCell g d p sd.subject sd.staff c) := by
  simp only [assignSlotWithTracking]
  rw [foldTeacher_classTT]

theorem frame_commitSlot {st : GenState} {d p : Nat} {sd : SubjectData}
    {c key c' : String} (h : c' ≠ c) :
    mapGet (commitSlot st d p sd c key).classTimetables c' =
      mapGet st.classTimetables c' := by
  rw [commitSlot, bumpAlloc_classTT, assign_classTT, mapGet_mapUpdate, if_neg h]

theorem frame_tryCommit {S : ScheduleSettings} {sd : SubjectData}
    {c key c' : String} (h : c' ≠ c) (st : GenState) (d p : Nat) :
    mapGet (tryCommit S sd c key st d p).classTimetables c' =
      mapGet st.classTimetables c' := by
  unfold tryCommit
  split
  · exact frame_commitSlot h
  · rfl

set_option maxHeartbeats 4000000 in
/-- **C4** (counterexample to the claim as stated): there is no library
occupancy map.  Two classes with disjoint staff both receive their
`Library` period at the very same `(day, period)` — Monday, period 1 —
in one allocation pass. -/
theorem library_no_global_exclusivity_cx :
    classCellSubject
        (allocateSubjects ⟨2, 2, [], 10⟩ []
          [⟨"CS", "1", "A", "Library", 1, "T1"⟩, ⟨"CS", "1", "B", "Library", 1, "T2"⟩]
          (initState ⟨2, 2, [], 10⟩
            [⟨"CS", "1", "A", "Library", 1, "T1"⟩, ⟨"CS", "1", "B", "Library", 1, "T2"⟩]))
        "CS-1-A" 0 0 = some "Library" ∧
      classCellSubject
        (allocateSubjects ⟨2, 2, [], 10⟩ []
          [⟨"CS", "1", "A", "Library", 1, "T1"⟩, ⟨"CS", "1", "B", "Library", 1, "T2"⟩]
          (initState ⟨2, 2, [], 10⟩
            [⟨"CS", "1", "A", "Library", 1, "T1"⟩, ⟨"CS", "1", "B", "Library", 1, "T2"⟩]))
        "CS-1-B" 0 0 = some "Library" := by
  constructor
  · decide
  · decide

theorem frame_foldl {α : Type} (c' : String) (f : GenState → α → GenState)
    (hf : ∀ st a, mapGet (f st a).classTimetables c' = mapGet st.classTimetables c') :
    ∀ (l : List α) (st : GenState),
      mapGet (List.foldl f st l).classTimetables c' =
        mapGet st.classTimetables c' := by
  intro l
  induction l with
  | nil => intro st; rfl
  | cons x xs ih =>
    intro st
    rw [List.foldl_cons, ih, hf]

/-- **C4** (amended) — The library allocator enforces no global library
exclusivity: before committing it checks only `isSlotAvailable`
(class-cell emptiness, staff bookings, staff weekly cap) and maintains no
library occupancy map.  It is scoped entirely to its own class: the class
grid of every other class is left untouched by a library-allocation call,
so nothing prevents two classes with disjoint staff from holding a
library period at the same `(day, period)`. -/
theorem allocateLibraryPeriods_frame (S : ScheduleSettings)
    (sd : SubjectData) (c : String) (st : GenState) (c' : String)
    (h : c' ≠ c) :
    mapGet (allocateLibraryPeriods S sd c st).classTimetables c' =
      mapGet st.classTimetables c' := by
  have hinner : ∀ (p : Nat) (st : GenState),
      mapGet ((List.range 6).foldl
        (fun st d => tryCommit S sd c (subjectKey sd) st d p) st).classTimetables c' =
        mapGet st.classTimetables c' := by
    intro p st
    exact frame_foldl c' _ (fun st d => frame_tryCommit h st d p) _ st
  have hphase : ∀ (a b : Nat) (st : GenState),
      mapGet ((List.range' a b).foldl
        (fun st p =>
          if skipPeriod S p then st
          else (List.range 6).foldl
            (fun st d => tryCommit S sd c (subjectKey sd) st d p) st)
        st).classTimetables c' = mapGet st.classTimetables c' := by
    intro a b st
    refine frame_foldl c' _ (fun st p => ?_) _ st
    split
    · rfl
    · exact hinner p st
  have hsweep : ∀ (st : GenState),
      mapGet (anySlotSweep S sd c (subjectKey sd) st).classTimetables c' =
        mapGet st.classTimetables c' := by
    intro st
    unfold anySlotSweep
    refine frame_foldl c' _ (fun st d => ?_) _ st
    refine frame_foldl c' _ (fun st p => ?_) _ st
    split
    · rfl
    · exact frame_tryCommit h st d p
  unfold allocateLibraryPeriods
  split
  · rfl
  · split
    · rfl
    · rw [hsweep, hphase]

/-- Witness for the amended C4: a library-allocation call for class
`CS-1-A` leaves class `CS-1-B`'s grid untouched. -/
theorem allocateLibraryPeriods_frame_witness :
    mapGet
        (allocateLibraryPeriods ⟨2, 2, [], 10⟩ ⟨"CS", "1", "A", "Library", 1, "T1"⟩
          "CS-1-A"
          (initState ⟨2, 2, [], 10⟩
            [⟨"CS", "1", "A", "Library", 1, "T1"⟩, ⟨"CS", "1", "B", "Library", 1, "T2"⟩])).classTimetables
        "CS-1-B" =
      mapGet
        (initState ⟨2, 2, [], 10⟩
          [⟨"CS", "1", "A", "Library", 1, "T1"⟩, ⟨"CS", "1", "B", "Library", 1, "T2"⟩]).classTimetables
        "CS-1-B" :=
  allocateLibraryPeriods_frame ⟨2, 2, [], 10⟩ ⟨"CS", "1", "A", "Library", 1, "T1"⟩
    "CS-1-A"
    (initState ⟨2, 2, [], 10⟩
      [⟨"CS", "1", "A", "Library", 1, "T1"⟩, ⟨"CS", "1", "B", "Library", 1, "T2"⟩])
    "CS-1-B" (by decide)

set_option maxHeartbeats 4000000 in
/-- **C5** (counterexample to the claim as stated): anti-repetition is
per *day*, not per period-of-day.  `Mathematics` requiring 5 periods on
an empty 6-teaching-period grid (lunch = 4) is placed at period 1 on each
of the first five days: all five assignments share the same
period-of-day although five distinct period-of-day values are available,
and every other cell stays empty. -/
theorem regular_same_period_of_day_cx :
    (∀ d < 5, classCellSubject
        (allocateSubjects ⟨6, 4, [], 40⟩ [] [⟨"CS", "1", "A", "Mathematics", 5, "T"⟩]
          (initState ⟨6, 4, [], 40⟩ [⟨"CS", "1", "A", "Mathematics", 5, "T"⟩]))
        "CS-1-A" d 0 = some "Mathematics") ∧
      (∀ d < 6, ∀ p, 1 ≤ p → p < 6 → classCellSubject
        (allocateSubjects ⟨6, 4, [], 40⟩ [] [⟨"CS", "1", "A", "Mathematics", 5, "T"⟩]
          (initState ⟨6, 4, [], 40⟩ [⟨"CS", "1", "A", "Mathematics", 5, "T"⟩]))
        "CS-1-A" d p = none) := by
  constructor
  · decide
  · decide

set_option maxHeartbeats 4000000 in
/-- **C5** (amended) — The regular allocator's anti-repetition rule is
per day: `wouldCreateRepetition` holds exactly for a non-lab subject that
already occurs somewhere on that day for the class, so the strict pass
never puts the same subject twice on one day while a fresh day is
available.  It does not track period-of-day usage: in the 5-period
`Mathematics` example the five assigned periods land on five distinct
days, all at the same period-of-day (period 1). -/
theorem regular_antirepetition_is_per_day :
    (∀ (st : GenState) (d p : Nat) (c subj : String),
      wouldCreateRepetition st d p c subj = true ↔
        (isLabSubject subj = false ∧ hasSubjectOnDay st c d subj = true)) ∧
      (∀ d < 5, classCellSubject
        (allocateSubjects ⟨6, 4, [], 40⟩ [] [⟨"CS", "1", "A", "Mathematics", 5, "T"⟩]
          (initState ⟨6, 4, [], 40⟩ [⟨"CS", "1", "A", "Mathematics", 5, "T"⟩]))
        "CS-1-A" d 0 = some "Mathematics") := by
  constructor
  · intro st d p c subj
    unfold wouldCreateRepetition
    by_cases hlab : isLabSubject subj
    · simp [hlab]
    · simp only [Bool.not_eq_true] at hlab
      simp [hlab]
  · decide

/-- Witness for the amended C5: the per-day rule evaluated at the
concrete run (`Mathematics` sits on Monday at period 1). -/
theorem regular_antirepetition_is_per_day_witness :
    classCellSubject
      (allocateSubjects ⟨6, 4, [], 40⟩ [] [⟨"CS", "1", "A", "Mathematics", 5, "T"⟩]
        (initState ⟨6, 4, [], 40⟩ [⟨"CS", "1", "A", "Mathematics", 5, "T"⟩]))
      "CS-1-A" 0 0 = some "Mathematics" :=
  regular_antirepetition_is_per_day.2 0 (by omega)

set_option maxHeartbeats 4000000 in
/-- **C6** (counterexample to the claim as stated): the games allocator
does not try the very last period of the day first.  For `Games`
requiring 2 periods with 7 periods/day (lunch = 4) on an empty grid, both
periods land at period 5 (index 4, the `⌊0.6·N⌋` scan start) on Monday
and Tuesday, and the last period (period 7) of every day stays empty. -/
theorem games_not_last_period_cx :
    classCellSubject
        (allocateSubjects ⟨7, 4, [], 40⟩ [] [⟨"EEE", "1", "B", "Games", 2, "T"⟩]
          (initState ⟨7, 4, [], 40⟩ [⟨"EEE", "1", "B", "Games", 2, "T"⟩]))
        "EEE-1-B" 0 4 = some "Games" ∧
      classCellSubject
        (allocateSubjects ⟨7, 4, [], 40⟩ [] [⟨"EEE", "1", "B", "Games", 2, "T"⟩]
          (initState ⟨7, 4, [], 40⟩ [⟨"EEE", "1", "B", "Games", 2, "T"⟩]))
        "EEE-1-B" 1 4 = some "Games" ∧
      ∀ d < 6, classCellSubject
        (allocateSubjects ⟨7, 4, [], 40⟩ [] [⟨"EEE", "1", "B", "Games", 2, "T"⟩]
          (initState ⟨7, 4, [], 40⟩ [⟨"EEE", "1", "B", "Games", 2, "T"⟩]))
        "EEE-1-B" d 6 = none := by
  refine ⟨by decide, by decide, by decide⟩

set_option maxHeartbeats 4000000 in
/-- **C6** (amended) — The games allocator scans periods upward starting
at index `⌊0.6 · totalPeriodsPerDay⌋` with the day loop inside the period
loop (then falls back to any teaching slot); it has no last-period-first
preference.  In the example (7 periods/day, lunch = 4, `Games` needing
2 periods) the two periods are exactly Monday period 5 and Tuesday
period 5, and no other cell of the class is assigned. -/
theorem games_allocator_sixty_percent_scan :
    (∀ S : ScheduleSettings, gamesStart S = 6 * S.totalPeriodsPerDay / 10) ∧
      (∀ d < 6, ∀ p < 7, ¬ (d = 0 ∧ p = 4) → ¬ (d = 1 ∧ p = 4) →
        classCellSubject
          (allocateSubjects ⟨7, 4, [], 40⟩ [] [⟨"EEE", "1", "B", "Games", 2, "T"⟩]
            (initState ⟨7, 4, [], 40⟩ [⟨"EEE", "1", "B", "Games", 2, "T"⟩]))
          "EEE-1-B" d p = none) ∧
      classCellSubject
        (allocateSubjects ⟨7, 4, [], 40⟩ [] [⟨"EEE", "1", "B", "Games", 2, "T"⟩]
          (initState ⟨7, 4, [], 40⟩ [⟨"EEE", "1", "B", "Games", 2, "T"⟩]))
        "EEE-1-B" 0 4 = some "Games" ∧
      classCellSubject
        (allocateSubjects ⟨7, 4, [], 40⟩ [] [⟨"EEE", "1", "B", "Games", 2, "T"⟩]
          (initState ⟨7, 4, [], 40⟩ [⟨"EEE", "1", "B", "Games", 2, "T"⟩]))
        "EEE-1-B" 1 4 = some "Games" := by
  refine ⟨fun S => rfl, by decide, by decide, by decide⟩

/-- Witness for the amended C6: the scan-start formula and one assigned
cell, evaluated concretely. -/
theorem games_allocator_sixty_percent_scan_witness :
    classCellSubject
      (allocateSubjects ⟨7, 4, [], 40⟩ [] [⟨"EEE", "1", "B", "Games", 2, "T"⟩]
        (initState ⟨7, 4, [], 40⟩ [⟨"EEE", "1", "B", "Games", 2, "T"⟩]))
      "EEE-1-B" 2 4 = none :=
  games_allocator_sixty_percent_scan.2.1 2 (by omega) 4 (by omega)
    (by omega) (by omega)

/-! ## Lemmas: workload bounds (C3) -/

set_option maxHeartbeats 4000000 in
/-- **C3** (counterexample to the claim as stated): the lab allocator
checks the weekly cap once per slot (`workload < max`) but then adds the
whole block at once, so the cap is exceeded without any relaxed fallback
(the engine has none).  With `maxTeacherPeriodsPerWeek = 1`, a 2-period
lab taught by teacher `A` ends the run with workload 2 > 1. -/
theorem teacher_cap_exceeded_by_lab_batch_cx :
    getWorkload
        (allocateSubjects ⟨3, 3, [], 1⟩ [] [⟨"CS", "1", "A", "Phy Lab", 2, "A"⟩]
          (initState ⟨3, 3, [], 1⟩ [⟨"CS", "1", "A", "Phy Lab", 2, "A"⟩]))
        "A" = 2 ∧
      (⟨3, 3, [], 1⟩ : ScheduleSettings).maxTeacherPeriodsPerWeek = 1 := by
  exact ⟨by decide, rfl⟩

theorem mapGet_mem {α : Type} : ∀ {m : List (String × α)} {k : String} {v : α},
    mapGet m k = some v → (k, v) ∈ m := by
  intro m
  induction m with
  | nil => intro k v h; simp [mapGet] at h
  | cons e t ih =>
    intro k v h
    rw [mapGet] at h
    by_cases he : e.1 = k
    · rw [if_pos he] at h
      have : e = (k, v) := by
        rcases e with ⟨k0, v0⟩
        simp at he h
        simp [he, h]
      exact this ▸ List.mem_cons_self _ _
    · rw [if_neg he] at h
      exact List.mem_cons_of_mem _ (ih h)

theorem getWorkload_le_of_workBound {st : GenState} {n : Nat}
    (h : workBound st n) (t : String) : getWorkload st t ≤ n := by
  unfold getWorkload
  rcases hv : mapGet st.teacherWorkload t with _ | v
  · simp
  · simpa using h (t, v) (mapGet_mem hv)

theorem workBound_of_eq {st st' : GenState}
    (h : st'.teacherWorkload = st.teacherWorkload) {n : Nat}
    (hw : workBound st n) : workBound st' n := by
  unfold workBound
  rw [h]
  exact hw

theorem workBound_setWorkload {st : GenState} {n : Nat} {t : String} {v : Nat}
    (hw : workBound st n) (hv : v ≤ n) : workBound (setWorkload st t v) n := by
  intro e he
  rcases mem_mapSetV e he with h | h
  · exact hw e h
  · rw [h]; exact hv

theorem reqBound_of_eq {st st' : GenState}
    (h : st'.subjectAllocations = st.subjectAllocations) {B : Nat}
    (hr : reqBound st B) : reqBound st' B := by
  unfold reqBound
  rw [h]
  exact hr

theorem reqBound_bump {st : GenState} {key : String} {B : Nat}
    (hr : reqBound st B) : reqBound (bumpAlloc st key) B := by
  intro e he
  rcases mem_mapUpdate e he with h | ⟨v, hv, hev⟩
  · exact hr e h
  · rw [hev]
    simpa using hr (key, v) (mapGet_mem hv)

theorem workBound_foldTeacherAux (S : ScheduleSettings) (n : Nat)
    (d p : Nat) (subj c : String) (hn : S.maxTeacherPeriodsPerWeek ≤ n) :
    ∀ (l : List String) (st : GenState), l.Nodup →
      (∀ t ∈ l, getWorkload st t < S.maxTeacherPeriodsPerWeek) →
      workBound st n →
      workBound (l.foldl (assignTeacherStep d p subj c) st) n := by
  intro l
  induction l with
  | nil => intro st _ _ hw; exact hw
  | cons x xs ih =>
    intro st hnd hlt hw
    rw [List.foldl_cons]
    have hxnotin : x ∉ xs := (List.nodup_cons.mp hnd).1
    have hstep_w : workBound (assignTeacherStep d p subj c st x) n := by
      unfold assignTeacherStep
      refine workBound_setWorkload (workBound_of_eq rfl hw) ?_
      have h1 : getWorkload
          ({ st with teacherTimetables :=
            (mapUpdate st.teacherTimetables x (fun g => setCell g d p subj x c)) } : GenState) x
          = getWorkload st x := rfl
      rw [h1]
      have := hlt x (List.mem_cons_self _ _)
      omega
    refine ih _ (List.nodup_cons.mp hnd).2 ?_ hstep_w
    intro t ht
    rw [getWorkload_assignTeacherStep]
    have : ¬ t = x := fun h => hxnotin (h ▸ ht)
    rw [if_neg this]
    exact hlt t (List.mem_cons_of_mem _ ht)

theorem workBound_assign {S : ScheduleSettings} {n : Nat} {st : GenState}
    {d p : Nat} {sd : SubjectData} {c : String}
    (hn : S.maxTeacherPeriodsPerWeek ≤ n)
    (hav : isSlotAvailable S st d p c sd.staff = true)
    (hnd : (parseStaffMembers sd.staff).Nodup)
    (hw : workBound st n) :
    workBound (assignSlotWithTracking st d p sd c) n := by
  simp only [assignSlotWithTracking]
  refine workBound_foldTeacherAux S n d p sd.subject c hn _ _ hnd ?_
    (workBound_of_eq rfl hw)
  intro t ht
  obtain ⟨_, _, _, hlt⟩ := avail_staff hav t ht
  exact hlt

theorem workBound_commitSlot {S : ScheduleSettings} {n : Nat} {st : GenState}
    {d p : Nat} {sd : SubjectData} {c key : String}
    (hn : S.maxTeacherPeriodsPerWeek ≤ n)
    (hav : isSlotAvailable S st d p c sd.staff = true)
    (hnd : (parseStaffMembers sd.staff).Nodup)
    (hw : workBound st n) :
    workBound (commitSlot st d p sd c key) n := by
  unfold commitSlot
  exact workBound_of_eq (bumpAlloc_workload _ _) (workBound_assign hn hav hnd hw)

theorem workBound_labWorkFold (S : ScheduleSettings) (n k : Nat)
    (hbound : ∀ w, w < S.maxTeacherPeriodsPerWeek → w + k ≤ n) :
    ∀ (l : List String) (st : GenState), l.Nodup →
      (∀ t ∈ l, getWorkload st t < S.maxTeacherPeriodsPerWeek) →
      workBound st n →
      workBound (l.foldl (fun st t => setWorkload st t (getWorkload st t + k)) st) n := by
  intro l
  induction l with
  | nil => intro st _ _ hw; exact hw
  | cons x xs ih =>
    intro st hnd hlt hw
    rw [List.foldl_cons]
    have hxnotin : x ∉ xs := (List.nodup_cons.mp hnd).1
    have hstep_w : workBound (setWorkload st x (getWorkload st x + k)) n :=
      workBound_setWorkload hw (hbound _ (hlt x (List.mem_cons_self _ _)))
    refine ih _ (List.nodup_cons.mp hnd).2 ?_ hstep_w
    intro t ht
    rw [getWorkload_setWorkload]
    have : ¬ t = x := fun h => hxnotin (h ▸ ht)
    rw [if_neg this]
    exact hlt t (List.mem_cons_of_mem _ ht)

theorem workBound_labCommit {S : ScheduleSettings} {n k : Nat} {st : GenState}
    {day : Nat} {slots : List Nat} {sd : SubjectData} {c key : String}
    (hbound : ∀ w, w < S.maxTeacherPeriodsPerWeek → w + k ≤ n)
    (hwl : ∀ t ∈ parseStaffMembers sd.staff,
      getWorkload st t < S.maxTeacherPeriodsPerWeek)
    (hnd : (parseStaffMembers sd.staff).Nodup)
    (hw : workBound st n) :
    workBound (labCommit S sd c key st day slots k) n := by
  simp only [labCommit]
  set st1 := (slots.take k).foldl
    (fun st p => bumpAlloc (assignLabSlotWithTracking st day p sd c) key) st with hst1
  have hwl1 : st1.teacherWorkload = st.teacherWorkload := labBatch_workload sd c key day _ st
  refine workBound_labWorkFold S n k hbound _ st1 hnd ?_ (workBound_of_eq hwl1 hw)
  intro t ht
  rw [getWorkload_of_eq hwl1]
  exact hwl t ht

theorem reqBound_labCommit {S : ScheduleSettings} {B : Nat} {st : GenState}
    {day : Nat} {slots : List Nat} {k : Nat} {sd : SubjectData} {c key : String}
    (hr : reqBound st B) :
    reqBound (labCommit S sd c key st day slots k) B := by
  simp only [labCommit]
  refine reqBound_of_eq (labWork_allocs _ _ _) ?_
  refine foldl_pres id (fun s => reqBound s B) _ ?_ _ st hr
  intro s p hs
  dsimp only [id]
  exact reqBound_bump (reqBound_of_eq (assignLab_allocs _ _ _ _ _) hs)

theorem mem_ordInsert {α : Type} (cmp : α → α → Int) (x y : α) :
    ∀ (l : List α), x ∈ ordInsert cmp y l → x = y ∨ x ∈ l := by
  intro l
  induction l with
  | nil => intro h; simpa [ordInsert] using h
  | cons z zs ih =>
    intro h
    rw [ordInsert] at h
    split at h
    · rcases List.mem_cons.mp h with h1 | h1
      · exact Or.inl h1
      · exact Or.inr h1
    · rcases List.mem_cons.mp h with h1 | h1
      · exact Or.inr (h1 ▸ List.mem_cons_self _ _)
      · rcases ih h1 with h2 | h2
        · exact Or.inl h2
        · exact Or.inr (List.mem_cons_of_mem _ h2)

theorem mem_sortByCmp {α : Type} (cmp : α → α → Int) (x : α) :
    ∀ (l : List α), x ∈ sortByCmp cmp l → x ∈ l := by
  have haux : ∀ (l acc : List α), x ∈ l.foldl (fun acc y => ordInsert cmp y acc) acc →
      x ∈ acc ∨ x ∈ l := by
    intro l
    induction l with
    | nil => intro acc h; exact Or.inl h
    | cons y ys ih =>
      intro acc h
      rw [List.foldl_cons] at h
      rcases ih _ h with h1 | h1
      · rcases mem_ordInsert cmp x y _ h1 with h2 | h2
        · exact Or.inr (h2 ▸ List.mem_cons_self _ _)
        · exact Or.inl h2
      · exact Or.inr (List.mem_cons_of_mem _ h1)
  intro l h
  rcases haux l [] h with h1 | h1
  · simp at h1
  · exact h1

theorem capBound_tryCommit {S : ScheduleSettings} {n B : Nat}
    {sd : SubjectData} {c key : String}
    (hn : S.maxTeacherPeriodsPerWeek ≤ n)
    (hnd : (parseStaffMembers sd.staff).Nodup) (st : GenState) (d p : Nat)
    (h : workBound st n ∧ reqBound st B) :
    workBound (tryCommit S sd c key st d p) n ∧
      reqBound (tryCommit S sd c key st d p) B := by
  unfold tryCommit
  split
  · next hguard =>
    refine ⟨workBound_commitSlot hn hguard.2 hnd h.1, ?_⟩
    unfold commitSlot
    exact reqBound_bump (reqBound_of_eq (assign_allocs _ _ _ _ _) h.2)
  · exact h

theorem capBound_anySlotSweep {S : ScheduleSettings} {n B : Nat}
    {sd : SubjectData} {c key : String}
    (hn : S.maxTeacherPeriodsPerWeek ≤ n)
    (hnd : (parseStaffMembers sd.staff).Nodup) (st : GenState)
    (h : workBound st n ∧ reqBound st B) :
    workBound (anySlotSweep S sd c key st) n ∧
      reqBound (anySlotSweep S sd c key st) B := by
  unfold anySlotSweep
  refine foldl_pres id (fun s => workBound s n ∧ reqBound s B) _ ?_ _ st h
  intro s d hs
  dsimp only [id]
  refine foldl_pres id (fun s => workBound s n ∧ reqBound s B) _ ?_ _ s hs
  intro s p hs
  dsimp only [id]
  split
  · exact hs
  · exact capBound_tryCommit hn hnd s d p hs

theorem capBound_phase {S : ScheduleSettings} {n B : Nat}
    {sd : SubjectData} {c key : String}
    (hn : S.maxTeacherPeriodsPerWeek ≤ n)
    (hnd : (parseStaffMembers sd.staff).Nodup) (st : GenState) (a b : Nat)
    (h : workBound st n ∧ reqBound st B) :
    workBound ((List.range' a b).foldl
        (fun st p =>
          if skipPeriod S p then st
          else (List.range 6).foldl (fun st d => tryCommit S sd c key st d p) st)
        st) n ∧
      reqBound ((List.range' a b).foldl
        (fun st p =>
          if skipPeriod S p then st
          else (List.range 6).foldl (fun st d => tryCommit S sd c key st d p) st)
        st) B := by
  refine foldl_pres id (fun s => workBound s n ∧ reqBound s B) _ ?_ _ st h
  intro s p hs
  dsimp only [id]
  split
  · exact hs
  · refine foldl_pres id (fun s => workBound s n ∧ reqBound s B) _ ?_ _ s hs
    intro s d hs
    dsimp only [id]
    exact capBound_tryCommit hn hnd s d p hs

theorem capBound_regProbe {S : ScheduleSettings} {n B : Nat}
    {sd : SubjectData} {c key : String} {strict : Bool}
    (hn : S.maxTeacherPeriodsPerWeek ≤ n)
    (hnd : (parseStaffMembers sd.staff).Nodup) (acc : GenState × Bool)
    (d p : Nat) (h : workBound acc.1 n ∧ reqBound acc.1 B) :
    workBound (regProbe S sd c key strict acc d p).1 n ∧
      reqBound (regProbe S sd c key strict acc d p).1 B := by
  rcases acc with ⟨st, b⟩
  cases b
  · simp only [regProbe]
    split
    · exact h
    · split
      · next hguard =>
        have havail := (Bool.and_eq_true _ _).mp hguard |>.1
        refine ⟨workBound_commitSlot hn havail hnd h.1, ?_⟩
        unfold commitSlot
        exact reqBound_bump (reqBound_of_eq (assign_allocs _ _ _ _ _) h.2)
      · exact h
  · simp only [regProbe]
    exact h

theorem capBound_regPass {S : ScheduleSettings} {n B : Nat}
    {sd : SubjectData} {c key : String} {strict : Bool}
    (hn : S.maxTeacherPeriodsPerWeek ≤ n)
    (hnd : (parseStaffMembers sd.staff).Nodup) (st : GenState)
    (h : workBound st n ∧ reqBound st B) :
    workBound (regPass S sd c key strict st).1 n ∧
      reqBound (regPass S sd c key strict st).1 B := by
  unfold regPass
  refine foldl_pres (Prod.fst : GenState × Bool → GenState)
    (fun s => workBound s n ∧ reqBound s B) _ ?_ _ (st, false) h
  intro acc d hacc
  refine foldl_pres (Prod.fst : GenState × Bool → GenState)
    (fun s => workBound s n ∧ reqBound s B) _ ?_ _ acc hacc
  intro acc p hacc
  exact capBound_regProbe hn hnd acc d p hacc

theorem capBound_regLoop {S : ScheduleSettings} {n B : Nat}
    {sd : SubjectData} {c key : String}
    (hn : S.maxTeacherPeriodsPerWeek ≤ n)
    (hnd : (parseStaffMembers sd.staff).Nodup) :
    ∀ (k : Nat) (st : GenState), workBound st n ∧ reqBound st B →
      workBound (regLoop S sd c key k st) n ∧
        reqBound (regLoop S sd c key k st) B := by
  intro k
  induction k with
  | zero => intro st h; exact h
  | succ k ih =>
    intro st h
    unfold regLoop
    rcases h1 : regPass S sd c key true st with ⟨st1, b1⟩
    have hp1 : workBound st1 n ∧ reqBound st1 B := by
      have := @capBound_regPass S n B sd c key true hn hnd st h
      rw [h1] at this; exact this
    cases b1
    · simp only
      rcases h2 : regPass S sd c key false st1 with ⟨st2, b2⟩
      have hp2 : workBound st2 n ∧ reqBound st2 B := by
        have := @capBound_regPass S n B sd c key false hn hnd st1 hp1
        rw [h2] at this; exact this
      cases b2
      · simp only
        exact hp2
      · simp only
        exact ih st2 hp2
    · simp only
      exact ih st1 hp1

theorem capBound_labTryDays {S : ScheduleSettings} {n B k : Nat}
    {sd : SubjectData} {c : String}
    (hbound : ∀ w, w < S.maxTeacherPeriodsPerWeek → w + k ≤ n)
    (hk : 0 < k) (hnd : (parseStaffMembers sd.staff).Nodup) :
    ∀ (days : List Nat) (st : GenState),
      workBound st n ∧ reqBound st B →
      workBound (labTryDays S sd c k st days) n ∧
        reqBound (labTryDays S sd c k st days) B := by
  intro days
  induction days with
  | nil => intro st h; exact h
  | cons day rest ih =>
    intro st h
    rw [labTryDays]
    by_cases hdiff : hasDifferentLabOnDay st c day sd.subject = true
    · rw [if_pos hdiff]; exact ih st h
    · rw [if_neg hdiff]
      simp only
      rcases labScan_sound S st day c sd.staff sd.subject k with hempty | ⟨s, hrange, hgood⟩
      · rw [hempty]
        have : ¬ k ≤ ([] : List Nat).length := by simp; omega
        rw [if_neg this]
        exact ih st h
      · rw [hrange]
        have hlen : k ≤ (List.range' s k).length := by simp
        rw [if_pos hlen]
        have hsmem : s ∈ List.range' s k := by
          rw [List.mem_range'_1]; omega
        have hwl : ∀ t ∈ parseStaffMembers sd.staff,
            getWorkload st t < S.maxTeacherPeriodsPerWeek := by
          intro t ht
          obtain ⟨_, _, _, hlt⟩ :=
            avail_staff (labAvail_basic (hgood s hsmem).2.1) t ht
          exact hlt
        exact ⟨workBound_labCommit hbound hwl hnd h.1, reqBound_labCommit h.2⟩

theorem capBound_dispatch {S : ScheduleSettings} {B : Nat} (hB : 1 ≤ B)
    (st : GenState) (sd : SubjectData)
    (hnd : (parseStaffMembers sd.staff).Nodup)
    (h : workBound st (S.maxTeacherPeriodsPerWeek + B - 1) ∧ reqBound st B) :
    workBound (dispatchAllocate S st sd) (S.maxTeacherPeriodsPerWeek + B - 1) ∧
      reqBound (dispatchAllocate S st sd) B := by
  set n := S.maxTeacherPeriodsPerWeek + B - 1 with hn
  have hmaxn : S.maxTeacherPeriodsPerWeek ≤ n := by omega
  unfold dispatchAllocate
  split
  · simp only [allocateConsecutivePeriods]
    split
    · exact h
    · next hrem =>
      set k := getRemainingPeriods st sd with hkdef
      have hkpos : 0 < k := by omega
      have hkB : k ≤ B := by
        unfold getRemainingPeriods at hkdef
        rcases ha : mapGet st.subjectAllocations (subjectKey sd) with _ | a
        · rw [ha] at hkdef; simp only at hkdef; omega
        · rw [ha] at hkdef; simp only at hkdef
          have := h.2 (subjectKey sd, a) (mapGet_mem ha)
          simp at this
          omega
      have hbound : ∀ w, w < S.maxTeacherPeriodsPerWeek → w + k ≤ n := by
        intro w hw; omega
      exact capBound_labTryDays hbound hkpos hnd _ st h
  · split
    · unfold allocateLibraryPeriods
      split
      · exact h
      · split
        · exact h
        · exact capBound_anySlotSweep hmaxn hnd _
            (capBound_phase hmaxn hnd st _ _ h)
    · split
      · unfold allocateGamesPeriods
        split
        · exact h
        · split
          · exact h
          · exact capBound_anySlotSweep hmaxn hnd _
              (capBound_phase hmaxn hnd st _ _ h)
      · simp only [allocateRegularPeriods]
        split
        · exact h
        · split
          · exact h
          · exact capBound_regLoop hmaxn hnd _ st h

/-- **C3** (amended) — The strict availability check does reject any slot
as soon as any parsed staff member's workload has reached
`maxTeacherPeriodsPerWeek`.  But the engine has no relaxed fallback, and
the cap can still be exceeded: the lab allocator checks `workload < max`
once per slot and then adds the whole block, so a teacher can end a run
with up to `max + B - 1` periods, where `B` bounds the `requiredPeriods`
of the ledger entries (single-period assignments alone never push a
teacher past the cap). -/
theorem strict_cap_check_and_bounded_overshoot :
    (∀ (S : ScheduleSettings) (st : GenState) (d p : Nat) (c staffS : String),
      (∃ t ∈ parseStaffMembers staffS,
        S.maxTeacherPeriodsPerWeek ≤ getWorkload st t) →
      isSlotAvailable S st d p c staffS = false) ∧
    (∀ (S : ScheduleSettings) (prefs : List TeacherPreference)
        (rows : List SubjectData) (st : GenState) (B : Nat), 1 ≤ B →
      (∀ sd ∈ rows, (parseStaffMembers sd.staff).Nodup) →
      workBound st (S.maxTeacherPeriodsPerWeek + B - 1) → reqBound st B →
      workBound (allocateSubjects S prefs rows st)
        (S.maxTeacherPeriodsPerWeek + B - 1)) := by
  constructor
  · intro S st d p c staffS ⟨t, htmem, htw⟩
    cases h : isSlotAvailable S st d p c staffS
    · rfl
    · obtain ⟨_, _, _, hlt⟩ := avail_staff h t htmem
      omega
  · intro S prefs rows st B hB hnd hw hr
    unfold allocateSubjects
    have hmem : ∀ sd ∈ getSortedSubjectsByPriority prefs st rows,
        (parseStaffMembers sd.staff).Nodup := fun sd hsd =>
      hnd sd (mem_sortByCmp _ sd rows hsd)
    have hfold : ∀ (l : List SubjectData),
        (∀ sd ∈ l, (parseStaffMembers sd.staff).Nodup) →
        ∀ s : GenState,
          workBound s (S.maxTeacherPeriodsPerWeek + B - 1) ∧ reqBound s B →
          workBound (l.foldl (dispatchAllocate S) s)
              (S.maxTeacherPeriodsPerWeek + B - 1) ∧
            reqBound (l.foldl (dispatchAllocate S) s) B := by
      intro l
      induction l with
      | nil => intro _ s h; exact h
      | cons x xs ih =>
        intro hl s h
        rw [List.foldl_cons]
        exact ih (fun sd hsd => hl sd (List.mem_cons_of_mem _ hsd)) _
          (capBound_dispatch hB s x (hl x (List.mem_cons_self _ _)) h)
    exact (hfold _ hmem st ⟨hw, hr⟩).1

/-- Witness for the amended C3: the 2-period lab run with cap 1 and
requirement bound `B = 2` stays within `1 + 2 - 1 = 2` recorded periods
per teacher. -/
theorem strict_cap_check_and_bounded_overshoot_witness :
    workBound
      (allocateSubjects ⟨3, 3, [], 1⟩ [] [⟨"CS", "1", "A", "Phy Lab", 2, "A"⟩]
        (initState ⟨3, 3, [], 1⟩ [⟨"CS", "1", "A", "Phy Lab", 2, "A"⟩]))
      ((⟨3, 3, [], 1⟩ : ScheduleSettings).maxTeacherPeriodsPerWeek + 2 - 1) :=
  strict_cap_check_and_bounded_overshoot.2 ⟨3, 3, [], 1⟩ []
    [⟨"CS", "1", "A", "Phy Lab", 2, "A"⟩]
    (initState ⟨3, 3, [], 1⟩ [⟨"CS", "1", "A", "Phy Lab", 2, "A"⟩]) 2
    (by omega) (by decide) (by decide) (by decide)

/-! ## Lemmas: the ledger never over-allocates (C9) -/

theorem ledgerOk_iff (st : GenState) :
    ledgerOk st = true ↔
      ∀ e ∈ st.subjectAllocations,
        e.2.allocatedPeriods ≤ e.2.requiredPeriods := by
  unfold ledgerOk
  rw [List.all_eq_true]
  constructor
  · intro h e he
    exact of_decide_eq_true (h e he)
  · intro h e he
    exact decide_eq_true (h e he)

theorem L_commitSlot_guarded {st : GenState} {d p : Nat} {sd : SubjectData}
    {c key : String}
    (hguard : allocCount st key < reqCount st key)
    (hL : ∀ e ∈ st.subjectAllocations,
      e.2.allocatedPeriods ≤ e.2.requiredPeriods) :
    ∀ e ∈ (commitSlot st d p sd c key).subjectAllocations,
      e.2.allocatedPeriods ≤ e.2.requiredPeriods := by
  intro e he
  unfold commitSlot bumpAlloc at he
  simp only at he
  rw [assign_allocs] at he
  rcases mem_mapUpdate e he with h | ⟨v, hv, hev⟩
  · exact hL e h
  · rw [hev]
    unfold allocCount reqCount at hguard
    rw [hv] at hguard
    simpa using hguard

theorem L_tryCommit (S : ScheduleSettings) (sd : SubjectData) (c key : String)
    (st : GenState) (d p : Nat)
    (hL : ∀ e ∈ st.subjectAllocations,
      e.2.allocatedPeriods ≤ e.2.requiredPeriods) :
    ∀ e ∈ (tryCommit S sd c key st d p).subjectAllocations,
      e.2.allocatedPeriods ≤ e.2.requiredPeriods := by
  unfold tryCommit
  split
  · next h => exact L_commitSlot_guarded h.1 hL
  · exact hL

theorem mapUpdate_id {α : Type} (m : List (String × α)) (k : String) :
    mapUpdate m k (fun a => a) = m := by
  induction m with
  | nil => rfl
  | cons e t ih =>
    rcases e with ⟨k0, v0⟩
    by_cases h : k0 = k
    · subst h; simp [mapUpdate]
    · simp [mapUpdate, h, ih]

/-- Incrementing the allocated count by `0` is the identity. -/
theorem mapUpdate_bump_zero (m : List (String × SubjectAllocation)) (key : String) :
    mapUpdate m key
      (fun a => ⟨a.allocatedPeriods + 0, a.requiredPeriods⟩) = m := by
  have h : (fun a : SubjectAllocation =>
      (⟨a.allocatedPeriods + 0, a.requiredPeriods⟩ : SubjectAllocation)) =
      fun a => a := by
    funext a; rfl
  rw [h, mapUpdate_id]

theorem mapUpdate_bump_add (m : List (String × SubjectAllocation))
    (key : String) (n1 n2 : Nat) :
    mapUpdate (mapUpdate m key
        (fun a => ⟨a.allocatedPeriods + n1, a.requiredPeriods⟩)) key
      (fun a => ⟨a.allocatedPeriods + n2, a.requiredPeriods⟩) =
      mapUpdate m key
        (fun a => ⟨a.allocatedPeriods + (n1 + n2), a.requiredPeriods⟩) := by
  rw [mapUpdate_mapUpdate]
  have : (fun v : SubjectAllocation =>
      (⟨(⟨v.allocatedPeriods + n1, v.requiredPeriods⟩ : SubjectAllocation).allocatedPeriods + n2,
        (⟨v.allocatedPeriods + n1, v.requiredPeriods⟩ : SubjectAllocation).requiredPeriods⟩ :
        SubjectAllocation)) =
      (fun a : SubjectAllocation => ⟨a.allocatedPeriods + (n1 + n2), a.requiredPeriods⟩) := by
    funext v
    simp [Nat.add_assoc]
  rw [this]

theorem regPass_ledger (S : ScheduleSettings) (sd : SubjectData)
    (c key : String) (strict : Bool) (st : GenState) :
    ((regPass S sd c key strict st).2 = false →
      (regPass S sd c key strict st).1.subjectAllocations =
        st.subjectAllocations) ∧
    ((regPass S sd c key strict st).2 = true →
      (regPass S sd c key strict st).1.subjectAllocations =
        mapUpdate st.subjectAllocations key
          (fun a => ⟨a.allocatedPeriods + 1, a.requiredPeriods⟩)) := by
  unfold regPass
  have hprobe : ∀ (acc : GenState × Bool) (d p : Nat),
      ((acc.2 = false → acc.1.subjectAllocations = st.subjectAllocations) ∧
        (acc.2 = true → acc.1.subjectAllocations =
          mapUpdate st.subjectAllocations key
            (fun a => ⟨a.allocatedPeriods + 1, a.requiredPeriods⟩))) →
      ((regProbe S sd c key strict acc d p).2 = false →
        (regProbe S sd c key strict acc d p).1.subjectAllocations =
          st.subjectAllocations) ∧
      ((regProbe S sd c key strict acc d p).2 = true →
        (regProbe S sd c key strict acc d p).1.subjectAllocations =
          mapUpdate st.subjectAllocations key
            (fun a => ⟨a.allocatedPeriods + 1, a.requiredPeriods⟩)) := by
    intro acc d p ⟨hf, ht⟩
    rcases acc with ⟨s0, b⟩
    cases b
    · simp only [regProbe]
      split
      · exact ⟨hf, ht⟩
      · split
        · constructor
          · intro h; simp at h
          · intro _
            unfold commitSlot bumpAlloc
            simp only
            rw [assign_allocs, hf rfl]
        · exact ⟨hf, ht⟩
    · simp only [regProbe]
      refine ⟨fun h => ?_, fun _ => ht rfl⟩
      simp at h
  have hinner : ∀ (d : Nat) (ps : List Nat) (acc : GenState × Bool),
      ((acc.2 = false → acc.1.subjectAllocations = st.subjectAllocations) ∧
        (acc.2 = true → acc.1.subjectAllocations =
          mapUpdate st.subjectAllocations key
            (fun a => ⟨a.allocatedPeriods + 1, a.requiredPeriods⟩))) →
      (((ps.foldl (fun acc p => regProbe S sd c key strict acc d p) acc).2 = false →
        (ps.foldl (fun acc p => regProbe S sd c key strict acc d p) acc).1.subjectAllocations =
          st.subjectAllocations) ∧
      ((ps.foldl (fun acc p => regProbe S sd c key strict acc d p) acc).2 = true →
        (ps.foldl (fun acc p => regProbe S sd c key strict acc d p) acc).1.subjectAllocations =
          mapUpdate st.subjectAllocations key
            (fun a => ⟨a.allocatedPeriods + 1, a.requiredPeriods⟩))) := by
    intro d ps
    induction ps with
    | nil => intro acc h; exact h
    | cons p ps ihp =>
      intro acc h
      rw [List.foldl_cons]
      exact ihp _ (hprobe acc d p h)
  have houter : ∀ (ds : List Nat) (acc : GenState × Bool),
      ((acc.2 = false → acc.1.subjectAllocations = st.subjectAllocations) ∧
        (acc.2 = true → acc.1.subjectAllocations =
          mapUpdate st.subjectAllocations key
            (fun a => ⟨a.allocatedPeriods + 1, a.requiredPeriods⟩))) →
      (((ds.foldl (fun acc d =>
          (List.range S.totalPeriodsPerDay).foldl
            (fun acc p => regProbe S sd c key strict acc d p) acc) acc).2 = false →
        (ds.foldl (fun acc d =>
          (List.range S.totalPeriodsPerDay).foldl
            (fun acc p => regProbe S sd c key strict acc d p) acc) acc).1.subjectAllocations =
          st.subjectAllocations) ∧
      ((ds.foldl (fun acc d =>
          (List.range S.totalPeriodsPerDay).foldl
            (fun acc p => regProbe S sd c key strict acc d p) acc) acc).2 = true →
        (ds.foldl (fun acc d =>
          (List.range S.totalPeriodsPerDay).foldl
            (fun acc p => regProbe S sd c key strict acc d p) acc) acc).1.subjectAllocations =
          mapUpdate st.subjectAllocations key
            (fun a => ⟨a.allocatedPeriods + 1, a.requiredPeriods⟩))) := by
    intro ds
    induction ds with
    | nil => intro acc h; exact h
    | cons d ds ihd =>
      intro acc h
      rw [List.foldl_cons]
      exact ihd _ (hinner d (List.range S.totalPeriodsPerDay) acc h)
  exact houter (List.range 6) (st, false)
    ⟨fun _ => rfl, fun h => by simp at h⟩

theorem regLoop_ledger (S : ScheduleSettings) (sd : SubjectData)
    (c key : String) :
    ∀ (k : Nat) (st : GenState), ∃ n ≤ k,
      (regLoop S sd c key k st).subjectAllocations =
        mapUpdate st.subjectAllocations key
          (fun a => ⟨a.allocatedPeriods + n, a.requiredPeriods⟩) := by
  intro k
  induction k with
  | zero =>
    intro st
    exact ⟨0, by omega, by rw [regLoop, mapUpdate_bump_zero]⟩
  | succ k ih =>
    intro st
    unfold regLoop
    rcases h1 : regPass S sd c key true st with ⟨st1, b1⟩
    have hl1 := regPass_ledger S sd c key true st
    rw [h1] at hl1
    cases b1
    · simp only
      have he1 : st1.subjectAllocations = st.subjectAllocations := hl1.1 rfl
      rcases h2 : regPass S sd c key false st1 with ⟨st2, b2⟩
      have hl2 := regPass_ledger S sd c key false st1
      rw [h2] at hl2
      cases b2
      · simp only
        have he2 : st2.subjectAllocations = st1.subjectAllocations := hl2.1 rfl
        refine ⟨0, by omega, ?_⟩
        rw [mapUpdate_bump_zero, he2, he1]
      · simp only
        have he2 : st2.subjectAllocations =
            mapUpdate st.subjectAllocations key
              (fun a => ⟨a.allocatedPeriods + 1, a.requiredPeriods⟩) := by
          rw [hl2.2 rfl, he1]
        obtain ⟨n3, hn3, he3⟩ := ih st2
        refine ⟨1 + n3, by omega, ?_⟩
        rw [he3, he2, mapUpdate_bump_add]
    · simp only
      have he1 : st1.subjectAllocations =
          mapUpdate st.subjectAllocations key
            (fun a => ⟨a.allocatedPeriods + 1, a.requiredPeriods⟩) := hl1.2 rfl
      obtain ⟨n3, hn3, he3⟩ := ih st1
      refine ⟨1 + n3, by omega, ?_⟩
      rw [he3, he1, mapUpdate_bump_add]

theorem L_allocateRegularPeriods (S : ScheduleSettings) (sd : SubjectData)
    (c : String) (st : GenState)
    (hL : ∀ e ∈ st.subjectAllocations,
      e.2.allocatedPeriods ≤ e.2.requiredPeriods) :
    ∀ e ∈ (allocateRegularPeriods S sd c st).subjectAllocations,
      e.2.allocatedPeriods ≤ e.2.requiredPeriods := by
  simp only [allocateRegularPeriods]
  split
  · exact hL
  · split
    · exact hL
    · next hrem _ =>
      obtain ⟨n, hn, he⟩ := regLoop_ledger S sd c (subjectKey sd)
        (getRemainingPeriods st sd) st
      rw [he]
      intro e hemem
      rcases mem_mapUpdate e hemem with h | ⟨v, hv, hev⟩
      · exact hL e h
      · rw [hev]
        have hvle := hL (subjectKey sd, v) (mapGet_mem hv)
        simp only at hvle ⊢
        unfold getRemainingPeriods at hn
        rw [hv] at hn
        simp only at hn
        omega

theorem labBatch_ledger_list (sd : SubjectData) (c key : String) (day : Nat) :
    ∀ (l : List Nat) (st : GenState),
      (l.foldl (fun st p => bumpAlloc (assignLabSlotWithTracking st day p sd c) key) st).subjectAllocations =
        mapUpdate st.subjectAllocations key
          (fun a => ⟨a.allocatedPeriods + l.length, a.requiredPeriods⟩) := by
  intro l
  induction l with
  | nil =>
    intro st
    simp only [List.foldl_nil, List.length_nil, mapUpdate_bump_zero]
  | cons x xs ih =>
    intro st
    rw [List.foldl_cons, ih]
    have hstep : (bumpAlloc (assignLabSlotWithTracking st day x sd c) key).subjectAllocations =
        mapUpdate st.subjectAllocations key
          (fun a => ⟨a.allocatedPeriods + 1, a.requiredPeriods⟩) := by
      unfold bumpAlloc
      simp only
      rw [assignLab_allocs]
    rw [hstep, mapUpdate_bump_add]
    have : (1 : Nat) + xs.length = (x :: xs).length := by simp [Nat.add_comm]
    rw [this]

theorem L_allocateConsecutivePeriods (S : ScheduleSettings) (sd : SubjectData)
    (c : String) (st : GenState)
    (hL : ∀ e ∈ st.subjectAllocations,
      e.2.allocatedPeriods ≤ e.2.requiredPeriods) :
    ∀ e ∈ (allocateConsecutivePeriods S sd c st).subjectAllocations,
      e.2.allocatedPeriods ≤ e.2.requiredPeriods := by
  simp only [allocateConsecutivePeriods]
  split
  · exact hL
  · next hrem =>
    have hkpos : 0 < getRemainingPeriods st sd := by omega
    rcases labTryDays_outcome S sd c (getRemainingPeriods st sd) hkpos
        (List.range 6) st with h | ⟨day, _, s, heq, _⟩
    · rw [show allocateAllLabPeriodsConsecutively S sd c (getRemainingPeriods st sd) st =
          labTryDays S sd c (getRemainingPeriods st sd) st (List.range 6) from rfl, h]
      exact hL
    · rw [show allocateAllLabPeriodsConsecutively S sd c (getRemainingPeriods st sd) st =
          labTryDays S sd c (getRemainingPeriods st sd) st (List.range 6) from rfl, heq]
      simp only [labCommit]
      intro e hemem
      rw [labWork_allocs] at hemem
      rw [labBatch_ledger_list] at hemem
      rcases mem_mapUpdate e hemem with h | ⟨v, hv, hev⟩
      · exact hL e h
      · rw [hev]
        have hvle := hL (subjectKey sd, v) (mapGet_mem hv)
        simp only at hvle ⊢
        have htl : ((List.range' s (getRemainingPeriods st sd)).take
            (getRemainingPeriods st sd)).length = getRemainingPeriods st sd := by
          rw [take_range']
          simp
        rw [htl]
        have hrem_eq : getRemainingPeriods st sd =
            v.requiredPeriods - v.allocatedPeriods := by
          unfold getRemainingPeriods
          rw [hv]
        rw [hrem_eq] at hkpos ⊢
        omega

theorem L_foldl {α : Type} (f : GenState → α → GenState)
    (hf : ∀ (st : GenState) (a : α),
      (∀ e ∈ st.subjectAllocations,
        e.2.allocatedPeriods ≤ e.2.requiredPeriods) →
      ∀ e ∈ (f st a).subjectAllocations,
        e.2.allocatedPeriods ≤ e.2.requiredPeriods) :
    ∀ (l : List α) (st : GenState),
      (∀ e ∈ st.subjectAllocations,
        e.2.allocatedPeriods ≤ e.2.requiredPeriods) →
      ∀ e ∈ (List.foldl f st l).subjectAllocations,
        e.2.allocatedPeriods ≤ e.2.requiredPeriods := by
  intro l
  induction l with
  | nil => intro st h; exact h
  | cons x xs ih =>
    intro st h
    rw [List.foldl_cons]
    exact ih _ (hf st x h)

theorem L_phase (S : ScheduleSettings) (sd : SubjectData) (c key : String)
    (a b : Nat) (st : GenState)
    (hL : ∀ e ∈ st.subjectAllocations,
      e.2.allocatedPeriods ≤ e.2.requiredPeriods) :
    ∀ e ∈ ((List.range' a b).foldl
        (fun st p =>
          if skipPeriod S p then st
          else (List.range 6).foldl (fun st d => tryCommit S sd c key st d p) st)
        st).subjectAllocations,
      e.2.allocatedPeriods ≤ e.2.requiredPeriods := by
  refine L_foldl _ ?_ (List.range' a b) st hL
  intro s p hs
  split
  · exact hs
  · exact L_foldl (fun st d => tryCommit S sd c key st d p)
      (fun s d hs => L_tryCommit S sd c key s d p hs) (List.range 6) s hs

theorem L_anySlotSweep (S : ScheduleSettings) (sd : SubjectData)
    (c key : String) (st : GenState)
    (hL : ∀ e ∈ st.subjectAllocations,
      e.2.allocatedPeriods ≤ e.2.requiredPeriods) :
    ∀ e ∈ (anySlotSweep S sd c key st).subjectAllocations,
      e.2.allocatedPeriods ≤ e.2.requiredPeriods := by
  unfold anySlotSweep
  refine L_foldl _ ?_ (List.range 6) st hL
  intro s d hs
  refine L_foldl _ ?_ (List.range S.totalPeriodsPerDay) s hs
  intro s p hs
  split
  · exact hs
  · exact L_tryCommit S sd c key s d p hs

theorem L_dispatch (S : ScheduleSettings) (st : GenState) (sd : SubjectData)
    (hL : ∀ e ∈ st.subjectAllocations,
      e.2.allocatedPeriods ≤ e.2.requiredPeriods) :
    ∀ e ∈ (dispatchAllocate S st sd).subjectAllocations,
      e.2.allocatedPeriods ≤ e.2.requiredPeriods := by
  unfold dispatchAllocate
  split
  · exact L_allocateConsecutivePeriods S sd _ st hL
  · split
    · unfold allocateLibraryPeriods
      split
      · exact hL
      · split
        · exact hL
        · exact L_anySlotSweep S sd _ _ _
            (L_phase S sd _ _ _ _ st hL)
    · split
      · unfold allocateGamesPeriods
        split
        · exact hL
        · split
          · exact hL
          · exact L_anySlotSweep S sd _ _ _
              (L_phase S sd _ _ _ _ st hL)
      · exact L_allocateRegularPeriods S sd _ st hL

theorem sum_alloc_le_sum_req (l : List (String × SubjectAllocation))
    (h : ∀ e ∈ l, e.2.allocatedPeriods ≤ e.2.requiredPeriods) :
    ∀ (n1 n2 : Nat), n1 ≤ n2 →
      l.foldl (fun n e => n + e.2.allocatedPeriods) n1 ≤
        l.foldl (fun n e => n + e.2.requiredPeriods) n2 := by
  induction l with
  | nil => intro n1 n2 h12; simpa using h12
  | cons e t ih =>
    intro n1 n2 h12
    rw [List.foldl_cons, List.foldl_cons]
    refine ih (fun e' he' => h e' (List.mem_cons_of_mem _ he')) _ _ ?_
    have := h e (List.mem_cons_self _ _)
    omega

/-- **C9** — Ledger never over-allocates: if every ledger entry satisfies
`allocatedPeriods ≤ requiredPeriods` before an allocation pass (as after
every reset), then it still does after the pass, and consequently the
report's total `periodsAllocated` is at most its total
`periodsRequired`. -/
theorem ledger_never_over_allocates (S : ScheduleSettings)
    (prefs : List TeacherPreference) (rows : List SubjectData) (st : GenState)
    (h : ledgerOk st = true) :
    ledgerOk (allocateSubjects S prefs rows st) = true ∧
      periodsAllocated (allocateSubjects S prefs rows st) ≤
        periodsRequired (allocateSubjects S prefs rows st) := by
  have hL : ledgerOk (allocateSubjects S prefs rows st) = true := by
    rw [ledgerOk_iff]
    rw [ledgerOk_iff] at h
    unfold allocateSubjects
    exact foldl_pres id
      (fun s => ∀ e ∈ s.subjectAllocations,
        e.2.allocatedPeriods ≤ e.2.requiredPeriods)
      _ (fun b sd hb => L_dispatch S b sd hb) _ st h
  refine ⟨hL, ?_⟩
  unfold periodsAllocated periodsRequired
  exact sum_alloc_le_sum_req _ ((ledgerOk_iff _).mp hL) 0 0 (by omega)

/-- Witness for C9: the mixed concrete run from the freshly initialised
ledger. -/
theorem ledger_never_over_allocates_witness :
    ledgerOk
        (allocateSubjects ⟨6, 4, [], 40⟩ [] [⟨"CS", "1", "A", "Mathematics", 5, "T"⟩]
          (initState ⟨6, 4, [], 40⟩ [⟨"CS", "1", "A", "Mathematics", 5, "T"⟩])) = true ∧
      periodsAllocated
          (allocateSubjects ⟨6, 4, [], 40⟩ [] [⟨"CS", "1", "A", "Mathematics", 5, "T"⟩]
            (initState ⟨6, 4, [], 40⟩ [⟨"CS", "1", "A", "Mathematics", 5, "T"⟩])) ≤
        periodsRequired
          (allocateSubjects ⟨6, 4, [], 40⟩ [] [⟨"CS", "1", "A", "Mathematics", 5, "T"⟩]
            (initState ⟨6, 4, [], 40⟩ [⟨"CS", "1", "A", "Mathematics", 5, "T"⟩])) :=
  ledger_never_over_allocates ⟨6, 4, [], 40⟩ []
    [⟨"CS", "1", "A", "Mathematics", 5, "T"⟩]
    (initState ⟨6, 4, [], 40⟩ [⟨"CS", "1", "A", "Mathematics", 5, "T"⟩])
    (by decide)

/-! ## Lemmas: staff parsing of separator/whitespace-only strings (C10) -/

theorem splitSep_ne_nil (l : List Char) : splitSep l ≠ [] := by
  induction l with
  | nil => simp [splitSep]
  | cons c rest ih =>
    rw [splitSep]
    split
    · simp
    · rcases h : splitSep rest with _ | ⟨piece, more⟩
      · exact absurd h ih
      · simp

theorem splitSep_chars (l : List Char) :
    ∀ piece ∈ splitSep l, ∀ ch ∈ piece, ch ∈ l ∧ isSepChar ch = false := by
  induction l with
  | nil =>
    intro piece hp ch hch
    simp [splitSep] at hp
    subst hp
    simp at hch
  | cons c rest ih =>
    intro piece hp ch hch
    rw [splitSep] at hp
    by_cases hsep : isSepChar c = true
    · rw [if_pos hsep] at hp
      rcases List.mem_cons.mp hp with h | h
      · subst h; simp at hch
      · obtain ⟨hmem, hns⟩ := ih piece h ch hch
        exact ⟨List.mem_cons_of_mem _ hmem, hns⟩
    · rw [if_neg hsep] at hp
      rcases hsplit : splitSep rest with _ | ⟨piece0, more⟩
      · exact absurd hsplit (splitSep_ne_nil rest)
      · rw [hsplit] at hp
        rcases List.mem_cons.mp hp with h | h
        · subst h
          rcases List.mem_cons.mp hch with h2 | h2
          · subst h2
            exact ⟨List.mem_cons_self _ _, by simpa using hsep⟩
          · have hpiece0 : piece0 ∈ splitSep rest := by
              rw [hsplit]; exact List.mem_cons_self _ _
            obtain ⟨hmem, hns⟩ := ih piece0 hpiece0 ch h2
            exact ⟨List.mem_cons_of_mem _ hmem, hns⟩
        · have hmore : piece ∈ splitSep rest := by
            rw [hsplit]; exact List.mem_cons_of_mem _ h
          obtain ⟨hmem, hns⟩ := ih piece hmore ch hch
          exact ⟨List.mem_cons_of_mem _ hmem, hns⟩

theorem trimChars_all_space {x : List Char}
    (h : ∀ ch ∈ x, isSpaceChar ch = true) : trimChars x = [] := by
  unfold trimChars
  have h1 : x.dropWhile isSpaceChar = [] := by
    rw [List.dropWhile_eq_nil_iff]
    exact h
  rw [h1]
  simp

theorem parseStaffMembers_sep_space_nil (s : String)
    (h : ∀ ch ∈ s.data, isSepChar ch = true ∨ isSpaceChar ch = true) :
    parseStaffMembers s = [] := by
  unfold parseStaffMembers parseStaffList
  have hnil :
      ((splitSep s.data).map trimChars).filter (fun p => p ≠ []) = [] := by
    rw [List.filter_eq_nil_iff]
    intro a ha
    obtain ⟨piece, hpiece, htrim⟩ := List.mem_map.mp ha
    have hspace : ∀ ch ∈ piece, isSpaceChar ch = true := by
      intro ch hch
      obtain ⟨hmem, hns⟩ := splitSep_chars s.data piece hpiece ch hch
      rcases h ch hmem with h1 | h1
      · rw [h1] at hns; simp at hns
      · exact h1
    rw [← htrim, trimChars_all_space hspace]
    simp
  rw [hnil]
  rfl

/-- **C10** — Requirements whose staff string holds no names: a staff
string consisting only of commas, plus signs and whitespace parses to the
empty staff list, and for any requirement whose staff string parses to
the empty list the availability oracle imposes no teacher or workload
constraint at all — the slot is available exactly when the class exists
and its grid cell at `(day, period)` holds no subject. -/
theorem empty_staff_parse_and_availability :
    (∀ s : String, (∀ ch ∈ s.data, isSepChar ch = true ∨ isSpaceChar ch = true) →
      parseStaffMembers s = []) ∧
    (∀ (S : ScheduleSettings) (st : GenState) (d p : Nat) (c staffS : String),
      parseStaffMembers staffS = [] →
      (isSlotAvailable S st d p c staffS = true ↔
        ∃ g, mapGet st.classTimetables c = some g ∧
          (cellAt g d p).subject = none)) := by
  constructor
  · exact parseStaffMembers_sep_space_nil
  · intro S st d p c staffS hparse
    unfold isSlotAvailable
    rw [hparse]
    rcases hg : mapGet st.classTimetables c with _ | g
    · simp
    · simp only [List.all_nil]
      rcases hsub : (cellAt g d p).subject with _ | v
      · simp [hsub]
      · simp [hsub]

/-- Witness for C10: the concrete staff string `" ,+ "` parses to no
names, and with it a slot on a concrete one-class state is available. -/
theorem empty_staff_parse_and_availability_witness :
    parseStaffMembers " ,+ " = [] ∧
      (isSlotAvailable ⟨1, 1, [], 5⟩
          ⟨[("X", [[⟨none, none, none⟩]])], [], [], []⟩ 0 0 "X" " ,+ " = true ↔
        ∃ g, mapGet
            (⟨[("X", [[⟨none, none, none⟩]])], [], [], []⟩ : GenState).classTimetables
            "X" = some g ∧ (cellAt g 0 0).subject = none) :=
  ⟨empty_staff_parse_and_availability.1 " ,+ " (by decide),
    empty_staff_parse_and_availability.2 ⟨1, 1, [], 5⟩
      ⟨[("X", [[⟨none, none, none⟩]])], [], [], []⟩ 0 0 "X" " ,+ " (by decide)⟩

/-! ## Lemmas: trimming and the staff join/parse round trip (C8) -/

theorem dropWhile_idem {α : Type} (p : α → Bool) :
    ∀ l : List α, List.dropWhile p (List.dropWhile p l) = List.dropWhile p l := by
  intro l
  induction l with
  | nil => simp
  | cons a t ih =>
    by_cases h : p a = true
    · simp [List.dropWhile, h, ih]
    · simp [List.dropWhile, h]

theorem dropWhile_suffix {α : Type} (p : α → Bool) :
    ∀ l : List α, ∃ u, u ++ List.dropWhile p l = l := by
  intro l
  induction l with
  | nil => exact ⟨[], rfl⟩
  | cons a t ih =>
    by_cases h : p a = true
    · obtain ⟨u, hu⟩ := ih
      exact ⟨a :: u, by simp [List.dropWhile, h, hu]⟩
    · exact ⟨[], by simp [List.dropWhile, h]⟩

theorem dropWhile_head_false {α : Type} (p : α → Bool) :
    ∀ (l : List α) (a : α) (t : List α),
      List.dropWhile p l = a :: t → p a = false := by
  intro l
  induction l with
  | nil => intro a t h; simp at h
  | cons b r ih =>
    intro a t h
    by_cases hb : p b = true
    · rw [List.dropWhile_cons_of_pos hb] at h
      exact ih a t h
    · rw [List.dropWhile_cons_of_neg hb] at h
      cases h
      simpa using hb

theorem dropWhile_of_head_false {α : Type} (p : α → Bool) (a : α) (t : List α)
    (h : p a = false) : List.dropWhile p (a :: t) = a :: t :=
  List.dropWhile_cons_of_neg (by simp [h])

/-- `trimChars` is idempotent. -/
theorem trimChars_idem (x : List Char) : trimChars (trimChars x) = trimChars x := by
  set f := x.dropWhile isSpaceChar with hf
  have ht : trimChars x = (f.reverse.dropWhile isSpaceChar).reverse := rfl
  -- the trimmed list is a prefix of `f`, whose head is not a space
  obtain ⟨u, hu⟩ := dropWhile_suffix isSpaceChar f.reverse
  have hpref : f = (trimChars x) ++ u.reverse := by
    rw [ht]
    have := congrArg List.reverse hu
    simpa [List.reverse_append] using this.symm
  have hfront : (trimChars x).dropWhile isSpaceChar = trimChars x := by
    rcases htx : trimChars x with _ | ⟨a, t⟩
    · simp
    · have hhead : f.dropWhile isSpaceChar = f := by
        rw [hf]; exact dropWhile_idem _ _
      have hfa : f = a :: (t ++ u.reverse) := by
        rw [hpref, htx]; simp
      have : isSpaceChar a = false := by
        refine dropWhile_head_false isSpaceChar f a (t ++ u.reverse) ?_
        rw [hhead, hfa]
      exact dropWhile_of_head_false isSpaceChar a t this
  have tdef : ∀ y : List Char, trimChars y =
      ((y.dropWhile isSpaceChar).reverse.dropWhile isSpaceChar).reverse :=
    fun _ => rfl
  have hrev : (trimChars x).reverse.dropWhile isSpaceChar = (trimChars x).reverse := by
    have h1 : (trimChars x).reverse = List.dropWhile isSpaceChar f.reverse := by
      rw [ht, List.reverse_reverse]
    rw [h1]; exact dropWhile_idem _ _
  rw [tdef (trimChars x), hfront, hrev, List.reverse_reverse]

theorem trimChars_subset (x : List Char) : ∀ ch ∈ trimChars x, ch ∈ x := by
  intro ch hch
  unfold trimChars at hch
  rw [List.mem_reverse] at hch
  obtain ⟨u2, hu2⟩ := dropWhile_suffix isSpaceChar (x.dropWhile isSpaceChar).reverse
  have h2 : ch ∈ (x.dropWhile isSpaceChar).reverse := by
    rw [← hu2]; exact List.mem_append_right _ hch
  rw [List.mem_reverse] at h2
  obtain ⟨u1, hu1⟩ := dropWhile_suffix isSpaceChar x
  rw [← hu1]
  exact List.mem_append_right _ h2

theorem parseStaffList_good (l : List Char) :
    ∀ piece ∈ parseStaffList l,
      piece ≠ [] ∧ (∀ ch ∈ piece, isSepChar ch = false) ∧
        trimChars piece = piece := by
  intro piece hp
  unfold parseStaffList at hp
  have hne : piece ≠ [] := by
    have := List.of_mem_filter hp
    simpa using this
  have hmem : piece ∈ (splitSep l).map trimChars := List.mem_of_mem_filter hp
  obtain ⟨raw, hraw, htrim⟩ := List.mem_map.mp hmem
  refine ⟨hne, ?_, ?_⟩
  · intro ch hch
    have hch' : ch ∈ raw := by
      rw [← htrim] at hch
      exact trimChars_subset raw ch hch
    exact (splitSep_chars l raw hraw ch hch').2
  · rw [← htrim, trimChars_idem]

theorem splitSep_no_sep (x : List Char) (h : ∀ ch ∈ x, isSepChar ch = false) :
    splitSep x = [x] := by
  induction x with
  | nil => rfl
  | cons c rest ih =>
    rw [splitSep]
    have hc : ¬ isSepChar c = true := by
      simp [h c (List.mem_cons_self _ _)]
    rw [if_neg hc]
    rw [ih (fun ch hch => h ch (List.mem_cons_of_mem _ hch))]

theorem splitSep_append_sep (r : List Char) :
    ∀ (x : List Char), (∀ ch ∈ x, isSepChar ch = false) →
      splitSep (x ++ ',' :: r) = x :: splitSep r := by
  intro x
  induction x with
  | nil =>
    intro _
    rw [List.nil_append, splitSep]
    rw [if_pos (by simp [isSepChar])]
  | cons c rest ih =>
    intro h
    rw [List.cons_append, splitSep]
    have hc : ¬ isSepChar c = true := by
      simp [h c (List.mem_cons_self _ _)]
    rw [if_neg hc]
    rw [ih (fun ch hch => h ch (List.mem_cons_of_mem _ hch))]

theorem trimChars_space_cons (x : List Char) :
    trimChars (' ' :: x) = trimChars x := by
  unfold trimChars
  rw [List.dropWhile_cons_of_pos (by simp [isSpaceChar])]

theorem parseStaffList_joinSepList :
    ∀ (parts : List (List Char)),
      (∀ piece ∈ parts,
        piece ≠ [] ∧ (∀ ch ∈ piece, isSepChar ch = false) ∧
          trimChars piece = piece) →
      parseStaffList (joinSepList parts) = parts := by
  intro parts
  induction parts with
  | nil =>
    intro _
    rfl
  | cons p rest ih =>
    intro hgood
    obtain ⟨hpne, hpns, hptrim⟩ := hgood p (List.mem_cons_self _ _)
    rcases rest with _ | ⟨q, rest'⟩
    · show parseStaffList p = [p]
      unfold parseStaffList
      rw [splitSep_no_sep p hpns]
      simp only [List.map_cons, List.map_nil, hptrim]
      simp [hpne]
    · have hJ : joinSepList (p :: q :: rest') =
          p ++ ',' :: ' ' :: joinSepList (q :: rest') := rfl
      rw [hJ]
      rcases hs : splitSep (joinSepList (q :: rest')) with _ | ⟨piece0, more⟩
      · exact absurd hs (splitSep_ne_nil _)
      · have hsplit2 : splitSep (' ' :: joinSepList (q :: rest')) =
            (' ' :: piece0) :: more := by
          rw [splitSep, if_neg (by simp [isSepChar]), hs]
        have hih := ih (fun piece hp => hgood piece (List.mem_cons_of_mem _ hp))
        unfold parseStaffList at hih ⊢
        rw [splitSep_append_sep _ p hpns, hsplit2]
        rw [hs] at hih
        simp only [List.map_cons] at hih ⊢
        rw [trimChars_space_cons, hptrim]
        rw [List.filter_cons_of_pos (by simp [hpne])]
        rw [hih]

/-- Parsing the `', '`-join of a parsed staff list gives back the same
members: re-parsing the class staff string written by the lab allocator
recovers exactly the original staff members. -/
theorem parseStaffMembers_joinStaff (s : String) :
    parseStaffMembers (joinStaff (parseStaffMembers s)) = parseStaffMembers s := by
  unfold parseStaffMembers joinStaff
  have hdata : (((parseStaffList s.data).map
      (fun l : List Char => (⟨l⟩ : String))).map String.data) =
        parseStaffList s.data := by
    rw [List.map_map]
    have h : (String.data ∘ fun l : List Char => (⟨l⟩ : String)) = id :=
      funext fun _ => rfl
    rw [h, List.map_id]
  rw [hdata]
  have hjp := parseStaffList_joinSepList (parseStaffList s.data)
    (parseStaffList_good s.data)
  show (parseStaffList (joinSepList (parseStaffList s.data))).map _ = _
  rw [hjp]

/-! ## Lemmas: the mirrored-write invariant (C8) -/

theorem mem_enum_iff_get? {α : Type} (l : List α) (i : Nat) (x : α) :
    (i, x) ∈ l.enum ↔ l.get? i = some x := by
  rw [List.get?_eq_getElem?]
  exact List.mk_mem_enum_iff_getElem?

theorem mirrorOk_eq_true_iff (st : GenState) : mirrorOk st = true ↔ MirrorInv st := by
  unfold mirrorOk MirrorInv
  rw [List.all_eq_true]
  constructor
  · intro h e he d p cell hcell
    have h1 := h e he
    rw [List.all_eq_true] at h1
    unfold cellOpt at hcell
    rcases hrow : e.2.get? d with _ | row
    · rw [hrow] at hcell; simp at hcell
    · rw [hrow] at hcell
      simp only [Option.some_bind] at hcell
      have h2 := h1 (d, row) (mem_enum_iff_get? _ _ _ |>.mpr hrow)
      rw [List.all_eq_true] at h2
      exact h2 (p, cell) (mem_enum_iff_get? _ _ _ |>.mpr hcell)
  · intro h e he
    rw [List.all_eq_true]
    intro dr hdr
    rw [List.all_eq_true]
    intro pc hpc
    rcases dr with ⟨d, row⟩
    rcases pc with ⟨p, cell⟩
    have hrow := mem_enum_iff_get? _ _ _ |>.mp hdr
    have hcell := mem_enum_iff_get? _ _ _ |>.mp hpc
    refine h e he d p cell ?_
    unfold cellOpt
    rw [hrow]
    simpa using hcell

theorem cellMirrored_eq_true_iff (st : GenState) (c : String) (d p : Nat)
    (cell : Cell) :
    cellMirrored st c d p cell = true ↔
      ∀ s, cell.subject = some s →
        ∀ t ∈ parseStaffMembers (cell.staff.getD ""),
          ∃ cell₀, teacherCellAt st t d p = some cell₀ ∧
            cell₀.subject = some s ∧ cell₀.className = some c := by
  rcases cell with ⟨cs, cf, cc⟩
  rcases cs with _ | s0
  · constructor
    · intro _ s hs
      simp at hs
    · intro _
      rfl
  · have h2 : cellMirrored st c d p ⟨some s0, cf, cc⟩ =
        ((parseStaffMembers (cf.getD "")).all fun t =>
          match mapGet st.teacherTimetables t with
          | none => false
          | some tg =>
            decide ((cellAt tg d p).subject = some s0) &&
              decide ((cellAt tg d p).className = some c)) := rfl
    rw [h2, List.all_eq_true]
    constructor
    · intro h s hs t ht
      obtain rfl : s0 = s := Option.some.inj hs
      have htt := h t ht
      rcases htg : mapGet st.teacherTimetables t with _ | tg
      · rw [htg] at htt; simp at htt
      · rw [htg] at htt
        simp only [Bool.and_eq_true, decide_eq_true_eq] at htt
        obtain ⟨hsub, hcn⟩ := htt
        rcases hco : cellOpt tg d p with _ | w
        · unfold cellAt at hsub
          rw [hco] at hsub
          simp [Cell.empty] at hsub
        · refine ⟨w, ?_, ?_, ?_⟩
          · unfold teacherCellAt
            rw [htg]
            simpa using hco
          · unfold cellAt at hsub
            rw [hco] at hsub
            simpa using hsub
          · unfold cellAt at hcn
            rw [hco] at hcn
            simpa using hcn
    · intro h t ht
      obtain ⟨cell₀, hc₀, hsub, hcn⟩ := h s0 rfl t ht
      unfold teacherCellAt at hc₀
      rcases htg : mapGet st.teacherTimetables t with _ | tg
      · rw [htg] at hc₀; simp at hc₀
      · rw [htg] at hc₀
        simp only [Option.some_bind] at hc₀
        simp only
        unfold cellAt
        rw [hc₀]
        simp [hsub, hcn]

theorem cellMirrored_congr {st st' : GenState}
    (h : st'.teacherTimetables = st.teacherTimetables) (c : String) (d p : Nat)
    (cell : Cell) :
    cellMirrored st' c d p cell = cellMirrored st c d p cell := by
  unfold cellMirrored
  rw [h]

theorem MirrorInv_of_eq {st st' : GenState}
    (hc : st'.classTimetables = st.classTimetables)
    (ht : st'.teacherTimetables = st.teacherTimetables)
    (hm : MirrorInv st) : MirrorInv st' := by
  intro e he d p cell hcell
  rw [cellMirrored_congr ht]
  exact hm e (hc ▸ he) d p cell hcell

theorem gridsWF_of_eq {S : ScheduleSettings} {st st' : GenState}
    (hc : st'.classTimetables = st.classTimetables)
    (ht : st'.teacherTimetables = st.teacherTimetables)
    (h : gridsWF S st) : gridsWF S st' := by
  obtain ⟨h1, h2⟩ := h
  exact ⟨fun e he => h1 e (hc ▸ he), fun e he => h2 e (ht ▸ he)⟩

theorem MirrorWF_of_eq {S : ScheduleSettings} {st st' : GenState}
    (hc : st'.classTimetables = st.classTimetables)
    (ht : st'.teacherTimetables = st.teacherTimetables)
    (h : MirrorWF S st) : MirrorWF S st' :=
  ⟨gridsWF_of_eq hc ht h.1, MirrorInv_of_eq hc ht h.2⟩

theorem assignLab_classTT (st : GenState) (d p : Nat) (sd : SubjectData)
    (c : String) :
    (assignLabSlotWithTracking st d p sd c).classTimetables =
      mapUpdate st.classTimetables c
        (fun g => setCell g d p sd.subject (joinStaff (parseStaffMembers sd.staff)) c) := by
  simp only [assignLabSlotWithTracking]
  rw [foldLabTeacher_classTT]

theorem cellMirrored_assign_old {st : GenState} {d p : Nat} {sd : SubjectData}
    {c : String}
    (hempty : ∀ t ∈ parseStaffMembers sd.staff,
      ((teacherCellAt st t d p).getD Cell.empty).subject = none)
    {c₀ : String} {d' p' : Nat} {cell : Cell}
    (hm : cellMirrored st c₀ d' p' cell = true) :
    cellMirrored (assignSlotWithTracking st d p sd c) c₀ d' p' cell = true := by
  rw [cellMirrored_eq_true_iff] at hm ⊢
  intro s hs t ht
  obtain ⟨cell₀, hc₀, hsub₀, hcn₀⟩ := hm s hs t ht
  refine ⟨cell₀, ?_, hsub₀, hcn₀⟩
  rw [teacherCellAt_assign]
  by_cases hcond : t ∈ parseStaffMembers sd.staff ∧ d' = d ∧ p' = p
  · exfalso
    obtain ⟨htm, rfl, rfl⟩ := hcond
    have h1 := hempty t htm
    rw [hc₀] at h1
    simp only [Option.getD_some] at h1
    rw [h1] at hsub₀
    exact Option.noConfusion hsub₀
  · rw [if_neg hcond]
    exact hc₀

theorem cellMirrored_assignLab_old {st : GenState} {d p : Nat} {sd : SubjectData}
    {c : String}
    (hempty : ∀ t ∈ parseStaffMembers sd.staff,
      ((teacherCellAt st t d p).getD Cell.empty).subject = none)
    {c₀ : String} {d' p' : Nat} {cell : Cell}
    (hm : cellMirrored st c₀ d' p' cell = true) :
    cellMirrored (assignLabSlotWithTracking st d p sd c) c₀ d' p' cell = true := by
  rw [cellMirrored_eq_true_iff] at hm ⊢
  intro s hs t ht
  obtain ⟨cell₀, hc₀, hsub₀, hcn₀⟩ := hm s hs t ht
  refine ⟨cell₀, ?_, hsub₀, hcn₀⟩
  rw [teacherCellAt_assignLab]
  by_cases hcond : t ∈ parseStaffMembers sd.staff ∧ d' = d ∧ p' = p
  · exfalso
    obtain ⟨htm, rfl, rfl⟩ := hcond
    have h1 := hempty t htm
    rw [hc₀] at h1
    simp only [Option.getD_some] at h1
    rw [h1] at hsub₀
    exact Option.noConfusion hsub₀
  · rw [if_neg hcond]
    exact hc₀

theorem cellMirrored_assign_new {S : ScheduleSettings} {st : GenState}
    {d p : Nat} {sd : SubjectData} {c : String}
    (hwfT : ∀ e ∈ st.teacherTimetables, gridWF S e.2)
    (hd : d < 6) (hp : p < S.totalPeriodsPerDay)
    (hsome : ∀ t ∈ parseStaffMembers sd.staff,
      (mapGet st.teacherTimetables t).isSome = true) :
    cellMirrored (assignSlotWithTracking st d p sd c) c d p
      ⟨some sd.subject, some sd.staff, some c⟩ = true := by
  rw [cellMirrored_eq_true_iff]
  intro s hs t ht
  obtain rfl : sd.subject = s := Option.some.inj hs
  have ht' : t ∈ parseStaffMembers sd.staff := ht
  have h1 := hsome t ht'
  rcases htg : mapGet st.teacherTimetables t with _ | tg
  · rw [htg] at h1; simp at h1
  · obtain ⟨w, hw⟩ := cellOpt_isSome_of_WF (hwfT (t, tg) (mapGet_mem htg)) hd hp
    refine ⟨⟨some sd.subject, some t, some c⟩, ?_, rfl, rfl⟩
    rw [teacherCellAt_assign, if_pos ⟨ht', rfl, rfl⟩]
    unfold teacherCellAt
    rw [htg]
    simp [hw]

theorem cellMirrored_assignLab_new {S : ScheduleSettings} {st : GenState}
    {d p : Nat} {sd : SubjectData} {c : String}
    (hwfT : ∀ e ∈ st.teacherTimetables, gridWF S e.2)
    (hd : d < 6) (hp : p < S.totalPeriodsPerDay)
    (hsome : ∀ t ∈ parseStaffMembers sd.staff,
      (mapGet st.teacherTimetables t).isSome = true) :
    cellMirrored (assignLabSlotWithTracking st d p sd c) c d p
      ⟨some sd.subject, some (joinStaff (parseStaffMembers sd.staff)), some c⟩ = true := by
  rw [cellMirrored_eq_true_iff]
  intro s hs t ht
  obtain rfl : sd.subject = s := Option.some.inj hs
  have ht' : t ∈ parseStaffMembers sd.staff := by
    have h0 : t ∈ parseStaffMembers (joinStaff (parseStaffMembers sd.staff)) := ht
    rw [parseStaffMembers_joinStaff] at h0
    exact h0
  have h1 := hsome t ht'
  rcases htg : mapGet st.teacherTimetables t with _ | tg
  · rw [htg] at h1; simp at h1
  · obtain ⟨w, hw⟩ := cellOpt_isSome_of_WF (hwfT (t, tg) (mapGet_mem htg)) hd hp
    refine ⟨⟨some sd.subject, some t, some c⟩, ?_, rfl, rfl⟩
    rw [teacherCellAt_assignLab, if_pos ⟨ht', rfl, rfl⟩]
    unfold teacherCellAt
    rw [htg]
    simp [hw]

theorem MirrorInv_assign {S : ScheduleSettings} {st : GenState} {d p : Nat}
    {sd : SubjectData} {c : String}
    (hwfT : ∀ e ∈ st.teacherTimetables, gridWF S e.2)
    (hd : d < 6) (hp : p < S.totalPeriodsPerDay)
    (hsome : ∀ t ∈ parseStaffMembers sd.staff,
      (mapGet st.teacherTimetables t).isSome = true)
    (hempty : ∀ t ∈ parseStaffMembers sd.staff,
      ((teacherCellAt st t d p).getD Cell.empty).subject = none)
    (hm : MirrorInv st) :
    MirrorInv (assignSlotWithTracking st d p sd c) := by
  intro e he d' p' cell hcell
  rw [assign_classTT] at he
  rcases mem_mapUpdate e he with hold | ⟨g, hg, rfl⟩
  · exact cellMirrored_assign_old hempty (hm e hold d' p' cell hcell)
  · have hcell' : cellOpt (setCell g d p sd.subject sd.staff c) d' p' = some cell :=
      hcell
    rw [cellOpt_setCell] at hcell'
    show cellMirrored (assignSlotWithTracking st d p sd c) c d' p' cell = true
    by_cases hpos : d' = d ∧ p' = p
    · rw [if_pos hpos] at hcell'
      obtain ⟨rfl, rfl⟩ := hpos
      rcases hw : cellOpt g d' p' with _ | w
      · rw [hw] at hcell'; simp at hcell'
      · rw [hw] at hcell'
        simp only [Option.map_some', Option.some_inj] at hcell'
        rw [← hcell']
        exact cellMirrored_assign_new hwfT hd hp hsome
    · rw [if_neg hpos] at hcell'
      exact cellMirrored_assign_old hempty
        (hm (c, g) (mapGet_mem hg) d' p' cell hcell')

theorem MirrorInv_assignLab {S : ScheduleSettings} {st : GenState} {d p : Nat}
    {sd : SubjectData} {c : String}
    (hwfT : ∀ e ∈ st.teacherTimetables, gridWF S e.2)
    (hd : d < 6) (hp : p < S.totalPeriodsPerDay)
    (hsome : ∀ t ∈ parseStaffMembers sd.staff,
      (mapGet st.teacherTimetables t).isSome = true)
    (hempty : ∀ t ∈ parseStaffMembers sd.staff,
      ((teacherCellAt st t d p).getD Cell.empty).subject = none)
    (hm : MirrorInv st) :
    MirrorInv (assignLabSlotWithTracking st d p sd c) := by
  intro e he d' p' cell hcell
  rw [assignLab_classTT] at he
  rcases mem_mapUpdate e he with hold | ⟨g, hg, rfl⟩
  · exact cellMirrored_assignLab_old hempty (hm e hold d' p' cell hcell)
  · have hcell' : cellOpt
        (setCell g d p sd.subject (joinStaff (parseStaffMembers sd.staff)) c) d' p' =
          some cell := hcell
    rw [cellOpt_setCell] at hcell'
    show cellMirrored (assignLabSlotWithTracking st d p sd c) c d' p' cell = true
    by_cases hpos : d' = d ∧ p' = p
    · rw [if_pos hpos] at hcell'
      obtain ⟨rfl, rfl⟩ := hpos
      rcases hw : cellOpt g d' p' with _ | w
      · rw [hw] at hcell'; simp at hcell'
      · rw [hw] at hcell'
        simp only [Option.map_some', Option.some_inj] at hcell'
        rw [← hcell']
        exact cellMirrored_assignLab_new hwfT hd hp hsome
    · rw [if_neg hpos] at hcell'
      exact cellMirrored_assignLab_old hempty
        (hm (c, g) (mapGet_mem hg) d' p' cell hcell')

theorem gridWF_entries_mapUpdate (S : ScheduleSettings)
    (m : List (String × Grid)) (k : String) (f : Grid → Grid)
    (hf : ∀ g, gridWF S g → gridWF S (f g))
    (h : ∀ e ∈ m, gridWF S e.2) :
    ∀ e ∈ mapUpdate m k f, gridWF S e.2 := by
  intro e he
  rcases mem_mapUpdate e he with h1 | ⟨g, hg, rfl⟩
  · exact h e h1
  · exact hf g (h (k, g) (mapGet_mem hg))

theorem teacherWF_foldTeacher (S : ScheduleSettings) (d p : Nat)
    (subj c : String) :
    ∀ (l : List String) (st : GenState),
      (∀ e ∈ st.teacherTimetables, gridWF S e.2) →
      ∀ e ∈ (l.foldl (assignTeacherStep d p subj c) st).teacherTimetables,
        gridWF S e.2 := by
  intro l
  induction l with
  | nil => intro st h; exact h
  | cons x xs ih =>
    intro st h
    rw [List.foldl_cons]
    refine ih _ ?_
    have hstep : (assignTeacherStep d p subj c st x).teacherTimetables =
        mapUpdate st.teacherTimetables x (fun g => setCell g d p subj x c) := rfl
    rw [hstep]
    exact gridWF_entries_mapUpdate S _ _ _
      (fun g hg => gridWF_setCell S g d p subj x c hg) h

theorem teacherWF_foldLabTeacher (S : ScheduleSettings) (d p : Nat)
    (subj c : String) :
    ∀ (l : List String) (st : GenState),
      (∀ e ∈ st.teacherTimetables, gridWF S e.2) →
      ∀ e ∈ (l.foldl (labTeacherStep d p subj c) st).teacherTimetables,
        gridWF S e.2 := by
  intro l
  induction l with
  | nil => intro st h; exact h
  | cons x xs ih =>
    intro st h
    rw [List.foldl_cons]
    refine ih _ ?_
    have hstep : (labTeacherStep d p subj c st x).teacherTimetables =
        mapUpdate st.teacherTimetables x (fun g => setCell g d p subj x c) := rfl
    rw [hstep]
    exact gridWF_entries_mapUpdate S _ _ _
      (fun g hg => gridWF_setCell S g d p subj x c hg) h

theorem gridsWF_assign {S : ScheduleSettings} {st : GenState} {d p : Nat}
    {sd : SubjectData} {c : String} (h : gridsWF S st) :
    gridsWF S (assignSlotWithTracking st d p sd c) := by
  obtain ⟨hc, ht⟩ := h
  constructor
  · rw [assign_classTT]
    exact gridWF_entries_mapUpdate S _ _ _
      (fun g hg => gridWF_setCell S g d p sd.subject sd.staff c hg) hc
  · simp only [assignSlotWithTracking]
    exact teacherWF_foldTeacher S d p sd.subject c _ _ ht

theorem gridsWF_assignLab {S : ScheduleSettings} {st : GenState} {d p : Nat}
    {sd : SubjectData} {c : String} (h : gridsWF S st) :
    gridsWF S (assignLabSlotWithTracking st d p sd c) := by
  obtain ⟨hc, ht⟩ := h
  constructor
  · rw [assignLab_classTT]
    exact gridWF_entries_mapUpdate S _ _ _
      (fun g hg => gridWF_setCell S g d p sd.subject
        (joinStaff (parseStaffMembers sd.staff)) c hg) hc
  · simp only [assignLabSlotWithTracking]
    exact teacherWF_foldLabTeacher S d p sd.subject c _ _ ht

theorem MirrorWF_commitSlot {S : ScheduleSettings} {st : GenState} {d p : Nat}
    {sd : SubjectData} {c key : String}
    (hav : isSlotAvailable S st d p c sd.staff = true)
    (hd : d < 6) (hp : p < S.totalPeriodsPerDay)
    (h : MirrorWF S st) : MirrorWF S (commitSlot st d p sd c key) := by
  obtain ⟨hwf, hm⟩ := h
  have hsome : ∀ t ∈ parseStaffMembers sd.staff,
      (mapGet st.teacherTimetables t).isSome = true := by
    intro t ht
    obtain ⟨tg, htg, _, _⟩ := avail_staff hav t ht
    rw [htg]; rfl
  have hempty : ∀ t ∈ parseStaffMembers sd.staff,
      ((teacherCellAt st t d p).getD Cell.empty).subject = none := by
    intro t ht
    obtain ⟨tg, htg, hnone, _⟩ := avail_staff hav t ht
    unfold teacherCellAt
    rw [htg]
    simp only [Option.some_bind]
    exact hnone
  unfold commitSlot
  constructor
  · exact gridsWF_of_eq (bumpAlloc_classTT _ _) (bumpAlloc_teacherTT _ _)
      (gridsWF_assign hwf)
  · exact MirrorInv_of_eq (bumpAlloc_classTT _ _) (bumpAlloc_teacherTT _ _)
      (MirrorInv_assign hwf.2 hd hp hsome hempty hm)

theorem MirrorWF_tryCommit (S : ScheduleSettings) (sd : SubjectData)
    (c key : String) {st : GenState} {d p : Nat}
    (hd : d < 6) (hp : p < S.totalPeriodsPerDay)
    (h : MirrorWF S st) : MirrorWF S (tryCommit S sd c key st d p) := by
  unfold tryCommit
  split
  · rename_i hcond
    exact MirrorWF_commitSlot hcond.2 hd hp h
  · exact h

theorem MirrorWF_foldl {α : Type} (S : ScheduleSettings)
    (f : GenState → α → GenState) :
    ∀ (l : List α),
      (∀ (st : GenState) (a : α), a ∈ l → MirrorWF S st → MirrorWF S (f st a)) →
      ∀ st : GenState, MirrorWF S st → MirrorWF S (List.foldl f st l) := by
  intro l
  induction l with
  | nil => intro _ st h; exact h
  | cons x xs ih =>
    intro hstep st h
    rw [List.foldl_cons]
    exact ih (fun st a ha => hstep st a (List.mem_cons_of_mem _ ha)) _
      (hstep st x (List.mem_cons_self _ _) h)

theorem MirrorWF_foldl_fst {α : Type} (S : ScheduleSettings)
    (f : GenState × Bool → α → GenState × Bool) :
    ∀ (l : List α),
      (∀ (acc : GenState × Bool) (a : α), a ∈ l →
        MirrorWF S acc.1 → MirrorWF S (f acc a).1) →
      ∀ acc : GenState × Bool, MirrorWF S acc.1 →
        MirrorWF S (List.foldl f acc l).1 := by
  intro l
  induction l with
  | nil => intro _ acc h; exact h
  | cons x xs ih =>
    intro hstep acc h
    rw [List.foldl_cons]
    exact ih (fun acc a ha => hstep acc a (List.mem_cons_of_mem _ ha)) _
      (hstep acc x (List.mem_cons_self _ _) h)

theorem MirrorWF_anySlotSweep (S : ScheduleSettings) (sd : SubjectData)
    (c key : String) {st : GenState} (h : MirrorWF S st) :
    MirrorWF S (anySlotSweep S sd c key st) := by
  unfold anySlotSweep
  refine MirrorWF_foldl S _ (List.range 6) ?_ st h
  intro st1 d hd hm1
  refine MirrorWF_foldl S _ (List.range S.totalPeriodsPerDay) ?_ st1 hm1
  intro st2 p hp hm2
  split
  · exact hm2
  · exact MirrorWF_tryCommit S sd c key (List.mem_range.mp hd)
      (List.mem_range.mp hp) hm2

theorem MirrorWF_phase (S : ScheduleSettings) (sd : SubjectData)
    (c key : String) (st : GenState) (start : Nat)
    (h : MirrorWF S st) :
    MirrorWF S
      ((List.range' start (S.totalPeriodsPerDay - start)).foldl
        (fun st p =>
          if skipPeriod S p then st
          else (List.range 6).foldl (fun st d => tryCommit S sd c key st d p) st)
        st) := by
  refine MirrorWF_foldl S _ _ ?_ st h
  intro st1 p hp hm1
  have hpN : p < S.totalPeriodsPerDay := by
    rw [List.mem_range'_1] at hp
    omega
  split
  · exact hm1
  · refine MirrorWF_foldl S _ (List.range 6) ?_ st1 hm1
    intro st2 d hd hm2
    exact MirrorWF_tryCommit S sd c key (List.mem_range.mp hd) hpN hm2

theorem MirrorWF_allocateLibraryPeriods (S : ScheduleSettings)
    (sd : SubjectData) (c : String) {st : GenState} (h : MirrorWF S st) :
    MirrorWF S (allocateLibraryPeriods S sd c st) := by
  unfold allocateLibraryPeriods
  split
  · exact h
  · split
    · exact h
    · exact MirrorWF_anySlotSweep S sd c (subjectKey sd)
        (MirrorWF_phase S sd c (subjectKey sd) st (libStart S) h)

theorem MirrorWF_allocateGamesPeriods (S : ScheduleSettings)
    (sd : SubjectData) (c : String) {st : GenState} (h : MirrorWF S st) :
    MirrorWF S (allocateGamesPeriods S sd c st) := by
  unfold allocateGamesPeriods
  split
  · exact h
  · split
    · exact h
    · exact MirrorWF_anySlotSweep S sd c (subjectKey sd)
        (MirrorWF_phase S sd c (subjectKey sd) st (gamesStart S) h)

theorem MirrorWF_regProbe (S : ScheduleSettings) (sd : SubjectData)
    (c key : String) (strict : Bool) (acc : GenState × Bool) (d p : Nat)
    (hd : d < 6) (hp : p < S.totalPeriodsPerDay)
    (h : MirrorWF S acc.1) :
    MirrorWF S (regProbe S sd c key strict acc d p).1 := by
  rcases acc with ⟨st, b⟩
  cases b
  · simp only [regProbe]
    split
    · exact h
    · split
      · rename_i hcond
        rw [Bool.and_eq_true] at hcond
        exact MirrorWF_commitSlot hcond.1 hd hp h
      · exact h
  · simp only [regProbe]
    exact h

theorem MirrorWF_regPass (S : ScheduleSettings) (sd : SubjectData)
    (c key : String) (strict : Bool) {st : GenState} (h : MirrorWF S st) :
    MirrorWF S (regPass S sd c key strict st).1 := by
  unfold regPass
  refine MirrorWF_foldl_fst S _ (List.range 6) ?_ (st, false) h
  intro acc d hd hacc
  refine MirrorWF_foldl_fst S _ (List.range S.totalPeriodsPerDay) ?_ acc hacc
  intro acc2 p hp hacc2
  exact MirrorWF_regProbe S sd c key strict acc2 d p (List.mem_range.mp hd)
    (List.mem_range.mp hp) hacc2

theorem MirrorWF_regLoop (S : ScheduleSettings) (sd : SubjectData)
    (c key : String) :
    ∀ (k : Nat) (st : GenState), MirrorWF S st →
      MirrorWF S (regLoop S sd c key k st) := by
  intro k
  induction k with
  | zero => intro st h; exact h
  | succ k ih =>
    intro st h
    unfold regLoop
    rcases h1 : regPass S sd c key true st with ⟨st1, b1⟩
    have hm1 : MirrorWF S st1 := by
      have := MirrorWF_regPass S sd c key true h
      rw [h1] at this; exact this
    cases b1
    · simp only
      rcases h2 : regPass S sd c key false st1 with ⟨st2, b2⟩
      have hm2 : MirrorWF S st2 := by
        have := MirrorWF_regPass S sd c key false hm1
        rw [h2] at this; exact this
      cases b2
      · simp only
        exact hm2
      · simp only
        exact ih st2 hm2
    · simp only
      exact ih st1 hm1

theorem MirrorWF_allocateRegularPeriods (S : ScheduleSettings)
    (sd : SubjectData) (c : String) {st : GenState} (h : MirrorWF S st) :
    MirrorWF S (allocateRegularPeriods S sd c st) := by
  simp only [allocateRegularPeriods]
  split
  · exact h
  · split
    · exact h
    · exact MirrorWF_regLoop S sd c (subjectKey sd) _ st h

theorem mapGet_mapUpdate_isSome {α : Type} (m : List (String × α)) (k : String)
    (f : α → α) (k' : String) :
    (mapGet (mapUpdate m k f) k').isSome = (mapGet m k').isSome := by
  rw [mapGet_mapUpdate]
  by_cases h : k' = k
  · subst h
    rcases h2 : mapGet m k' with _ | v <;> simp [h2]
  · rw [if_neg h]

theorem teacherTT_isSome_foldLabTeacher (d p : Nat) (subj c : String) :
    ∀ (l : List String) (st : GenState) (t' : String),
      (mapGet (l.foldl (labTeacherStep d p subj c) st).teacherTimetables t').isSome =
        (mapGet st.teacherTimetables t').isSome := by
  intro l
  induction l with
  | nil => intro st t'; rfl
  | cons x xs ih =>
    intro st t'
    rw [List.foldl_cons, ih]
    have hstep : (labTeacherStep d p subj c st x).teacherTimetables =
        mapUpdate st.teacherTimetables x (fun g => setCell g d p subj x c) := rfl
    rw [hstep, mapGet_mapUpdate_isSome]

theorem assignLab_teacherTT_isSome (st : GenState) (d p : Nat)
    (sd : SubjectData) (c t' : String) :
    (mapGet (assignLabSlotWithTracking st d p sd c).teacherTimetables t').isSome =
      (mapGet st.teacherTimetables t').isSome := by
  simp only [assignLabSlotWithTracking]
  rw [teacherTT_isSome_foldLabTeacher]

theorem MirrorWF_labBatch (S : ScheduleSettings) (sd : SubjectData)
    (c key : String) (day : Nat) (hday : day < 6) :
    ∀ (l : List Nat) (st : GenState), l.Nodup →
      (∀ q ∈ l, q < S.totalPeriodsPerDay) →
      (∀ q ∈ l, ∀ t ∈ parseStaffMembers sd.staff,
        (mapGet st.teacherTimetables t).isSome = true ∧
          ((teacherCellAt st t day q).getD Cell.empty).subject = none) →
      MirrorWF S st →
      MirrorWF S (l.foldl
        (fun st p => bumpAlloc (assignLabSlotWithTracking st day p sd c) key) st) := by
  intro l
  induction l with
  | nil => intro st _ _ _ h; exact h
  | cons x xs ih =>
    intro st hnd hbound hstaff h
    rw [List.foldl_cons]
    have hx_bound := hbound x (List.mem_cons_self _ _)
    have hx_staff := hstaff x (List.mem_cons_self _ _)
    have h1 : MirrorWF S (bumpAlloc (assignLabSlotWithTracking st day x sd c) key) := by
      constructor
      · exact gridsWF_of_eq (bumpAlloc_classTT _ _) (bumpAlloc_teacherTT _ _)
          (gridsWF_assignLab h.1)
      · refine MirrorInv_of_eq (bumpAlloc_classTT _ _) (bumpAlloc_teacherTT _ _) ?_
        exact MirrorInv_assignLab h.1.2 hday hx_bound
          (fun t ht => (hx_staff t ht).1) (fun t ht => (hx_staff t ht).2) h.2
    refine ih _ (List.nodup_cons.mp hnd).2
      (fun q hq => hbound q (List.mem_cons_of_mem _ hq)) ?_ h1
    intro q hq t ht
    have hqx : q ≠ x := fun he => (List.nodup_cons.mp hnd).1 (he ▸ hq)
    obtain ⟨hsome, hempty⟩ := hstaff q (List.mem_cons_of_mem _ hq) t ht
    constructor
    · have hb : (bumpAlloc (assignLabSlotWithTracking st day x sd c) key).teacherTimetables
          = (assignLabSlotWithTracking st day x sd c).teacherTimetables := rfl
      rw [hb, assignLab_teacherTT_isSome]
      exact hsome
    · have hT : teacherCellAt (bumpAlloc (assignLabSlotWithTracking st day x sd c) key)
          t day q = teacherCellAt st t day q := by
        rw [teacherCellAt_of_teacherTT (bumpAlloc_teacherTT _ _),
          teacherCellAt_assignLab]
        rw [if_neg (fun hcc => hqx hcc.2.2)]
      rw [hT]
      exact hempty

theorem MirrorWF_labCommit (S : ScheduleSettings) (sd : SubjectData)
    (c key : String) {st : GenState} {day : Nat} {slots : List Nat} {k : Nat}
    (hday : day < 6) (hnd : (slots.take k).Nodup)
    (hgood : ∀ q ∈ slots.take k, goodLabSlot S st day c sd.staff sd.subject q)
    (h : MirrorWF S st) :
    MirrorWF S (labCommit S sd c key st day slots k) := by
  simp only [labCommit]
  refine MirrorWF_of_eq (labWork_classTT _ _ _) (labWork_teacherTT _ _ _) ?_
  refine MirrorWF_labBatch S sd c key day hday (slots.take k) st hnd ?_ ?_ h
  · intro q hq
    exact (hgood q hq).2.2
  · intro q hq t ht
    have hav := labAvail_basic (hgood q hq).2.1
    obtain ⟨tg, htg, hnone, _⟩ := avail_staff hav t ht
    constructor
    · rw [htg]; rfl
    · unfold teacherCellAt
      rw [htg]
      simp only [Option.some_bind]
      exact hnone

theorem MirrorWF_labTryDays (S : ScheduleSettings) (sd : SubjectData)
    (c : String) (k : Nat) (hk : 0 < k) (days : List Nat)
    (hdays : ∀ day ∈ days, day < 6) {st : GenState} (h : MirrorWF S st) :
    MirrorWF S (labTryDays S sd c k st days) := by
  rcases labTryDays_outcome S sd c k hk days st with heq | ⟨day, hday, s, heq, hgood⟩
  · rw [heq]; exact h
  · rw [heq]
    refine MirrorWF_labCommit S sd c (subjectKey sd) (hdays day hday) ?_ ?_ h
    · rw [take_range', Nat.min_self]
      exact List.nodup_range' _ _ 1 Nat.one_pos
    · intro q hq
      rw [take_range', Nat.min_self] at hq
      exact hgood q hq

theorem MirrorWF_allocateConsecutivePeriods (S : ScheduleSettings)
    (sd : SubjectData) (c : String) {st : GenState} (h : MirrorWF S st) :
    MirrorWF S (allocateConsecutivePeriods S sd c st) := by
  simp only [allocateConsecutivePeriods, allocateAllLabPeriodsConsecutively]
  by_cases hrem : getRemainingPeriods st sd = 0
  · rw [if_pos hrem]; exact h
  · rw [if_neg hrem]
    exact MirrorWF_labTryDays S sd c _ (Nat.pos_of_ne_zero hrem) (List.range 6)
      (fun day hd => List.mem_range.mp hd) h

theorem MirrorWF_dispatch (S : ScheduleSettings) (st : GenState)
    (sd : SubjectData) (h : MirrorWF S st) :
    MirrorWF S (dispatchAllocate S st sd) := by
  unfold dispatchAllocate
  split
  · exact MirrorWF_allocateConsecutivePeriods S sd _ h
  · split
    · exact MirrorWF_allocateLibraryPeriods S sd _ h
    · split
      · exact MirrorWF_allocateGamesPeriods S sd _ h
      · exact MirrorWF_allocateRegularPeriods S sd _ h

theorem MirrorWF_allocateSubjects (S : ScheduleSettings)
    (prefs : List TeacherPreference) (rows : List SubjectData)
    {st : GenState} (h : MirrorWF S st) :
    MirrorWF S (allocateSubjects S prefs rows st) := by
  unfold allocateSubjects
  refine MirrorWF_foldl S _ _ ?_ st h
  intro st1 sd _ h1
  exact MirrorWF_dispatch S st1 sd h1

/-- **C8** — Mirrored-write invariant: starting from any state whose grids
are well-formed 6 × `totalPeriodsPerDay` rectangles and whose class-grid
cells are all mirrored (`mirrorOk`), a full allocation pass preserves the
mirror: in the generated timetables, every class-grid cell that holds a
subject has, for each individual staff member parsed (comma/plus
separated) from that cell's staff string, a teacher-grid cell at the same
day and period holding the same subject and the same class name.  Both
`assignSlotWithTracking` and `assignLabSlotWithTracking` mirror their
class-grid write into every parsed staff member's teacher grid, and
re-parsing the `', '`-joined staff string written by the lab path recovers
exactly the original members. -/
theorem mirrored_write_invariant (S : ScheduleSettings)
    (prefs : List TeacherPreference) (rows : List SubjectData)
    (st : GenState) (hwf : gridsWF S st) (hm : mirrorOk st = true) :
    mirrorOk (allocateSubjects S prefs rows st) = true := by
  have h0 : MirrorWF S st := ⟨hwf, (mirrorOk_eq_true_iff st).mp hm⟩
  exact (mirrorOk_eq_true_iff _).mpr (MirrorWF_allocateSubjects S prefs rows h0).2

/-- Witness for C8 at a concrete input: the freshly initialised state for
one `Physics` row is well-formed and mirrored, and the full allocation
pass keeps `mirrorOk` true. -/
theorem mirrored_write_invariant_witness :
    mirrorOk
      (allocateSubjects ⟨2, 2, [], 5⟩ []
        [⟨"CS", "1", "A", "Physics", 1, "T"⟩]
        (initState ⟨2, 2, [], 5⟩ [⟨"CS", "1", "A", "Physics", 1, "T"⟩])) = true :=
  mirrored_write_invariant ⟨2, 2, [], 5⟩ []
    [⟨"CS", "1", "A", "Physics", 1, "T"⟩]
    (initState ⟨2, 2, [], 5⟩ [⟨"CS", "1", "A", "Physics", 1, "T"⟩])
    (by decide) (by decide)

end TimetableBalancer
